import Mathlib

/-!
# Verification of the gdb storage engine (package `storageengine`)

A shallow embedding, in Lean 4, of the row codec, schema codec, page
placement, recovery loader and query layer of the gdb single-file storage
engine, together with theorems settling the specification claims about it.

Modelling conventions:

* Go byte buffers are `List Nat` with every element `< 256`; multi-byte
  integers are little-endian, mirroring `encoding/binary.LittleEndian`.
* Go strings are byte sequences (`GoStr := List Nat`); Go's `<` on strings
  is byte-wise lexicographic comparison.
* Go `interface{}` values that can reach the engine's row codec are the
  closed union `GoVal` (the integer kinds, `float32`, `float64`, `string`,
  `bool`); a Go `nil` interface is `Option GoVal`'s `none`.
* Go `float64`/`float32` values are carried as their IEEE-754 bit patterns
  (`Nat < 2^64` resp. `< 2^32`); arithmetic on them (ordering, truncation,
  conversion from integers) is defined on the bit patterns below, following
  IEEE-754 semantics.
* A Go map `map[string]interface{}` is an association list with pairwise
  distinct keys; `mapLookup` is map indexing, `mapInsert` is map update.
* Go runtime panics (failed type assertions, out-of-range slice indexing)
  are modelled as `none` / a distinguished `panicked` outcome, separate
  from returned `error` values.
-/

namespace Gdb

set_option maxRecDepth 4000

/-! ## Bytes and little-endian integers -/

/-- Little-endian bytes of `n` as a `uint16` (mirrors `PutUint16`). -/
def u16le (n : Nat) : List Nat := [n % 256, n / 256 % 256]

/-- Little-endian bytes of `n` as a `uint32` (mirrors `PutUint32`). -/
def u32le (n : Nat) : List Nat :=
  [n % 256, n / 256 % 256, n / 256 ^ 2 % 256, n / 256 ^ 3 % 256]

/-- Little-endian bytes of `n` as a `uint64` (mirrors `PutUint64`). -/
def u64le (n : Nat) : List Nat :=
  [n % 256, n / 256 % 256, n / 256 ^ 2 % 256, n / 256 ^ 3 % 256,
   n / 256 ^ 4 % 256, n / 256 ^ 5 % 256, n / 256 ^ 6 % 256, n / 256 ^ 7 % 256]

/-- Byte `i` of buffer `l` (0 when out of range; in-range use only). -/
def byteAt (l : List Nat) (i : Nat) : Nat := l.getD i 0

/-- Read a little-endian `uint16` at offset `i` (mirrors `Uint16`). -/
def readU16 (l : List Nat) (i : Nat) : Nat :=
  byteAt l i + 256 * byteAt l (i + 1)

/-- Read a little-endian `uint32` at offset `i` (mirrors `Uint32`). -/
def readU32 (l : List Nat) (i : Nat) : Nat :=
  byteAt l i + 256 * byteAt l (i + 1) + 256 ^ 2 * byteAt l (i + 2) +
    256 ^ 3 * byteAt l (i + 3)

/-- Read a little-endian `uint64` at offset `i` (mirrors `Uint64`). -/
def readU64 (l : List Nat) (i : Nat) : Nat :=
  byteAt l i + 256 * byteAt l (i + 1) + 256 ^ 2 * byteAt l (i + 2) +
    256 ^ 3 * byteAt l (i + 3) + 256 ^ 4 * byteAt l (i + 4) +
    256 ^ 5 * byteAt l (i + 5) + 256 ^ 6 * byteAt l (i + 6) +
    256 ^ 7 * byteAt l (i + 7)

/-- Overwrite bytes of `d` starting at offset `i` with `bs`
(the semantics of Go `copy(d[i:i+len(bs)], bs)` when in range;
out-of-range positions are silently dropped, which in-range hypotheses
in the theorems below rule out). -/
def writeBytes (d : List Nat) (i : Nat) : List Nat → List Nat
  | [] => d
  | b :: bs => writeBytes (d.set i b) (i + 1) bs

/-! ## IEEE-754 doubles as bit patterns

Go `float64` values are modelled by their IEEE-754 bit patterns
(`math.Float64bits` / `math.Float64frombits` are then the identity).
`f64class` decodes a pattern into NaN, an infinity, or a finite value;
a finite value is carried as the integer `value * 2 ^ 1074`, which is exact
for every finite double. -/

/-- Semantic class of a 64-bit IEEE-754 pattern.  A finite double
`v` is represented as `.fin (v * 2 ^ 1074) : FClass` (an exact integer). -/
inductive FClass where
  | nan : FClass
  | ninf : FClass
  | pinf : FClass
  | fin (scaled : Int) : FClass
deriving DecidableEq, Repr

/-- Assemble a 64-bit pattern from sign, 11-bit exponent and 52-bit fraction. -/
def mkF64 (sign : Bool) (exp frac : Nat) : Nat :=
  (if sign then 2 ^ 63 else 0) + exp * 2 ^ 52 + frac

/-- Decode an IEEE-754 double bit pattern into its semantic class. -/
def f64class (b : Nat) : FClass :=
  let s := b / 2 ^ 63 % 2
  let e := b / 2 ^ 52 % 2 ^ 11
  let f := b % 2 ^ 52
  if e = 2047 then
    if f = 0 then (if s = 1 then .ninf else .pinf) else .nan
  else
    let mag : Nat := if e = 0 then f else (2 ^ 52 + f) * 2 ^ (e - 1)
    .fin (if s = 1 then -(mag : Int) else (mag : Int))

/-- IEEE-754 `<` on semantic classes (any comparison with NaN is false;
`-0.0 = +0.0` holds because both decode to `.fin 0`). -/
def fclassLt : FClass → FClass → Bool
  | .nan, _ => false
  | _, .nan => false
  | .ninf, .ninf => false
  | .ninf, _ => true
  | _, .ninf => false
  | .pinf, _ => false
  | .fin _, .pinf => true
  | .fin x, .fin y => x < y

/-- IEEE-754 `<` on double bit patterns (the semantics of Go `<` on
`float64`). -/
def f64lt (a b : Nat) : Bool := fclassLt (f64class a) (f64class b)

/-- IEEE-754 `==` on double bit patterns (the semantics of Go `==` on
`float64`): false whenever either side is NaN, `-0.0 == +0.0`. -/
def f64eq (a b : Nat) : Bool :=
  match f64class a, f64class b with
  | .nan, _ => false
  | _, .nan => false
  | .ninf, .ninf => true
  | .pinf, .pinf => true
  | .fin x, .fin y => x == y
  | _, _ => false

/-- `f == math.Trunc(f)`, i.e. `f` is NaN-free and has no fractional part
(±Inf satisfy this: `Trunc` fixes them and they compare equal to
themselves). This is the test `validateValueType` applies to floats
offered to an Integer column. -/
def f64eqTruncSelf (b : Nat) : Bool :=
  match f64class b with
  | .nan => false
  | .ninf => true
  | .pinf => true
  | .fin v => (2 : Int) ^ 1074 ∣ v

/-- Round `n / 2 ^ shift` to nearest, ties to even. -/
def roundNE (n shift : Nat) : Nat :=
  let q := n / 2 ^ shift
  let r := n % 2 ^ shift
  let half := 2 ^ (shift - 1)
  if shift = 0 then n
  else if r > half ∨ (r = half ∧ q % 2 = 1) then q + 1 else q

/-- Bit pattern of `float64(n)` for an integer `n` (Go's int-to-float
conversion, round to nearest even; exact whenever `|n| ≤ 2 ^ 53`).
`int64`/`int` inputs never overflow the double exponent range. -/
def f64ofInt (n : Int) : Nat :=
  if n = 0 then 0
  else
    let s := n < 0
    let m := n.natAbs
    let p := Nat.log2 m
    if p ≤ 52 then
      mkF64 s (p + 1023) (m * 2 ^ (52 - p) - 2 ^ 52)
    else
      let q := roundNE m (p - 52)
      if q = 2 ^ 53 then mkF64 s (p + 1024) 0
      else mkF64 s (p + 1023) (q - 2 ^ 52)

/-- Truncation of a double toward zero into Go `int64`
(`v := int64(f)` in `serializeRow`'s Integer case). Conversion of NaN,
infinities and out-of-range values is implementation-dependent in Go;
amd64 yields the minimum `int64`, which is what we model. (No theorem
below depends on these corner cases.) -/
def f64toInt64 (b : Nat) : Int :=
  match f64class b with
  | .nan => -(2 ^ 63)
  | .ninf => -(2 ^ 63)
  | .pinf => -(2 ^ 63)
  | .fin v =>
      let t : Int := v.tdiv (2 ^ 1074)
      if t < -(2 ^ 63) ∨ 2 ^ 63 ≤ t then -(2 ^ 63) else t

/-- Semantic class of a 32-bit IEEE-754 pattern, scaled like `f64class`
(a finite single `v` maps to `.fin (v * 2 ^ 1074)`; singles embed exactly in
this scale because `2 ^ 1074 * 2 ^ (e - 276)` is integral for every single
exponent). -/
def f32class (b : Nat) : FClass :=
  let s := b / 2 ^ 31 % 2
  let e := b / 2 ^ 23 % 2 ^ 8
  let f := b % 2 ^ 23
  if e = 255 then
    if f = 0 then (if s = 1 then .ninf else .pinf) else .nan
  else
    -- single value: (2^23 + f) * 2 ^ (e - 150) (normal), f * 2 ^ (-149) (subnormal)
    -- scaled by 2 ^ 1074: exponent offset 1074 - 149 = 925
    let mag : Nat := if e = 0 then f * 2 ^ 925 else (2 ^ 23 + f) * 2 ^ (e + 924)
    .fin (if s = 1 then -(mag : Int) else (mag : Int))

/-- Bit pattern of `float64(x)` for a `float32` bit pattern `x` (exact for
all non-NaN singles; a NaN converts to a NaN with the payload shifted,
matching amd64). -/
def f32toF64bits (b : Nat) : Nat :=
  let s := b / 2 ^ 31 % 2 == 1
  let e := b / 2 ^ 23 % 2 ^ 8
  let f := b % 2 ^ 23
  if e = 255 then
    -- ±Inf / NaN: widen exponent to 2047, shift payload into the high bits
    mkF64 s 2047 (f * 2 ^ 29)
  else if e = 0 then
    if f = 0 then mkF64 s 0 0
    else
      -- subnormal single f * 2^(-149): normalize into a (normal) double
      let p := Nat.log2 f
      mkF64 s (p + 874) (f * 2 ^ (52 - p) - 2 ^ 52)
  else
    mkF64 s (e + 896) (f * 2 ^ 29)

/-! ## Values, columns, tables, rows (`types.go` and the dynamic values) -/

/-- A Go string, as its byte sequence. -/
abbrev GoStr := List Nat

/-- The Go integer kinds that can appear in an `interface{}` value handed
to the engine. -/
inductive IntKind where
  | kInt | kInt8 | kInt16 | kInt32 | kInt64
  | kUInt | kUInt8 | kUInt16 | kUInt32 | kUInt64
deriving DecidableEq, Repr

/-- The closed union of dynamic (`interface{}`) values the engine's codec
and query layer distinguish.  Integer kinds carry their mathematical value
(unsigned kinds are `≥ 0`), floats carry IEEE-754 bit patterns. -/
inductive GoVal where
  | gInt (k : IntKind) (n : Int)
  | gF32 (bits : Nat)
  | gF64 (bits : Nat)
  | gStr (s : GoStr)
  | gBool (b : Bool)
deriving DecidableEq, Repr

/-- `ColumnType` constants from `types.go` (`ColumnType` is a Go byte;
iota order `TInteger, Tstring, Tfloat, Tbool`). -/
def TInteger : Nat := 0

def Tstring : Nat := 1

def Tfloat : Nat := 2

def Tbool : Nat := 3

/-- `PageType` constants from `types.go` (iota order
`PTFree, PTTable, PTData, PTIndex`). -/
def PTFree : Nat := 0

def PTTable : Nat := 1

def PTData : Nat := 2

def PTIndex : Nat := 3

/-- `Column` from `types.go` (`Type` is a byte-valued `ColumnType`). -/
structure Column where
  name : GoStr
  type : Nat
  notNull : Bool
deriving DecidableEq, Repr

/-- `Table` from `types.go` (`ID` is `uint32`, page ids are `uint64`). -/
@[ext]
structure Table where
  id : Nat
  name : GoStr
  columns : List Column
  pk : GoStr
  firstPageID : Nat
  lastPageID : Nat
deriving DecidableEq, Repr

/-- A `map[string]interface{}`, as an association list with distinct keys.
An entry `(k, none)` is a key present with a Go `nil` value; a key that is
absent from the list is absent from the map. -/
abbrev RowValues := List (GoStr × Option GoVal)

/-- Map indexing `m[k]`: `none` = key absent, `some v` = key present with
value `v` (which may itself be a Go `nil`). -/
def mapLookup (m : RowValues) (k : GoStr) : Option (Option GoVal) :=
  match m with
  | [] => none
  | (k', v) :: rest => if k' = k then some v else mapLookup rest k

/-- Map update `m[k] = v`. -/
def mapInsert (m : RowValues) (k : GoStr) (v : Option GoVal) : RowValues :=
  match m with
  | [] => [(k, v)]
  | (k', v') :: rest =>
      if k' = k then (k, v) :: rest else (k', v') :: mapInsert rest k v

/-- `Row` from `types.go`. -/
structure Row where
  values : RowValues
  rowID : Nat
deriving DecidableEq, Repr

/-! ## Value validation (`validateValueType`, `validateRowData`) -/

/-- Outcome of `validateValueType`: the Go function returns `nil`
(`valid`) or an error (`mismatch`); on a `float32` offered to an Integer
column it panics (`panicked`), because `case float32, float64:` leaves `v`
an `interface{}` and the type assertion `v.(float64)` fails. -/
inductive VTOutcome where
  | valid
  | mismatch
  | panicked
deriving DecidableEq, Repr

/-- `validateValueType` from the row layer: checks a dynamic value against
a declared column type.  A `nil` value is valid for every column type. -/
def validateValueType (value : Option GoVal) (colType : Nat) : VTOutcome :=
  match value with
  | none => .valid
  | some v =>
      if colType = TInteger then
        match v with
        | .gInt _ _ => .valid
        | .gF32 _ => .panicked
        | .gF64 b => if f64eqTruncSelf b then .valid else .mismatch
        | _ => .mismatch
      else if colType = Tfloat then
        match v with
        | .gInt _ _ => .valid
        | .gF32 _ => .valid
        | .gF64 _ => .valid
        | _ => .mismatch
      else if colType = Tstring then
        match v with
        | .gStr _ => .valid
        | _ => .mismatch
      else if colType = Tbool then
        match v with
        | .gBool _ => .valid
        | _ => .mismatch
      else .mismatch

/-- Errors the `Insert` pipeline can return to the caller. -/
inductive InsErr where
  | tableNotFound
  | missingNotNull (col : GoStr)
  | invalidValue (col : GoStr)
  | unknownColumn (col : GoStr)
  | serializeFailed
  | ioErr
  | tableExists
  | pkNotFound
  | indexNotFound
  | loadFailed
deriving DecidableEq, Repr

/-- Result of a fallible engine operation: a value, a returned Go error,
or a runtime panic. -/
inductive Res (α : Type) where
  | ok (a : α)
  | err (e : InsErr)
  | panicked
deriving DecidableEq, Repr

/-- First loop of `validateRowData`: per schema column, a NOT NULL column
must be present, and a present value must pass `validateValueType`. -/
def validateColumns (values : RowValues) : List Column → Res Unit
  | [] => .ok ()
  | c :: cs =>
      match mapLookup values c.name with
      | none =>
          if c.notNull then .err (.missingNotNull c.name)
          else validateColumns values cs
      | some v =>
          match validateValueType v c.type with
          | .valid => validateColumns values cs
          | .mismatch => .err (.invalidValue c.name)
          | .panicked => .panicked

/-- Second loop of `validateRowData`: every supplied key must name a schema
column.  (Go iterates the map in unspecified order; which unknown key gets
reported is irrelevant to every claim below.) -/
def checkUnknown (cols : List Column) : RowValues → Res Unit
  | [] => .ok ()
  | (k, _) :: rest =>
      if cols.any (fun c => c.name == k) then checkUnknown cols rest
      else .err (.unknownColumn k)

/-- `validateRowData` from the row layer. -/
def validateRowData (t : Table) (values : RowValues) : Res Unit :=
  match validateColumns values t.columns with
  | .ok _ => checkUnknown t.columns values
  | r => r

/-! ## Row serialization (`serializeRow`) -/

/-- Two's-complement `uint64` pattern of an `int64` value
(`binary.LittleEndian.PutUint64(buffer, uint64(v))`). -/
def int64ToU64 (v : Int) : Nat := (v % (2 : Int) ^ 64).toNat

/-- `int64` value of a `uint64` pattern (inverse of `int64ToU64` on the
`int64` range). -/
def u64ToInt64 (n : Nat) : Int :=
  if n < 2 ^ 63 then (n : Int) else (n : Int) - 2 ^ 64

/-- `int64(val)` for each Go integer kind (`serializeRow`'s Integer case):
the 64-bit unsigned kinds wrap into the `int64` range, all other kinds are
value-preserving. -/
def intKindToInt64 (k : IntKind) (n : Int) : Int :=
  match k with
  | .kUInt | .kUInt64 => if (2 : Int) ^ 63 ≤ n then n - 2 ^ 64 else n
  | _ => n

/-- `!exists || val == nil`: the null test `serializeRow` applies to a
map lookup. -/
def isNullLookup : Option (Option GoVal) → Bool
  | none => true
  | some none => true
  | some (some _) => false

/-- Encoded bytes of one non-null column value, per `serializeRow`'s type
switch.  `none` mirrors the function's "invalid type for … column" error.
A column whose type byte matches no case contributes no bytes (the Go
switch has no default). -/
def fieldBytes (c : Column) (v : GoVal) : Option (List Nat) :=
  if c.type = TInteger then
    match v with
    | .gInt k n => some (u64le (int64ToU64 (intKindToInt64 k n)))
    | .gF64 b => some (u64le (int64ToU64 (f64toInt64 b)))
    | _ => none
  else if c.type = Tfloat then
    match v with
    | .gF32 b => some (u64le (f32toF64bits b))
    | .gF64 b => some (u64le b)
    | .gInt _ n => some (u64le (f64ofInt n))
    | _ => none
  else if c.type = Tstring then
    match v with
    | .gStr s => some (u16le s.length ++ s)
    | _ => none
  else if c.type = Tbool then
    match v with
    | .gBool b => some [if b then 1 else 0]
    | _ => none
  else some []

/-- Byte for each bit-flag octet of the null bitmap: bit `j` (LSB first)
set iff flag `j` of the chunk is set (`buffer[i/8] |= 1 << (i%8)`). -/
def bitsToByte (bs : List Bool) : Nat :=
  bs.foldr (fun b acc => (if b then 1 else 0) + 2 * acc) 0

/-- The leading null bitmap: `(columnCount+7)/8` bytes, bit `i` set iff
column `i` is absent or nil. -/
def nullBitmap : List Bool → List Nat
  | [] => []
  | b :: bs =>
      bitsToByte ((b :: bs).take 8) :: nullBitmap ((b :: bs).drop 8)
termination_by bs => bs.length
decreasing_by simp; omega

/-- Concatenated encoded fields of the non-null columns, in schema order
(`serializeRow`'s value-writing loop; the first sizing loop rejects the
same inputs). -/
def rowFieldsBytes (values : RowValues) : List Column → Option (List Nat)
  | [] => some []
  | c :: cs =>
      match mapLookup values c.name with
      | none => rowFieldsBytes values cs
      | some none => rowFieldsBytes values cs
      | some (some v) =>
          match fieldBytes c v, rowFieldsBytes values cs with
          | some fb, some rest => some (fb ++ rest)
          | _, _ => none

/-- `serializeRow`: null bitmap followed by the encoded non-null fields in
schema order.  `none` is the Go error return ("invalid type for …"). -/
def serializeRow (row : Row) (t : Table) : Option (List Nat) :=
  match rowFieldsBytes row.values t.columns with
  | none => none
  | some fields =>
      some (nullBitmap
        (t.columns.map fun c => isNullLookup (mapLookup row.values c.name)) ++ fields)

/-! ## Row deserialization (`deserializeRow`)

Go slices carry a length and a capacity; `deserializeRow` reads its input
with two-index slice expressions (`data[a:b]`, legal for `b ≤ cap`) except
for the bitmap and boolean reads, which use single indexing (legal for
index `< len`).  We therefore pass the capacity window of the slice as
`data` and its length as `limit` (`limit ≤ data.length`; for a standalone
buffer `limit = data.length`).  Reads beyond these bounds panic in Go and
yield `none` here. -/

/-- Loop of `deserializeRow` over the schema columns: `i` is the column
index (for the bitmap), `off` the byte cursor, `vals` the map built so
far.  A column whose type byte matches no case is skipped without
consuming bytes. -/
def deserializeRowAux (data : List Nat) (limit : Nat) :
    List Column → Nat → Nat → RowValues → Option RowValues
  | [], _, _, vals => some vals
  | c :: cs, i, off, vals =>
      if i / 8 < limit then
        if (byteAt data (i / 8) / 2 ^ (i % 8)) % 2 == 1 then
          deserializeRowAux data limit cs (i + 1) off vals
        else
          if c.type = TInteger then
            if off + 8 ≤ data.length then
              deserializeRowAux data limit cs (i + 1) (off + 8)
                (mapInsert vals c.name (some (.gInt .kInt64 (u64ToInt64 (readU64 data off)))))
            else none
          else if c.type = Tfloat then
            if off + 8 ≤ data.length then
              deserializeRowAux data limit cs (i + 1) (off + 8)
                (mapInsert vals c.name (some (.gF64 (readU64 data off))))
            else none
          else if c.type = Tstring then
            if off + 2 ≤ data.length then
              if off + 2 + readU16 data off ≤ data.length then
                deserializeRowAux data limit cs (i + 1) (off + 2 + readU16 data off)
                  (mapInsert vals c.name
                    (some (.gStr ((data.drop (off + 2)).take (readU16 data off)))))
              else none
            else none
          else if c.type = Tbool then
            if off < limit then
              deserializeRowAux data limit cs (i + 1) (off + 1)
                (mapInsert vals c.name (some (.gBool (byteAt data off != 0))))
            else none
          else deserializeRowAux data limit cs (i + 1) off vals
      else none

/-- `deserializeRow`: decode a row buffer against a table's schema.  The
returned `Row` has `RowID` zero (the field is not part of the encoding;
`Select` overwrites it from the index).  `none` models a Go panic —
the function's error return is always `nil`. -/
def deserializeRow (data : List Nat) (limit : Nat) (t : Table) : Option Row :=
  match deserializeRowAux data limit t.columns 0 ((t.columns.length + 7) / 8) [] with
  | none => none
  | some vals => some { values := vals, rowID := 0 }

/-! ## Value comparison and LIKE matching (query layer) -/

/-- Go `<` on strings: byte-wise lexicographic comparison. -/
def goStrLt : GoStr → GoStr → Bool
  | [], [] => false
  | [], _ :: _ => true
  | _ :: _, [] => false
  | a :: as, b :: bs => if a < b then true else if b < a then false else goStrLt as bs

/-- The numeric-coercion switch of `compareValues`: only the dynamic kinds
`int`, `int64` and `float64` are recognized as numbers; each is coerced to
a `float64` (bit pattern).  Every other kind — including `int32`,
`float32`, the unsigned kinds — is not numeric to this function. -/
def numExtract : GoVal → Option Nat
  | .gInt .kInt n => some (f64ofInt n)
  | .gInt .kInt64 n => some (f64ofInt n)
  | .gF64 b => some b
  | _ => none

/-- `compareValues` from the query layer: -1 / 0 / 1. -/
def compareValues (a b : Option GoVal) : Int :=
  match a, b with
  | none, none => 0
  | none, some _ => -1
  | some _, none => 1
  | some av, some bv =>
      match numExtract av, numExtract bv with
      | some aN, some bN =>
          if f64lt aN bN then -1 else if f64lt bN aN then 1 else 0
      | _, _ =>
          match av, bv with
          | .gStr s, .gStr t =>
              if goStrLt s t then -1 else if goStrLt t s then 1 else 0
          | .gBool x, .gBool y =>
              if x = y then 0 else if x then 1 else -1
          | _, _ => 0

/-- The byte of the `%` wildcard. -/
def pctByte : Nat := 37

/-- `len(str) >= len(suffix) && str[len(str)-len(suffix):] == suffix`. -/
def goHasSuffix (s suffix : GoStr) : Bool :=
  decide (suffix.length ≤ s.length) &&
    decide (s.drop (s.length - suffix.length) = suffix)

/-- `len(str) >= len(prefix) && str[:len(prefix)] == prefix`. -/
def goHasPrefix (s pre : GoStr) : Bool :=
  decide (pre.length ≤ s.length) && decide (s.take pre.length = pre)

/-- The helper `contains`: scans all windows `str[i:i+len(substr)]`
for `0 ≤ i ≤ len(str) - len(substr)` (no iterations when `substr` is
longer than `str`). -/
def contains (str substr : GoStr) : Bool :=
  if str.length < substr.length then false
  else
    (List.range (str.length - substr.length + 1)).any
      (fun i => decide ((str.drop i).take substr.length = substr))

/-- `matchLike` from the query layer: the restricted `%`-wildcard match. -/
def matchLike (str pattern : GoStr) : Bool :=
  if pattern = [pctByte] then true
  else if 0 < pattern.length ∧ pattern.headD 0 = pctByte then
    if pattern.length = 1 then true
    else
      let suffix := pattern.tail
      if 0 < suffix.length ∧ suffix.getLast? = some pctByte then
        let middle := suffix.dropLast
        decide (0 < middle.length) && contains str middle
      else goHasSuffix str suffix
  else if 0 < pattern.length ∧ pattern.getLast? = some pctByte then
    goHasPrefix str pattern.dropLast
  else decide (str = pattern)

/-! ## Schema codec (`serializeTable`, `deserializeTable` from `table.go`)

Pages are byte buffers of length `pageSize`.  The writers mirror the Go
code's sequential `PutUint*`/`copy` calls (note `uint16(len(...))`
truncation: `copy` into a slice of the truncated length copies only that
many bytes); writes beyond the page would panic in Go, which the fit
hypotheses of the theorems below rule out. -/

/-- `page.Data[i] = byte(v)`. -/
def putByte (d : List Nat) (i v : Nat) : List Nat := d.set i (v % 256)

/-- `PutUint16(page.Data[i:i+2], v)`. -/
def putU16 (d : List Nat) (i v : Nat) : List Nat := writeBytes d i (u16le v)

/-- `PutUint32(page.Data[i:i+4], v)`. -/
def putU32 (d : List Nat) (i v : Nat) : List Nat := writeBytes d i (u32le v)

/-- `PutUint64(page.Data[i:i+8], v)`. -/
def putU64 (d : List Nat) (i v : Nat) : List Nat := writeBytes d i (u64le v)

/-- The per-column write loop of `serializeTable`: name length, name
bytes, type byte, not-null byte; returns the buffer and final offset. -/
def serializeColumns (d : List Nat) (off : Nat) : List Column → List Nat × Nat
  | [] => (d, off)
  | c :: cs =>
      let cl := c.name.length % 65536
      let d1 := putU16 d off c.name.length
      let d2 := writeBytes d1 (off + 2) (c.name.take cl)
      let d3 := putByte d2 (off + 2 + cl) c.type
      let d4 := putByte d3 (off + 2 + cl + 1) (if c.notNull then 1 else 0)
      serializeColumns d4 (off + 2 + cl + 2) cs

/-- `serializeTable`: writes, from offset 17: name length + name, column
count, primary-key length + primary key, then each column; finally stores
the end offset into the page's free-offset field (bytes 15–16). -/
def serializeTable (t : Table) (p : List Nat) : List Nat :=
  let nameLen := t.name.length % 65536
  let pkLen := t.pk.length % 65536
  let d1 := putU16 p 17 t.name.length
  let d2 := writeBytes d1 19 (t.name.take nameLen)
  let d3 := putU16 d2 (19 + nameLen) t.columns.length
  let d4 := putU16 d3 (19 + nameLen + 2) t.pk.length
  let d5 := writeBytes d4 (19 + nameLen + 4) (t.pk.take pkLen)
  let r := serializeColumns d5 (19 + nameLen + 4 + pkLen) t.columns
  putU16 r.1 15 r.2

/-- The per-column read loop of `deserializeTable`; `none` models the Go
panic on reading past the page. -/
def readColumns (p : List Nat) : Nat → Nat → Option (List Column × Nat)
  | 0, off => some ([], off)
  | n + 1, off =>
      if off + 2 ≤ p.length then
        let cl := readU16 p off
        if off + 2 + cl ≤ p.length then
          let cname := (p.drop (off + 2)).take cl
          if off + 2 + cl < p.length then
            let ty := byteAt p (off + 2 + cl)
            if off + 2 + cl + 1 < p.length then
              let nn := byteAt p (off + 2 + cl + 1) != 0
              match readColumns p n (off + 2 + cl + 2) with
              | some (cs, fin) =>
                  some ({ name := cname, type := ty, notNull := nn } :: cs, fin)
              | none => none
            else none
          else none
        else none
      else none

/-- `deserializeTable`: reads the table id from the page header
(bytes 1–4) and the schema fields from offset 17 on, mirroring the write
order; the returned table has zero `FirstPageID`/`LastPageID` (they are
not stored in the table page). -/
def deserializeTable (p : List Nat) : Option Table :=
  if 19 ≤ p.length then
    let tableID := readU32 p 1
    let nameLen := readU16 p 17
    if 19 + nameLen ≤ p.length then
      let tname := (p.drop 19).take nameLen
      let o1 := 19 + nameLen
      if o1 + 4 ≤ p.length then
        let colCount := readU16 p o1
        let pkLen := readU16 p (o1 + 2)
        if o1 + 4 + pkLen ≤ p.length then
          let pk := (p.drop (o1 + 4)).take pkLen
          match readColumns p colCount (o1 + 4 + pkLen) with
          | some (cols, _) =>
              some { id := tableID, name := tname, columns := cols, pk := pk,
                     firstPageID := 0, lastPageID := 0 }
          | none => none
        else none
      else none
    else none
  else none


/-- Bytes `serializeTable` writes for one column (length-prefixed name,
type byte, not-null byte), for a well-formed column. -/
def colBytes (c : Column) : List Nat :=
  u16le c.name.length ++ c.name ++ [c.type % 256, if c.notNull then 1 else 0]

/-- The schema payload `serializeTable` writes from offset 17, for a
well-formed table. -/
def tableSchemaBytes (t : Table) : List Nat :=
  u16le t.name.length ++ t.name ++ u16le t.columns.length ++
    u16le t.pk.length ++ t.pk ++ (t.columns.map colBytes).flatten

/-- Well-formedness of a table value as Go represents it: every length
fits `uint16`, every column type fits a byte, the id fits `uint32`. -/
def wfTable (t : Table) : Prop :=
  t.name.length < 65536 ∧ t.pk.length < 65536 ∧ t.columns.length < 65536 ∧
    t.id < 2 ^ 32 ∧ ∀ c ∈ t.columns, c.name.length < 65536 ∧ c.type < 256

/-- The 17-byte page header (§3 layout): type byte, owning table id
(`uint32`), row count (`uint16`), next page id (`uint64`), free offset
(`uint16`). -/
def pageHeaderBytes (ty tid cnt next fo : Nat) : List Nat :=
  [ty % 256] ++ u32le tid ++ u16le cnt ++ u64le next ++ u16le fo

/-- Header initialization performed on a freshly allocated page
(`CreateTable` and `findPageForRow`): page type, owning table id, zero
rows, no next page, free offset 17 — written field by field onto a
zeroed `pageSize` buffer. -/
def initPage (ps ty tid : Nat) : List Nat :=
  putU16 (putU64 (putU16 (putU32 (putByte (List.replicate ps 0) 0 ty) 1 tid) 5 0) 7 0) 15 17


/-- Canonical dynamic form of a column value, the forms `deserializeRow`
itself produces: `int64` in range for Integer columns, `float64` bits for
Float, a string of length below `2^16` for String, `bool` for Boolean;
a null is an absent key (not a present `nil`), and a column with an
unknown type byte can only be null. -/
def canonVal (ty : Nat) : Option (Option GoVal) → Prop
  | none => True
  | some none => False
  | some (some v) =>
      if ty = TInteger then ∃ n : Int, v = .gInt .kInt64 n ∧ -(2 ^ 63) ≤ n ∧ n < 2 ^ 63
      else if ty = Tfloat then ∃ b : Nat, v = .gF64 b ∧ b < 2 ^ 64
      else if ty = Tstring then ∃ s : GoStr, v = .gStr s ∧ s.length < 65536
      else if ty = Tbool then ∃ x : Bool, v = .gBool x
      else False

/-- Every column's value of the row is in canonical form. -/
def canonicalRow (t : Table) (values : RowValues) : Prop :=
  ∀ c ∈ t.columns, canonVal c.type (mapLookup values c.name)

/-- The concatenated field bytes of the non-null columns (total
counterpart of `rowFieldsBytes`, equal to it on canonical rows). -/
def fieldsOf (values : RowValues) : List Column → List Nat
  | [] => []
  | c :: cs =>
      (match mapLookup values c.name with
       | some (some v) => (fieldBytes c v).getD []
       | _ => []) ++ fieldsOf values cs

/-- The map `deserializeRow` accumulates: every non-null column's value
re-inserted in schema order. -/
def insertAll (values : RowValues) (acc : RowValues) : List Column → RowValues
  | [] => acc
  | c :: cs =>
      match mapLookup values c.name with
      | some (some v) => insertAll values (mapInsert acc c.name (some v)) cs
      | _ => insertAll values acc cs

/-- The null-bitmap bits of `data` agree, from absolute column index `i`
on, with the null flags of the given columns (and stay inside the
single-index bound `limit`). -/
def bitsOK (data : List Nat) (limit : Nat) (values : RowValues) :
    List Column → Nat → Prop
  | [], _ => True
  | c :: cs, i =>
      i / 8 < limit ∧
      (((byteAt data (i / 8) / 2 ^ (i % 8)) % 2 == 1) =
        isNullLookup (mapLookup values c.name)) ∧
      bitsOK data limit values cs (i + 1)

/-! ## Database state and engine operations

The `Database` struct: the backing file is modelled as the list of its
`pageSize`-byte pages (`writePage`/`readPage` address whole pages at
`pageID * pageSize`), the `tables` map and per-table B-tree `rowIndices`
as association lists in insertion order (`tableIDMap` mirrors `tables`
and is omitted).  Page offsets are `uint16` in Go; the model tracks them
as `Nat`, which agrees with Go whenever `pageSize < 2^16` — a hypothesis
of every theorem below. -/

/-- `RowIndex` from `types.go`: a B-tree entry ordered by
`(TableID, RowID)`, pointing at a page id and byte offset (`RowPtr`). -/
structure RowIndex where
  tableID : Nat
  rowID : Nat
  pageID : Nat
  offset : Nat
deriving DecidableEq, Repr

/-- `RowIndex.Less`: order by table id, then row id. -/
def rixLess (a b : RowIndex) : Bool :=
  if a.tableID ≠ b.tableID then a.tableID < b.tableID else a.rowID < b.rowID

/-- `btree.ReplaceOrInsert` on the ascending entry list: replace an entry
equal under the order, otherwise insert in order. -/
def idxInsert (e : RowIndex) : List RowIndex → List RowIndex
  | [] => [e]
  | x :: xs =>
      if rixLess e x then e :: x :: xs
      else if rixLess x e then x :: idxInsert e xs
      else e :: xs

/-- Go map indexing for a string-keyed map, as an association list. -/
def aLookup {α : Type} : List (GoStr × α) → GoStr → Option α
  | [], _ => none
  | (k2, v) :: rest, k => if k2 = k then some v else aLookup rest k

/-- Go map update `m[k] = v`. -/
def aInsert {α : Type} : List (GoStr × α) → GoStr → α → List (GoStr × α)
  | [], k, v => [(k, v)]
  | (k2, v2) :: rest, k, v =>
      if k2 = k then (k, v) :: rest else (k2, v2) :: aInsert rest k v

/-- The `Database` state. -/
@[ext]
structure DB where
  pageSize : Nat
  file : List (List Nat)
  tables : List (GoStr × Table)
  rowIndices : List (GoStr × List RowIndex)
  nextPageID : Nat
  nextTableID : Nat
deriving DecidableEq, Repr

/-- `writePage`: `WriteAt` of one page at `pageID * pageSize`; writing at
or past the end extends the file (Go zero-fills a gap). -/
def writeFilePage (file : List (List Nat)) (ps id : Nat) (data : List Nat) :
    List (List Nat) :=
  if id < file.length then file.set id data
  else file ++ List.replicate (id - file.length) (List.replicate ps 0) ++ [data]

/-- `readPage`: `ReadAt` of one full page; `none` (the Go error) when the
file ends before the end of the requested page. -/
def readFilePage (file : List (List Nat)) (id : Nat) : Option (List Nat) :=
  file.get? id

/-- `hasEnoughSpace`: the page's free offset plus the needed space plus a
4-byte safety margin must stay within the page size. -/
def hasEnoughSpace (ps : Nat) (page : List Nat) (needed : Nat) : Bool :=
  readU16 page 15 + needed + 4 ≤ ps

/-- `addRowToPage`: frame the row (2-byte length prefix, then the bytes)
at the page's free offset, bump the row count and the free offset, and
persist the page.  `Res.panicked` models the Go slice-bounds panic when
the frame does not fit the page buffer.  Returns the page id and the
row's offset. -/
def addRowToPage (db : DB) (page : List Nat) (pid : Nat) (rowData : List Nat) :
    Res (DB × Nat × Nat) :=
  let rowCount := readU16 page 5
  let freeOffset := readU16 page 15
  if freeOffset + 2 ≤ page.length ∧ freeOffset + 2 + rowData.length ≤ page.length then
    .ok
      ({ db with
          file := writeFilePage db.file db.pageSize pid
            (putU16 (putU16 (writeBytes (putU16 page freeOffset rowData.length)
              (freeOffset + 2) rowData) 5 (rowCount + 1)) 15
              (freeOffset + 2 + rowData.length)) },
        pid, freeOffset)
  else .panicked

/-- `findPageForRow`: append into the table's last data page if it exists
and has room; otherwise allocate a fresh Data page (linking it from the
previous last page when there is one, else setting `FirstPageID`) and put
the row there.  Returns the updated database, the updated table (Go
mutates it through the shared pointer), the page id and the row
offset. -/
def findPageForRow (db : DB) (table : Table) (row : Row) :
    Res (DB × Table × Nat × Nat) :=
  match serializeRow row table with
  | none => .err .serializeFailed
  | some rowData =>
      if table.lastPageID ≠ 0 then
        match readFilePage db.file table.lastPageID with
        | none => .err .ioErr
        | some lastPage =>
            if hasEnoughSpace db.pageSize lastPage (rowData.length + 2) then
              match addRowToPage db lastPage table.lastPageID rowData with
              | .ok (db2, pid, off) => .ok (db2, table, pid, off)
              | .err e => .err e
              | .panicked => .panicked
            else
              match addRowToPage
                  { db with
                    nextPageID := db.nextPageID + 1,
                    file := writeFilePage db.file db.pageSize table.lastPageID
                      (putU64 lastPage 7 db.nextPageID) }
                  (initPage db.pageSize PTData table.id) db.nextPageID rowData with
              | .ok (db2, pid, off) =>
                  .ok (db2, { table with lastPageID := db.nextPageID }, pid, off)
              | .err e => .err e
              | .panicked => .panicked
      else
        match addRowToPage { db with nextPageID := db.nextPageID + 1 }
            (initPage db.pageSize PTData table.id) db.nextPageID rowData with
        | .ok (db2, pid, off) =>
            .ok (db2,
              { table with firstPageID := db.nextPageID, lastPageID := db.nextPageID },
              pid, off)
        | .err e => .err e
        | .panicked => .panicked

/-- `Insert`: look up the table, validate the values against the schema,
assign `RowID = index size + 1`, place the row via `findPageForRow` and
record the index entry.  (When the table exists its index also exists, so
the nil-index panic of `Len` cannot fire in reachable states.) -/
def Insert (db : DB) (tableName : GoStr) (values : RowValues) : Res DB :=
  match aLookup db.tables tableName with
  | none => .err .tableNotFound
  | some table =>
      match validateRowData table values with
      | .err e => .err e
      | .panicked => .panicked
      | .ok _ =>
          let rowID := ((aLookup db.rowIndices tableName).getD []).length + 1
          match findPageForRow db table { values := values, rowID := rowID } with
          | .err e => .err e
          | .panicked => .panicked
          | .ok (db2, table2, pid, off) =>
              .ok { db2 with
                tables := aInsert db2.tables tableName table2,
                rowIndices := aInsert db2.rowIndices tableName
                  (idxInsert
                    { tableID := table.id, rowID := rowID, pageID := pid, offset := off }
                    ((aLookup db2.rowIndices tableName).getD [])) }

/-- `CreateTable`: refuse a duplicate name and a primary key naming no
column; build the table with the next table id, write its table page
(header plus serialized schema) and an empty first data page, and
register the table and an empty index. -/
def CreateTable (db : DB) (tableName : GoStr) (columns : List Column)
    (primaryKey : GoStr) : Res DB :=
  if (aLookup db.tables tableName).isSome then .err .tableExists
  else if primaryKey ≠ [] ∧ ¬(columns.any fun c => c.name == primaryKey) then
    .err .pkNotFound
  else
    .ok { db with
      nextTableID := db.nextTableID + 1,
      nextPageID := db.nextPageID + 2,
      rowIndices := aInsert db.rowIndices tableName [],
      file := writeFilePage
        (writeFilePage db.file db.pageSize db.nextPageID
          (serializeTable
            { id := db.nextTableID, name := tableName, columns := columns,
              pk := primaryKey, firstPageID := 0, lastPageID := 0 }
            (initPage db.pageSize PTTable db.nextTableID)))
        db.pageSize (db.nextPageID + 1) (initPage db.pageSize PTData db.nextTableID),
      tables := aInsert db.tables tableName
        { id := db.nextTableID, name := tableName, columns := columns,
          pk := primaryKey, firstPageID := db.nextPageID + 1,
          lastPageID := db.nextPageID + 1 } }

/-- Loop body of `Select`'s ascending index scan.  A failed `readPage`
skips the entry (the callback just returns `true`); a row frame that
leaves the page, or a failing `deserializeRow`, is a Go panic (`none`) —
`deserializeRow` has no non-nil error return, so the error-skip branch
after it is dead code.  The decoded slice keeps the Go slice's capacity
window (to the end of the page) with length `rowSize`. -/
def selectScan (db : DB) (table : Table) (cond : Row → Bool) :
    List RowIndex → Option (List Row)
  | [] => some []
  | e :: es =>
      match readFilePage db.file e.pageID with
      | none => selectScan db table cond es
      | some page =>
          if e.offset + 2 ≤ page.length then
            if e.offset + 2 + readU16 page e.offset ≤ page.length then
              match deserializeRow (page.drop (e.offset + 2)) (readU16 page e.offset)
                  table with
              | none => none
              | some row =>
                  match selectScan db table cond es with
                  | none => none
                  | some rest =>
                      some (if cond { row with rowID := e.rowID }
                        then { row with rowID := e.rowID } :: rest else rest)
            else none
          else none

/-- `Select`: scan the table's index in ascending order, keeping the rows
that satisfy the condition (`none` = select all). -/
def Select (db : DB) (tableName : GoStr) (cond : Option (Row → Bool)) :
    Res (List Row) :=
  match aLookup db.tables tableName with
  | none => .err .tableNotFound
  | some table =>
      match aLookup db.rowIndices tableName with
      | none => .err .indexNotFound
      | some entries =>
          match selectScan db table (fun r => (cond.map (· r)).getD true) entries with
          | none => .panicked
          | some rows => .ok rows

/-- `SelectAll`. -/
def SelectAll (db : DB) (tableName : GoStr) : Res (List Row) :=
  Select db tableName none

/-- `ListTables` (the model keeps the map in insertion order). -/
def ListTables (db : DB) : List GoStr := db.tables.map Prod.fst

/-- `GetRowCount`: the size of the table's index. -/
def GetRowCount (db : DB) (tableName : GoStr) : Res Nat :=
  match aLookup db.rowIndices tableName with
  | none => .err .tableNotFound
  | some es => .ok es.length

/-- Loop of `indexRowsInPage`: walk `count` length-prefixed records from
offset `off`, producing an index entry per record (`RowID` = running
index size `cnt` + 1); `none` models the error returns when the walk
leaves the page. -/
def indexRows (page : List Nat) (pid tid : Nat) :
    Nat → Nat → Nat → Option (List RowIndex)
  | 0, _, _ => some []
  | i + 1, off, cnt =>
      if off ≥ page.length then none
      else if off + 2 > page.length then none
      else
        match indexRows page pid tid i (off + 2 + readU16 page off) (cnt + 1) with
        | none => none
        | some es =>
            some ({ tableID := tid, rowID := cnt + 1, pageID := pid, offset := off } :: es)

/-- `indexRowsInPage`: read the page's row count and walk its records,
inserting each entry into the owning table's B-tree. -/
def indexRowsInPage (db : DB) (page : List Nat) (pid : Nat) (table : Table) :
    Option (List RowIndex) :=
  match indexRows page pid table.id (readU16 page 5) 17
      ((aLookup db.rowIndices table.name).getD []).length with
  | none => none
  | some es =>
      some (es.foldl (fun acc e => idxInsert e acc)
        ((aLookup db.rowIndices table.name).getD []))

/-- First pass of `loadExistingData`: scan every page, track
`nextPageID`/`nextTableID`, and register each Table page's schema with a
fresh empty index. -/
def loadPass1 : DB → List (List Nat) → Nat → Res DB
  | db, [], _ => .ok db
  | db, page :: rest, pid =>
      let db1 := { db with
        nextPageID := if db.nextPageID ≤ pid then pid + 1 else db.nextPageID }
      if page.length = 0 then loadPass1 db1 rest (pid + 1)
      else if byteAt page 0 = PTTable then
        match deserializeTable page with
        | none => .err .loadFailed
        | some table =>
            loadPass1 { db1 with
              rowIndices := aInsert db1.rowIndices table.name [],
              tables := aInsert db1.tables table.name table,
              nextTableID := if db1.nextTableID ≤ table.id then table.id + 1
                else db1.nextTableID } rest (pid + 1)
      else loadPass1 db1 rest (pid + 1)

/-- `for _, table := range db.tables` looking for a table id (the map
iteration order is unspecified in Go; table ids are unique in every state
considered below, making the result deterministic). -/
def findTableByID : List (GoStr × Table) → Nat → Option Table
  | [], _ => none
  | (_, t) :: rest, tid => if t.id = tid then some t else findTableByID rest tid

/-- Second pass of `loadExistingData`: for every Data page, set the owning
table's `FirstPageID` (if still zero) and — when the page has no next
page — its `LastPageID`, then index the page's rows. -/
def loadPass2 : DB → List (List Nat) → Nat → Res DB
  | db, [], _ => .ok db
  | db, page :: rest, pid =>
      if page.length = 0 then loadPass2 db rest (pid + 1)
      else if byteAt page 0 = PTData then
        match findTableByID db.tables (readU32 page 1) with
        | none => .err .loadFailed
        | some table =>
            let t2 :=
              if readU64 page 7 = 0 then
                { (if table.firstPageID = 0 then { table with firstPageID := pid }
                   else table) with lastPageID := pid }
              else
                (if table.firstPageID = 0 then { table with firstPageID := pid }
                 else table)
            match indexRowsInPage { db with tables := aInsert db.tables t2.name t2 }
                page pid t2 with
            | none => .err .loadFailed
            | some newIdx =>
                loadPass2 { db with
                  tables := aInsert db.tables t2.name t2,
                  rowIndices := aInsert db.rowIndices t2.name newIdx } rest (pid + 1)
      else loadPass2 db rest (pid + 1)

/-- `loadExistingData`, started from the fresh in-memory state
`NewDatabase` builds before loading. -/
def loadExistingData (ps : Nat) (file : List (List Nat)) : Res DB :=
  match loadPass1
      { pageSize := ps, file := file, tables := [], rowIndices := [],
        nextPageID := 0, nextTableID := 1 } file 0 with
  | .ok db1 => loadPass2 db1 file 0
  | .err e => .err e
  | .panicked => .panicked

/-- `NewDatabase` on an existing file: a fresh state for an empty file,
otherwise `loadExistingData`. -/
def NewDatabase (ps : Nat) (file : List (List Nat)) : Res DB :=
  if file.length = 0 then
    .ok { pageSize := ps, file := [], tables := [], rowIndices := [],
          nextPageID := 0, nextTableID := 1 }
  else loadExistingData ps file

/-! ## Reachable single-table states -/

/-- One length-prefixed record as stored in a data page. -/
def recBytes (r : List Nat) : List Nat := u16le r.length ++ r

/-- The record area of a data page holding `rs` (in order). -/
def payloadBytes (rs : List (List Nat)) : List Nat := (rs.map recBytes).flatten

/-- A full data page: header (type `PTData`, owning table, row count,
next-page link, free offset), records, zero padding. -/
def dataPageBytes (ps tid next : Nat) (rs : List (List Nat)) : List Nat :=
  pageHeaderBytes PTData tid rs.length next (17 + (payloadBytes rs).length) ++
    (payloadBytes rs ++ List.replicate (ps - 17 - (payloadBytes rs).length) 0)

/-- The data-page chain for per-page record lists `recss`, starting at
page id `pid`: each page links to the next, the last links to 0. -/
def dataPagesOf (ps tid : Nat) : Nat → List (List (List Nat)) → List (List Nat)
  | _, [] => []
  | _, [rs] => [dataPageBytes ps tid 0 rs]
  | pid, rs :: rest => dataPageBytes ps tid (pid + 1) rs :: dataPagesOf ps tid (pid + 1) rest

/-- The fully linked prefix of a data-page chain: every page, including
the last, links to the following page id. -/
def chainPages (ps tid : Nat) : Nat → List (List (List Nat)) → List (List Nat)
  | _, [] => []
  | pid, rs :: rest => dataPageBytes ps tid (pid + 1) rs :: chainPages ps tid (pid + 1) rest

/-- Index entries of one data page: row ids continue from `base`, offsets
walk the records from 17. -/
def pageEntries (tid pid : Nat) : Nat → Nat → List (List Nat) → List RowIndex
  | _, _, [] => []
  | base, off, r :: rs =>
      { tableID := tid, rowID := base + 1, pageID := pid, offset := off } ::
        pageEntries tid pid (base + 1) (off + 2 + r.length) rs

/-- Index entries of the whole chain. -/
def allEntries (tid : Nat) : Nat → Nat → List (List (List Nat)) → List RowIndex
  | _, _, [] => []
  | pid, base, rs :: rest =>
      pageEntries tid pid base 17 rs ++ allEntries tid (pid + 1) (base + rs.length) rest

/-- Total stored row count. -/
def totalRows (recss : List (List (List Nat))) : Nat := (recss.map List.length).sum

/-- The database state reached by `CreateTable` followed by inserts whose
rows, page by page, are `recss`: page 0 is the table page, pages 1..n the
data chain. -/
def mkDB (ps : Nat) (t : Table) (recss : List (List (List Nat))) : DB :=
  { pageSize := ps
    file := serializeTable t (initPage ps PTTable t.id) :: dataPagesOf ps t.id 1 recss
    tables := [(t.name, t)]
    rowIndices := [(t.name, allEntries t.id 1 0 recss)]
    nextPageID := recss.length + 1
    nextTableID := t.id + 1 }

/-- Invariant of the single-table states `mkDB` describes: sane page
size, well-formed fitting schema, page chain endpoints recorded in the
table, and every page's records inside the page. -/
def Good (ps : Nat) (t : Table) (recss : List (List (List Nat))) : Prop :=
  17 ≤ ps ∧ ps < 65536 ∧ wfTable t ∧ 1 ≤ t.id ∧
    17 + (tableSchemaBytes t).length ≤ ps ∧
    t.firstPageID = 1 ∧ t.lastPageID = recss.length ∧ recss ≠ [] ∧
    ∀ rs ∈ recss, 17 + (payloadBytes rs).length ≤ ps

/-- The non-numeric tail of `compareValues` (helper for stating the
fallthrough behaviour). -/
def fallbackCompare (va vb : GoVal) : Int :=
  match va, vb with
  | .gStr s, .gStr t => if goStrLt s t then -1 else if goStrLt t s then 1 else 0
  | .gBool x, .gBool y => if x = y then 0 else if x then 1 else -1
  | _, _ => 0


/-! ## Supporting lemmas -/


/-! ### Reading from structured buffers -/

theorem byteAt_drop (l : List Nat) (i k : Nat) : byteAt (l.drop i) k = byteAt l (i + k) := by
  simp [byteAt, List.getD, List.getElem?_drop]

theorem length_of_drop {l suf : List Nat} {i : Nat} (hi : i ≤ l.length)
    (h : l.drop i = suf) : l.length = i + suf.length := by
  have hlen := congrArg List.length h
  simp only [List.length_drop] at hlen
  omega

theorem drop_of_drop {l a rest : List Nat} {i : Nat}
    (h : l.drop i = a ++ rest) : l.drop (i + a.length) = rest := by
  rw [← List.drop_drop a.length i l, h, List.drop_left]

theorem take_of_drop {l mid rest : List Nat} {i : Nat}
    (h : l.drop i = mid ++ rest) : (l.drop i).take mid.length = mid := by
  rw [h]
  exact List.take_left mid rest

theorem readU16_of_drop {l rest : List Nat} {i v : Nat}
    (h : l.drop i = u16le v ++ rest) : readU16 l i = v % 65536 := by
  have h0 : byteAt l (i + 0) = v % 256 := by rw [← byteAt_drop, h]; rfl
  have h1 : byteAt l (i + 1) = v / 256 % 256 := by rw [← byteAt_drop, h]; rfl
  simp only [Nat.add_zero] at h0
  unfold readU16
  rw [h0, h1]
  omega

theorem readU32_of_drop {l rest : List Nat} {i v : Nat}
    (h : l.drop i = u32le v ++ rest) : readU32 l i = v % 2 ^ 32 := by
  have h0 : byteAt l (i + 0) = v % 256 := by rw [← byteAt_drop, h]; rfl
  have h1 : byteAt l (i + 1) = v / 256 % 256 := by rw [← byteAt_drop, h]; rfl
  have h2 : byteAt l (i + 2) = v / 256 ^ 2 % 256 := by rw [← byteAt_drop, h]; rfl
  have h3 : byteAt l (i + 3) = v / 256 ^ 3 % 256 := by rw [← byteAt_drop, h]; rfl
  simp only [Nat.add_zero] at h0
  unfold readU32
  rw [h0, h1, h2, h3]
  omega

theorem readU64_of_drop {l rest : List Nat} {i v : Nat}
    (h : l.drop i = u64le v ++ rest) : readU64 l i = v % 2 ^ 64 := by
  have h0 : byteAt l (i + 0) = v % 256 := by rw [← byteAt_drop, h]; rfl
  have h1 : byteAt l (i + 1) = v / 256 % 256 := by rw [← byteAt_drop, h]; rfl
  have h2 : byteAt l (i + 2) = v / 256 ^ 2 % 256 := by rw [← byteAt_drop, h]; rfl
  have h3 : byteAt l (i + 3) = v / 256 ^ 3 % 256 := by rw [← byteAt_drop, h]; rfl
  have h4 : byteAt l (i + 4) = v / 256 ^ 4 % 256 := by rw [← byteAt_drop, h]; rfl
  have h5 : byteAt l (i + 5) = v / 256 ^ 5 % 256 := by rw [← byteAt_drop, h]; rfl
  have h6 : byteAt l (i + 6) = v / 256 ^ 6 % 256 := by rw [← byteAt_drop, h]; rfl
  have h7 : byteAt l (i + 7) = v / 256 ^ 7 % 256 := by rw [← byteAt_drop, h]; rfl
  simp only [Nat.add_zero] at h0
  unfold readU64
  rw [h0, h1, h2, h3, h4, h5, h6, h7]
  omega

/-! ### Basic lemmas about the byte primitives -/

theorem u16le_length (n : Nat) : (u16le n).length = 2 := rfl

theorem u32le_length (n : Nat) : (u32le n).length = 4 := rfl

theorem u64le_length (n : Nat) : (u64le n).length = 8 := rfl

theorem byteAt_append_left {l₁ l₂ : List Nat} {i : Nat} (h : i < l₁.length) :
    byteAt (l₁ ++ l₂) i = byteAt l₁ i := by
  simp [byteAt, List.getD, List.getElem?_append_left h]

theorem byteAt_append_right {l₁ l₂ : List Nat} {i : Nat} (h : l₁.length ≤ i) :
    byteAt (l₁ ++ l₂) i = byteAt l₂ (i - l₁.length) := by
  simp [byteAt, List.getD, List.getElem?_append_right h]

theorem writeBytes_length (d : List Nat) (i : Nat) (bs : List Nat) :
    (writeBytes d i bs).length = d.length := by
  induction bs generalizing d i with
  | nil => rfl
  | cons b bs ih => simp [writeBytes, ih]

/-- Writing consecutive byte runs composes into one run. -/
theorem writeBytes_append (d : List Nat) (i : Nat) (bs cs : List Nat) :
    writeBytes (writeBytes d i bs) (i + bs.length) cs =
      writeBytes d i (bs ++ cs) := by
  induction bs generalizing d i with
  | nil => simp [writeBytes]
  | cons b bs ih =>
      simp only [writeBytes, List.cons_append, List.length_cons]
      rw [show i + (bs.length + 1) = (i + 1) + bs.length by omega, ih]
      rfl

/-- An in-range `writeBytes` splices the written run into the buffer. -/
theorem writeBytes_eq_splice (d : List Nat) (i : Nat) (bs : List Nat)
    (h : i + bs.length ≤ d.length) :
    writeBytes d i bs = d.take i ++ bs ++ d.drop (i + bs.length) := by
  induction bs generalizing d i with
  | nil => simp [writeBytes, List.take_append_drop]
  | cons b bs ih =>
      simp only [writeBytes, List.length_cons] at *
      have hi : i < d.length := by omega
      rw [ih (d.set i b) (i + 1) (by simp; omega)]
      rw [List.set_eq_take_cons_drop b hi]
      have hlen : (d.take i).length = i := by simp; omega
      have h1 : (d.take i ++ b :: d.drop (i + 1)).take (i + 1) = d.take i ++ [b] := by
        rw [List.take_append_eq_append_take, hlen]
        have : (d.take i).take (i + 1) = d.take i := by
          rw [List.take_take]; congr 1; omega
        rw [this]
        congr 1
        rw [show i + 1 - i = 1 by omega]
        rfl
      have h2 : (d.take i ++ b :: d.drop (i + 1)).drop (i + 1 + bs.length) =
          d.drop (i + (bs.length + 1)) := by
        rw [List.drop_append_eq_append_drop, hlen]
        have : (d.take i).drop (i + 1 + bs.length) = [] := by
          apply List.drop_eq_nil_of_le; omega
        rw [this]
        simp only [List.nil_append]
        rw [show i + 1 + bs.length - i = bs.length + 1 by omega]
        rw [List.drop_succ_cons, List.drop_drop]
        congr 1
        omega
      rw [h1, h2, List.append_assoc]
      simp

theorem mkF64_div63 (s : Bool) (e f : Nat) (he : e < 2048) (hf : f < 2 ^ 52) :
    mkF64 s e f / 2 ^ 63 % 2 = if s then 1 else 0 := by
  unfold mkF64
  cases s <;> simp only [if_true, if_false, Bool.false_eq_true] <;> omega

theorem mkF64_exp (s : Bool) (e f : Nat) (he : e < 2048) (hf : f < 2 ^ 52) :
    mkF64 s e f / 2 ^ 52 % 2 ^ 11 = e := by
  unfold mkF64
  cases s <;> simp only [if_true, if_false, Bool.false_eq_true] <;> omega

theorem mkF64_frac (s : Bool) (e f : Nat) (he : e < 2048) (hf : f < 2 ^ 52) :
    mkF64 s e f % 2 ^ 52 = f := by
  unfold mkF64
  cases s <;> simp only [if_true, if_false, Bool.false_eq_true] <;> omega

theorem f64class_mkF64 (s : Bool) (e f : Nat) (he1 : 1 ≤ e) (he2 : e < 2047)
    (hf : f < 2 ^ 52) :
    f64class (mkF64 s e f) =
      .fin (if s then -(((2 ^ 52 + f) * 2 ^ (e - 1) : Nat) : Int)
            else (((2 ^ 52 + f) * 2 ^ (e - 1) : Nat) : Int)) := by
  unfold f64class
  simp only [mkF64_div63 s e f (by omega) hf, mkF64_exp s e f (by omega) hf,
      mkF64_frac s e f (by omega) hf]
  rw [if_neg (by omega : ¬ e = 2047), if_neg (by omega : ¬ e = 0)]
  cases s
  · rw [if_neg (by simp)]
    simp
  · rw [if_pos (by simp)]
    simp

theorem signed_cast (n : Int) (P : Nat) :
    (if decide (n < 0) then -((n.natAbs * P : Nat) : Int)
     else ((n.natAbs * P : Nat) : Int)) = n * P := by
  rcases le_or_lt 0 n with hpos | hneg
  · rw [if_neg (by simp; omega)]
    push_cast
    rw [abs_of_nonneg hpos]
  · rw [if_pos (by simp [hneg])]
    push_cast
    rw [abs_of_neg hneg]
    ring

theorem f64class_zero : f64class 0 = .fin 0 := by decide

theorem f64ofInt_exact (n : Int) (h : n.natAbs ≤ 2 ^ 53) :
    f64class (f64ofInt n) = .fin (n * 2 ^ 1074) := by
  unfold f64ofInt
  by_cases h0 : n = 0
  · subst h0
    simpa using f64class_zero
  · rw [if_neg h0]
    simp only []
    have hm1 : 1 ≤ n.natAbs := by
      have := Int.natAbs_pos.mpr h0
      omega
    have hlow : 2 ^ Nat.log2 n.natAbs ≤ n.natAbs := Nat.log2_self_le (by omega)
    have hhigh : n.natAbs < 2 ^ (Nat.log2 n.natAbs + 1) := Nat.lt_log2_self
    by_cases hp52 : Nat.log2 n.natAbs ≤ 52
    · rw [if_pos hp52]
      have hofflt : n.natAbs * 2 ^ (52 - Nat.log2 n.natAbs) - 2 ^ 52 < 2 ^ 52 := by
        have h1 : n.natAbs * 2 ^ (52 - Nat.log2 n.natAbs) <
            2 ^ (Nat.log2 n.natAbs + 1) * 2 ^ (52 - Nat.log2 n.natAbs) :=
          mul_lt_mul_of_pos_right hhigh (by positivity)
        have h2 : 2 ^ (Nat.log2 n.natAbs + 1) * 2 ^ (52 - Nat.log2 n.natAbs) = 2 ^ 53 := by
          rw [← pow_add]; congr 1; omega
        omega
      rw [f64class_mkF64 _ _ _ (by omega) (by omega) hofflt]
      have hge : 2 ^ 52 ≤ n.natAbs * 2 ^ (52 - Nat.log2 n.natAbs) := by
        calc 2 ^ 52 = 2 ^ Nat.log2 n.natAbs * 2 ^ (52 - Nat.log2 n.natAbs) := by
              rw [← pow_add]; congr 1; omega
          _ ≤ n.natAbs * 2 ^ (52 - Nat.log2 n.natAbs) :=
              mul_le_mul_of_nonneg_right hlow (by positivity)
      have hmag : (2 ^ 52 + (n.natAbs * 2 ^ (52 - Nat.log2 n.natAbs) - 2 ^ 52)) *
          2 ^ (Nat.log2 n.natAbs + 1023 - 1) = n.natAbs * 2 ^ 1074 := by
        have h1 : 2 ^ 52 + (n.natAbs * 2 ^ (52 - Nat.log2 n.natAbs) - 2 ^ 52) =
            n.natAbs * 2 ^ (52 - Nat.log2 n.natAbs) := by omega
        rw [h1, Nat.mul_assoc, ← pow_add]
        rw [show 52 - Nat.log2 n.natAbs + (Nat.log2 n.natAbs + 1023 - 1) = 1074 by omega]
      rw [hmag]
      rw [signed_cast n (2 ^ 1074)]
      push_cast
      rfl
    · rw [if_neg hp52]
      have h53 : 2 ^ 53 ≤ 2 ^ Nat.log2 n.natAbs := Nat.pow_le_pow_right (by norm_num) (by omega)
      have hmeq : n.natAbs = 2 ^ 53 := by omega
      have hpeq : Nat.log2 n.natAbs = 53 := by
        have h1 : Nat.log2 n.natAbs ≤ 53 := by
          by_contra hc
          have : 2 ^ 54 ≤ 2 ^ Nat.log2 n.natAbs := Nat.pow_le_pow_right (by norm_num) (by omega)
          omega
        omega
      rw [hpeq]
      rw [show roundNE n.natAbs (53 - 52) = 2 ^ 52 by rw [hmeq]; decide]
      rw [if_neg (by norm_num)]
      rw [f64class_mkF64 _ _ _ (by omega) (by omega) (by norm_num)]
      have hmag : ((2 ^ 52 + (2 ^ 52 - 2 ^ 52)) * 2 ^ (53 + 1023 - 1) : Nat) =
          n.natAbs * 2 ^ 1074 := by
        rw [hmeq]
        norm_num
      rw [hmag, signed_cast n (2 ^ 1074)]
      push_cast
      rfl


theorem f64lt_fin {a b : Nat} {x y : Int} (ha : f64class a = .fin x)
    (hb : f64class b = .fin y) : f64lt a b = decide (x < y) := by
  unfold f64lt
  rw [ha, hb]
  rfl

theorem goStrLt_iff_lex (s t : GoStr) : goStrLt s t = true ↔ List.Lex (· < ·) s t := by
  induction s generalizing t with
  | nil =>
      cases t with
      | nil =>
          simp only [goStrLt, Bool.false_eq_true, false_iff]
          intro h
          cases h
      | cons b bs =>
          simp only [goStrLt, true_iff]
          exact List.Lex.nil
  | cons a as ih =>
      cases t with
      | nil =>
          simp only [goStrLt, Bool.false_eq_true, false_iff]
          intro h
          cases h
      | cons b bs =>
          simp only [goStrLt]
          rcases Nat.lt_trichotomy a b with hab | heq | hba
          · rw [if_pos hab]
            simp only [true_iff]
            exact List.Lex.rel hab
          · subst heq
            rw [if_neg (by omega), if_neg (by omega)]
            rw [ih bs]
            constructor
            · exact fun h => List.Lex.cons h
            · intro h
              cases h with
              | rel h1 => omega
              | cons h1 => exact h1
          · rw [if_neg (by omega), if_pos hba]
            simp only [Bool.false_eq_true, false_iff]
            intro h
            cases h with
            | rel h1 => omega
            | cons h1 => omega
          
theorem goStrLt_false_eq (s t : GoStr) (h1 : goStrLt s t = false)
    (h2 : goStrLt t s = false) : s = t := by
  induction s generalizing t with
  | nil =>
      cases t with
      | nil => rfl
      | cons b bs => simp [goStrLt] at h1
  | cons a as ih =>
      cases t with
      | nil => simp [goStrLt] at h2
      | cons b bs =>
          simp only [goStrLt] at h1 h2
          by_cases hab : a < b
          · rw [if_pos hab] at h1
            exact absurd h1 (by simp)
          · by_cases hba : b < a
            · rw [if_pos hba] at h2
              exact absurd h2 (by simp)
            · have heq : a = b := by omega
              subst heq
              rw [if_neg hab, if_neg hab] at h1 h2
              rw [ih bs h1 h2]


/-- C7 (counterexample): the claim says two numeric values of ANY integer
kind compare by coercion to double precision, so `compareValues` on two
`int32` values `1` and `2` would have to return `-1`; the code recognizes
only `int`, `int64` and `float64` as numbers and returns `0` here. -/
theorem c7_counterexample :
    compareValues (some (.gInt .kInt32 1)) (some (.gInt .kInt32 2)) = 0 ∧
    ¬ compareValues (some (.gInt .kInt32 1)) (some (.gInt .kInt32 2)) = -1 := by
  decide

theorem goStrLt_irrefl (s : GoStr) : goStrLt s s = false := by
  induction s with
  | nil => rfl
  | cons a as ih => simp [goStrLt, ih]

theorem goStrLt_asymm (s t : GoStr) (h : goStrLt s t = true) : goStrLt t s = false := by
  induction s generalizing t with
  | nil =>
      cases t with
      | nil => rfl
      | cons b bs => rfl
  | cons a as ih =>
      cases t with
      | nil => simp [goStrLt] at h
      | cons b bs =>
          simp only [goStrLt] at h ⊢
          by_cases hab : a < b
          · rw [if_neg (by omega), if_pos hab]
          · by_cases hba : b < a
            · rw [if_neg hab, if_pos hba] at h
              exact absurd h (by simp)
            · have heq : a = b := by omega
              subst heq
              rw [if_neg hab] at h ⊢
              rw [if_neg hab] at h ⊢
              exact ih bs h

theorem compareValues_fallthrough (va vb : GoVal)
    (h : numExtract va = none ∨ numExtract vb = none) :
    compareValues (some va) (some vb) = fallbackCompare va vb := by
  rcases hx : numExtract va with _ | xa
  · simp only [compareValues, hx]
    rfl
  · rcases h with h | h
    · rw [hx] at h
      exact absurd h (by simp)
    · simp only [compareValues, hx, h]
      rfl

/-- C7 (amended): `compareValues` orders values as follows: nil is below
any non-nil value; two values of the numeric kinds `int`, `int64` or
`float64` (only those kinds) compare by coercion to double precision — in
particular two int values of magnitude at most `2^53` compare exactly like
integers, and two finite doubles compare by their real values; two strings
compare byte-lexicographically; two booleans compare with false < true;
every other combination of kinds compares equal (0). -/
theorem c7_characterization :
    (compareValues none none = 0) ∧
    (∀ v : GoVal, compareValues none (some v) = -1 ∧ compareValues (some v) none = 1) ∧
    (∀ (ka kb : IntKind) (a b : Int),
      (ka = .kInt ∨ ka = .kInt64) → (kb = .kInt ∨ kb = .kInt64) →
      a.natAbs ≤ 2 ^ 53 → b.natAbs ≤ 2 ^ 53 →
      compareValues (some (.gInt ka a)) (some (.gInt kb b)) =
        (if a < b then -1 else if b < a then 1 else 0)) ∧
    (∀ (va vb : GoVal) (x y : Nat) (vx vy : Int),
      numExtract va = some x → numExtract vb = some y →
      f64class x = .fin vx → f64class y = .fin vy →
      compareValues (some va) (some vb) =
        (if vx < vy then -1 else if vy < vx then 1 else 0)) ∧
    (∀ s t : GoStr,
      (compareValues (some (.gStr s)) (some (.gStr t)) = 0 ↔ s = t) ∧
      (compareValues (some (.gStr s)) (some (.gStr t)) = -1 ↔ List.Lex (· < ·) s t) ∧
      (compareValues (some (.gStr s)) (some (.gStr t)) = 1 ↔ List.Lex (· < ·) t s)) ∧
    (compareValues (some (.gBool false)) (some (.gBool true)) = -1 ∧
     compareValues (some (.gBool true)) (some (.gBool false)) = 1 ∧
     (∀ x : Bool, compareValues (some (.gBool x)) (some (.gBool x)) = 0)) ∧
    (∀ va vb : GoVal,
      (numExtract va = none ∨ numExtract vb = none) →
      (∀ s t, ¬(va = .gStr s ∧ vb = .gStr t)) →
      (∀ x y, ¬(va = .gBool x ∧ vb = .gBool y)) →
      compareValues (some va) (some vb) = 0) := by
  refine ⟨rfl, ?_, ?_, ?_, ?_, ?_, ?_⟩
  · intro v
    exact ⟨rfl, rfl⟩
  · intro ka kb a b hka hkb ha hb
    have hxa : numExtract (.gInt ka a) = some (f64ofInt a) := by
      rcases hka with h | h <;> subst h <;> rfl
    have hxb : numExtract (.gInt kb b) = some (f64ofInt b) := by
      rcases hkb with h | h <;> subst h <;> rfl
    simp only [compareValues, hxa, hxb]
    rw [f64lt_fin (f64ofInt_exact a ha) (f64ofInt_exact b hb),
        f64lt_fin (f64ofInt_exact b hb) (f64ofInt_exact a ha)]
    have hP : (0 : Int) < 2 ^ 1074 := by positivity
    simp only [decide_eq_true_eq]
    simp only [mul_lt_mul_right hP]
  · intro va vb x y vx vy hx hy hvx hvy
    simp only [compareValues, hx, hy]
    rw [f64lt_fin hvx hvy, f64lt_fin hvy hvx]
    simp only [decide_eq_true_eq]
  · intro s t
    have hred : compareValues (some (.gStr s)) (some (.gStr t)) =
        (if goStrLt s t then -1 else if goStrLt t s then 1 else 0) := rfl
    rw [hred]
    by_cases hst : goStrLt s t = true
    · rw [if_pos hst]
      have hts := goStrLt_asymm s t hst
      have hne : s ≠ t := fun he => by
        subst he
        simp [goStrLt_irrefl s] at hst
      refine ⟨by simp [hne], by simp [(goStrLt_iff_lex s t).mp hst], ?_⟩
      constructor
      · norm_num
      · intro hlex
        have hcontra := (goStrLt_iff_lex t s).mpr hlex
        simp [hts] at hcontra
    · rw [if_neg hst]
      by_cases hts : goStrLt t s = true
      · rw [if_pos hts]
        have hne2 : ¬ s = t := fun he => by
          subst he
          simp [goStrLt_irrefl s] at hts
        refine ⟨by simp [hne2], ?_, by simp [(goStrLt_iff_lex t s).mp hts]⟩
        constructor
        · norm_num
        · intro hlex
          have hcontra := (goStrLt_iff_lex s t).mpr hlex
          simp [hst] at hcontra
      · rw [if_neg hts]
        have heq : s = t := goStrLt_false_eq s t (by simpa using hst) (by simpa using hts)
        subst heq
        refine ⟨by simp, ?_, ?_⟩ <;>
        · constructor
          · norm_num
          · intro hlex
            have hcontra := (goStrLt_iff_lex s s).mpr hlex
            simp [goStrLt_irrefl s] at hcontra
  · refine ⟨rfl, rfl, ?_⟩
    intro x
    cases x <;> rfl
  · intro va vb hnum hs hb
    rw [compareValues_fallthrough va vb hnum]
    cases va <;> cases vb <;> try rfl
    · exact absurd ⟨rfl, rfl⟩ (hs _ _)
    · exact absurd ⟨rfl, rfl⟩ (hb _ _)



theorem goHasSuffix_iff (s suf : GoStr) :
    goHasSuffix s suf = true ↔ ∃ p, s = p ++ suf := by
  unfold goHasSuffix
  simp only [Bool.and_eq_true, decide_eq_true_eq]
  constructor
  · rintro ⟨hlen, hdrop⟩
    refine ⟨s.take (s.length - suf.length), ?_⟩
    conv_lhs => rw [← List.take_append_drop (s.length - suf.length) s]
    rw [hdrop]
  · rintro ⟨p, rfl⟩
    refine ⟨by simp, ?_⟩
    rw [show (p ++ suf).length - suf.length = p.length by simp, List.drop_left]

theorem goHasPrefix_iff (s pre : GoStr) :
    goHasPrefix s pre = true ↔ ∃ p, s = pre ++ p := by
  unfold goHasPrefix
  simp only [Bool.and_eq_true, decide_eq_true_eq]
  constructor
  · rintro ⟨hlen, htake⟩
    refine ⟨s.drop pre.length, ?_⟩
    conv_lhs => rw [← List.take_append_drop pre.length s]
    rw [htake]
  · rintro ⟨p, rfl⟩
    exact ⟨by simp, List.take_left pre p⟩

theorem contains_iff (s m : GoStr) :
    contains s m = true ↔ ∃ p q, s = p ++ m ++ q := by
  unfold contains
  by_cases hlt : s.length < m.length
  · rw [if_pos hlt]
    simp only [Bool.false_eq_true, false_iff]
    rintro ⟨p, q, rfl⟩
    simp at hlt
    omega
  · rw [if_neg hlt]
    rw [List.any_eq_true]
    constructor
    · rintro ⟨i, hi, hwin⟩
      rw [List.mem_range] at hi
      rw [decide_eq_true_eq] at hwin
      refine ⟨s.take i, (s.drop i).drop m.length, ?_⟩
      have hs : s.drop i = m ++ (s.drop i).drop m.length := by
        conv_lhs => rw [← List.take_append_drop m.length (s.drop i)]
        rw [hwin]
      calc s = s.take i ++ s.drop i := (List.take_append_drop i s).symm
        _ = s.take i ++ (m ++ (s.drop i).drop m.length) := by rw [← hs]
        _ = s.take i ++ m ++ (s.drop i).drop m.length := by rw [List.append_assoc]
    · rintro ⟨p, q, rfl⟩
      refine ⟨p.length, ?_, ?_⟩
      · rw [List.mem_range]
        simp
        omega
      · rw [decide_eq_true_eq]
        rw [List.append_assoc, List.drop_left]
        exact List.take_left m q


/-- C8 (counterexample): the pattern `"%%"` has the form `%middle%` with
empty `middle`, and the empty string occurs in `"a"` as a substring, so
the claim requires `matchLike "a" "%%" = true`; the code requires a
nonempty middle and returns false. -/
theorem c8_counterexample :
    ([pctByte, pctByte] : GoStr) = [pctByte] ++ ([] : GoStr) ++ [pctByte] ∧
    matchLike [97] [pctByte, pctByte] = false ∧
    (∃ p q, ([97] : GoStr) = p ++ ([] : GoStr) ++ q) := by
  refine ⟨rfl, rfl, [97], [], rfl⟩

/-- C8 (amended): for `%`-free `suffix`/`pre`/`middle`/`pat` and NONEMPTY
`middle`: `matchLike s "%"` is true; `matchLike s ("%"+suffix)` is true
iff `s` ends with `suffix`; `matchLike s (pre+"%")` is true iff `s`
starts with `pre`; `matchLike s ("%"+middle+"%")` is true iff `middle`
occurs in `s` as a substring; `matchLike s pat` is true iff `s = pat`;
and the pattern `"%%"` (empty middle) matches nothing. -/
theorem c8_characterization (s suffix pre middle pat : GoStr)
    (hsuf : pctByte ∉ suffix) (hpre : pctByte ∉ pre)
    (hmid : pctByte ∉ middle) (hmidne : middle ≠ [])
    (hpat : pctByte ∉ pat) :
    (matchLike s [pctByte] = true) ∧
    (matchLike s ([pctByte] ++ suffix) = true ↔ ∃ p, s = p ++ suffix) ∧
    (matchLike s (pre ++ [pctByte]) = true ↔ ∃ p, s = pre ++ p) ∧
    (matchLike s ([pctByte] ++ middle ++ [pctByte]) = true ↔ ∃ p q, s = p ++ middle ++ q) ∧
    (matchLike s pat = true ↔ s = pat) ∧
    (∀ str : GoStr, matchLike str ([pctByte] ++ [pctByte]) = false) := by
  refine ⟨rfl, ?_, ?_, ?_, ?_, fun str => rfl⟩
  · -- %suffix
    cases suffix with
    | nil =>
        simp only [List.append_nil]
        constructor
        · intro _
          exact ⟨s, by simp⟩
        · intro _
          rfl
    | cons x xs =>
        have hx : x ≠ pctByte := fun he => hsuf (by simp [he])
        have hlast : (x :: xs).getLast? ≠ some pctByte := by
          rw [List.getLast?_eq_getLast (x :: xs) (by simp)]
          intro hc
          apply hsuf
          have hmem := @List.getLast_mem _ (x :: xs) (by simp)
          have heq : (x :: xs).getLast (by simp) = pctByte := by injection hc
          rw [heq] at hmem
          exact hmem
        unfold matchLike
        rw [if_neg (by simp), if_pos (by simp [pctByte])]
        rw [if_neg (by simp)]
        simp only [List.tail_cons]
        rw [if_neg (by
          rintro ⟨h1, h2⟩
          exact hlast h2)]
        exact goHasSuffix_iff s (x :: xs)
  · -- prefix%
    cases pre with
    | nil =>
        simp only [List.nil_append]
        constructor
        · intro _
          exact ⟨s, by simp⟩
        · intro _
          rfl
    | cons a as =>
        have ha : a ≠ pctByte := fun he => hpre (by simp [he])
        unfold matchLike
        rw [if_neg (by
          intro hc
          have : a = pctByte := by
            have := congrArg (List.headD · 0) hc
            simpa using this
          exact ha this)]
        rw [if_neg (by
          rintro ⟨h1, h2⟩
          simp at h2
          exact ha h2)]
        rw [if_pos (⟨by simp, List.getLast?_concat _⟩ :
          0 < ((a :: as) ++ [pctByte]).length ∧
            ((a :: as) ++ [pctByte]).getLast? = some pctByte)]
        rw [List.dropLast_concat]
        exact goHasPrefix_iff s (a :: as)
  · -- %middle%
    cases middle with
    | nil => exact absurd rfl hmidne
    | cons m ms =>
        unfold matchLike
        rw [if_neg (by simp), if_pos (by simp [pctByte])]
        rw [if_neg (by simp)]
        simp only [List.cons_append, List.nil_append, List.tail_cons]
        rw [if_pos (by
          refine ⟨by simp, ?_⟩
          rw [show m :: (ms ++ [pctByte]) = (m :: ms) ++ [pctByte] by simp]
          exact List.getLast?_concat _)]
        simp only [show (m :: (ms ++ [pctByte])).dropLast = m :: ms by
          rw [show m :: (ms ++ [pctByte]) = (m :: ms) ++ [pctByte] by simp]
          exact List.dropLast_concat]
        simp only [List.length_cons, Bool.and_eq_true, decide_eq_true_eq]
        constructor
        · rintro ⟨h1, h2⟩
          exact (contains_iff s (m :: ms)).mp h2
        · intro h
          exact ⟨by omega, (contains_iff s (m :: ms)).mpr h⟩
  · -- exact, no %
    cases pat with
    | nil =>
        unfold matchLike
        rw [if_neg (by simp), if_neg (by simp), if_neg (by simp)]
        simp
    | cons a as =>
        have ha : a ≠ pctByte := fun he => hpat (by simp [he])
        have hlast : (a :: as).getLast? ≠ some pctByte := by
          rw [List.getLast?_eq_getLast (a :: as) (by simp)]
          intro hc
          apply hpat
          have hmem := @List.getLast_mem _ (a :: as) (by simp)
          have heq : (a :: as).getLast (by simp) = pctByte := by
            injection hc
          rw [heq] at hmem
          exact hmem
        unfold matchLike
        rw [if_neg (by
          intro hc
          have : a = pctByte := by
            have := congrArg (List.headD · 0) hc
            simpa using this
          exact ha this)]
        rw [if_neg (by
          rintro ⟨h1, h2⟩
          simp at h2
          exact ha h2)]
        rw [if_neg (by
          rintro ⟨h1, h2⟩
          exact hlast h2)]
        simp


/-- C7 witness: instantiating the characterization at concrete inputs. -/
theorem c7_characterization_witness :
    compareValues (some (.gInt .kInt 3)) (some (.gInt .kInt64 5)) = -1 ∧
    compareValues (some (.gStr [97])) (some (.gStr [97, 98])) = -1 ∧
    compareValues (some (.gStr [97])) (some (.gBool true)) = 0 := by
  refine ⟨?_, ?_, ?_⟩
  · have h := c7_characterization.2.2.1 .kInt .kInt64 3 5 (Or.inl rfl) (Or.inr rfl)
      (by norm_num) (by norm_num)
    rw [if_pos (by norm_num)] at h
    exact h
  · exact ((c7_characterization.2.2.2.2.1 [97] [97, 98]).2.1).mpr
      (List.Lex.cons List.Lex.nil)
  · exact c7_characterization.2.2.2.2.2.2 (.gStr [97]) (.gBool true) (Or.inr rfl)
      (fun s t hc => by cases hc.2) (fun x y hc => by cases hc.1)

/-- C8 witness: the characterization applied to the spec's Scenario D
data, `matchLike "John" …` (byte values of `J`, `o`, `h`, `n`). -/
theorem c8_characterization_witness :
    matchLike [74, 111, 104, 110] [pctByte, 111, 104, pctByte] = true ∧
    matchLike [74, 111, 104, 110] [pctByte, 104, 110] = true ∧
    matchLike [74, 111, 104, 110] [74, 111, pctByte] = true ∧
    matchLike [74, 111, 104, 110] [74, 111, 104, 110] = true := by
  have h := c8_characterization [74, 111, 104, 110] [104, 110] [74, 111] [111, 104]
    [74, 111, 104, 110] (by decide) (by decide) (by decide) (by decide) (by decide)
  refine ⟨?_, ?_, ?_, ?_⟩
  · exact (h.2.2.2.1).mpr ⟨[74], [110], rfl⟩
  · exact (h.2.1).mpr ⟨[74, 111], rfl⟩
  · exact (h.2.2.1).mpr ⟨[104, 110], rfl⟩
  · exact (h.2.2.2.2.1).mpr rfl

/-! ### Structure of the written pages -/

theorem byteMod_bool (b : Bool) : ((if b then 1 else 0 : Nat)) % 256 = if b then 1 else 0 := by
  cases b <;> rfl

theorem pageHeaderBytes_length (ty tid cnt next fo : Nat) :
    (pageHeaderBytes ty tid cnt next fo).length = 17 := rfl

theorem set_eq_writeBytes (e : List Nat) (i v : Nat) : e.set i v = writeBytes e i [v] := rfl

theorem writeBytes_chain (d : List Nat) (i j : Nat) (bs cs : List Nat)
    (hj : j = i + bs.length) :
    writeBytes (writeBytes d i bs) j cs = writeBytes d i (bs ++ cs) := by
  subst hj
  exact writeBytes_append d i bs cs

theorem serializeColumns_eq (cs : List Column) (d : List Nat) (off : Nat)
    (hwf : ∀ c ∈ cs, c.name.length < 65536) :
    serializeColumns d off cs =
      (writeBytes d off ((cs.map colBytes).flatten),
       off + ((cs.map colBytes).flatten).length) := by
  induction cs generalizing d off with
  | nil => simp [serializeColumns, writeBytes]
  | cons c cs ih =>
      have hc := hwf c (by simp)
      have hcl : c.name.length % 65536 = c.name.length := Nat.mod_eq_of_lt hc
      simp only [serializeColumns, putU16, putByte, hcl, List.take_length,
        set_eq_writeBytes, byteMod_bool]
      rw [ih _ _ (fun x hx => hwf x (by simp [hx]))]
      rw [writeBytes_chain _ _ (off + 2 + c.name.length + 1 + 1) _ _ (by simp)]
      rw [writeBytes_chain _ _ (off + 2 + c.name.length + 1) _ _ (by simp)]
      rw [writeBytes_chain _ _ (off + 2 + c.name.length) _ _ (by simp [u16le])]
      rw [writeBytes_chain _ _ (off + 2) _ _ (by simp [u16le])]
      simp only [Prod.mk.injEq]
      refine ⟨by simp [colBytes, List.append_assoc], by simp [colBytes, u16le] <;> omega⟩

theorem serializeTable_eq (t : Table) (p : List Nat)
    (hn : t.name.length < 65536) (hp : t.pk.length < 65536)
    (hwf : ∀ c ∈ t.columns, c.name.length < 65536) :
    serializeTable t p =
      putU16 (writeBytes p 17 (tableSchemaBytes t)) 15
        (17 + (tableSchemaBytes t).length) := by
  have hnl : t.name.length % 65536 = t.name.length := Nat.mod_eq_of_lt hn
  have hpl : t.pk.length % 65536 = t.pk.length := Nat.mod_eq_of_lt hp
  simp only [serializeTable, hnl, hpl, List.take_length]
  rw [serializeColumns_eq _ _ _ hwf]
  simp only [putU16]
  rw [writeBytes_chain _ _ (19 + t.name.length + 2 + 2 + t.pk.length) _ _
    (by simp [u16le] <;> omega)]
  rw [writeBytes_chain _ _ (19 + t.name.length + 2 + 2) _ _ (by simp [u16le] <;> omega)]
  rw [writeBytes_chain _ _ (19 + t.name.length + 2) _ _ (by simp [u16le] <;> omega)]
  rw [writeBytes_chain _ _ (19 + t.name.length) _ _ (by simp [u16le])]
  rw [writeBytes_chain _ _ (19) _ _ (by simp [u16le])]
  congr 1
  · congr 1
    simp [tableSchemaBytes, List.append_assoc]
  · simp [tableSchemaBytes, u16le]
    omega

theorem initPage_eq (ps ty tid : Nat) (h : 17 ≤ ps) :
    initPage ps ty tid =
      pageHeaderBytes ty tid 0 0 17 ++ List.replicate (ps - 17) 0 := by
  simp only [initPage, putU16, putU32, putU64, putByte, set_eq_writeBytes]
  rw [writeBytes_chain _ _ (15) _ _ (by simp [u32le, u16le, u64le])]
  rw [writeBytes_chain _ _ (7) _ _ (by simp [u32le, u16le])]
  rw [writeBytes_chain _ _ (5) _ _ (by simp [u32le])]
  rw [writeBytes_chain _ _ (1) _ _ (by simp)]
  rw [writeBytes_eq_splice _ _ _ (by simp [u16le, u32le, u64le]; omega)]
  simp only [List.take_zero, List.nil_append, List.drop_replicate]
  rw [show (((0 : Nat) + ([ty % 256] ++ (u32le tid ++ (u16le 0 ++ (u64le 0 ++ u16le 17)))).length)) =
    17 by simp [u16le, u32le, u64le]]
  simp [pageHeaderBytes, List.append_assoc]


/-! ### Schema parsing -/

theorem byteAt_of_drop {l rest : List Nat} {i v : Nat}
    (h : l.drop i = v :: rest) : byteAt l i = v := by
  have := byteAt_drop l i 0
  rw [h] at this
  simpa using this.symm

theorem readColumns_spec (cs : List Column)
    (hwf : ∀ c ∈ cs, c.name.length < 65536 ∧ c.type < 256) :
    ∀ (l rest : List Nat) (off : Nat), off ≤ l.length →
      l.drop off = (cs.map colBytes).flatten ++ rest →
      readColumns l cs.length off =
        some (cs, off + ((cs.map colBytes).flatten).length) := by
  induction cs with
  | nil =>
      intro l rest off _ _
      simp [readColumns]
  | cons c cs ih =>
      intro l rest off hoff hdrop
      obtain ⟨hclen, hcty⟩ := hwf c (by simp)
      have hdrop1 : l.drop off = u16le c.name.length ++
          (c.name ++ ([c.type % 256, if c.notNull then 1 else 0] ++
            ((cs.map colBytes).flatten ++ rest))) := by
        rw [hdrop]
        simp [colBytes, List.append_assoc]
      have hlen := length_of_drop hoff hdrop1
      have hu16 : (u16le c.name.length).length = 2 := rfl
      have h2 : l.drop (off + 2) = c.name ++
          ([c.type % 256, if c.notNull then 1 else 0] ++
            ((cs.map colBytes).flatten ++ rest)) := by
        have := drop_of_drop hdrop1
        rwa [hu16] at this
      have h3 : l.drop (off + 2 + c.name.length) =
          [c.type % 256, if c.notNull then 1 else 0] ++
            ((cs.map colBytes).flatten ++ rest) := by
        have := drop_of_drop h2
        rwa [show off + 2 + c.name.length = off + 2 + c.name.length from rfl] at this
      have hread : readU16 l off = c.name.length := by
        rw [readU16_of_drop hdrop1]
        omega
      have hbnds : off + 2 + c.name.length + 1 < l.length := by
        simp only [List.length_append, List.length_cons, hu16] at hlen
        simp at hlen
        omega
      show readColumns l (cs.length + 1) off = _
      unfold readColumns
      rw [if_pos (by omega)]
      rw [hread]
      rw [if_pos (by omega)]
      rw [if_pos (by omega)]
      rw [if_pos (by omega)]
      have hname : (l.drop (off + 2)).take c.name.length = c.name := take_of_drop h2
      have hty : byteAt l (off + 2 + c.name.length) = c.type % 256 := byteAt_of_drop h3
      have hnn : byteAt l (off + 2 + c.name.length + 1) =
          (if c.notNull then 1 else 0) := by
        apply byteAt_of_drop
        have := @drop_of_drop _ [c.type % 256] _ _ (by
          rw [h3]
          simp : l.drop (off + 2 + c.name.length) =
            [c.type % 256] ++ ((if c.notNull then 1 else 0) ::
              ((cs.map colBytes).flatten ++ rest)))
        simpa using this
      have hrec : l.drop (off + 2 + c.name.length + 2) =
          (cs.map colBytes).flatten ++ rest := by
        have := @drop_of_drop _ [c.type % 256, if c.notNull then 1 else 0] _ _ (by
          rw [h3] : l.drop (off + 2 + c.name.length) =
            [c.type % 256, if c.notNull then 1 else 0] ++
              ((cs.map colBytes).flatten ++ rest))
        simpa using this
      rw [ih (fun x hx => hwf x (by simp [hx])) l rest (off + 2 + c.name.length + 2)
        (by omega) hrec]
      rw [hname, hty, hnn]
      have htyeq : c.type % 256 = c.type := Nat.mod_eq_of_lt hcty
      have hnneq : ((if c.notNull then 1 else 0 : Nat) != 0) = c.notNull := by
        cases c.notNull <;> rfl
      rw [htyeq, hnneq]
      simp only [Option.some.injEq, Prod.mk.injEq]
      refine ⟨trivial, ?_⟩
      simp [colBytes]
      omega


theorem tableSchemaBytes_length (t : Table) :
    (tableSchemaBytes t).length =
      6 + t.name.length + t.pk.length + ((t.columns.map colBytes).flatten).length := by
  simp [tableSchemaBytes, u16le]
  omega

theorem deserializeTable_spec (t : Table) (ty cnt next fo : Nat) (pad : List Nat)
    (hwf : wfTable t) :
    deserializeTable (pageHeaderBytes ty t.id cnt next fo ++ (tableSchemaBytes t ++ pad)) =
      some { t with firstPageID := 0, lastPageID := 0 } := by
  obtain ⟨hn, hp, hc, hidlt, hcols⟩ := hwf
  set l := pageHeaderBytes ty t.id cnt next fo ++ (tableSchemaBytes t ++ pad) with hl
  have hlen : l.length = 17 + (tableSchemaBytes t).length + pad.length := by
    rw [hl]
    simp [pageHeaderBytes_length]
    omega
  have hSlen := tableSchemaBytes_length t
  have h17 : l.drop 17 = tableSchemaBytes t ++ pad := by
    rw [hl, show (17 : Nat) = (pageHeaderBytes ty t.id cnt next fo).length from rfl]
    exact List.drop_left _ _
  have hS : l.drop 17 = u16le t.name.length ++ (t.name ++ (u16le t.columns.length ++
      (u16le t.pk.length ++ (t.pk ++ (((t.columns.map colBytes).flatten) ++ pad))))) := by
    rw [h17]
    simp [tableSchemaBytes, List.append_assoc]
  have hid1 : l.drop 1 = u32le t.id ++ (u16le cnt ++ (u64le next ++ (u16le fo ++
      (tableSchemaBytes t ++ pad)))) := by
    rw [hl]
    simp [pageHeaderBytes, List.append_assoc]
  have hid32 : readU32 l 1 = t.id := by
    rw [readU32_of_drop hid1]
    omega
  have hr16 : readU16 l 17 = t.name.length := by
    rw [readU16_of_drop hS]
    omega
  have hd19 : l.drop 19 = t.name ++ (u16le t.columns.length ++
      (u16le t.pk.length ++ (t.pk ++ (((t.columns.map colBytes).flatten) ++ pad)))) := by
    have h := drop_of_drop hS
    simpa using h
  have hname : (l.drop 19).take t.name.length = t.name := take_of_drop hd19
  have hd2 : l.drop (19 + t.name.length) = u16le t.columns.length ++
      (u16le t.pk.length ++ (t.pk ++ (((t.columns.map colBytes).flatten) ++ pad))) :=
    drop_of_drop hd19
  have hcc : readU16 l (19 + t.name.length) = t.columns.length := by
    rw [readU16_of_drop hd2]
    omega
  have hd3 : l.drop (19 + t.name.length + 2) = u16le t.pk.length ++
      (t.pk ++ (((t.columns.map colBytes).flatten) ++ pad)) := by
    have h := drop_of_drop hd2
    simpa using h
  have hpkl : readU16 l (19 + t.name.length + 2) = t.pk.length := by
    rw [readU16_of_drop hd3]
    omega
  have hd4 : l.drop (19 + t.name.length + 4) =
      t.pk ++ (((t.columns.map colBytes).flatten) ++ pad) := by
    have h := drop_of_drop hd3
    rw [show 19 + t.name.length + 2 + (u16le t.pk.length).length =
      19 + t.name.length + 4 from by simp [u16le]] at h
    exact h
  have hpk : (l.drop (19 + t.name.length + 4)).take t.pk.length = t.pk := take_of_drop hd4
  have hd5 : l.drop (19 + t.name.length + 4 + t.pk.length) =
      ((t.columns.map colBytes).flatten) ++ pad := drop_of_drop hd4
  have hrc := readColumns_spec t.columns hcols l pad (19 + t.name.length + 4 + t.pk.length)
    (by omega) hd5
  simp only [deserializeTable]
  rw [hr16, hid32, hcc, hpkl, hname, hpk, hrc]
  rw [if_pos (by omega), if_pos (by omega), if_pos (by omega), if_pos (by omega)]

theorem initPage_length (ps ty tid : Nat) (h : 17 ≤ ps) :
    (initPage ps ty tid).length = ps := by
  rw [initPage_eq ps ty tid h]
  simp [pageHeaderBytes_length]
  omega

theorem pageHeaderBytes_refo (ty tid cnt next fo fo2 : Nat) :
    (pageHeaderBytes ty tid cnt next fo).take 15 ++ u16le fo2 =
      pageHeaderBytes ty tid cnt next fo2 := rfl

/-- Splitting helpers keyed by a length fact. -/
theorem take_left_of_length {α : Type} {l₁ : List α} {n : Nat} (h : l₁.length = n)
    (l₂ : List α) : (l₁ ++ l₂).take n = l₁ := by
  subst h
  exact List.take_left _ _

theorem drop_left_of_length {α : Type} {l₁ : List α} {n : Nat} (h : l₁.length = n)
    (l₂ : List α) : (l₁ ++ l₂).drop n = l₂ := by
  subst h
  exact List.drop_left _ _

theorem drop_append_of_length {α : Type} {l₁ : List α} {n : Nat} (h : l₁.length = n)
    (l₂ : List α) (k : Nat) : (l₁ ++ l₂).drop (n + k) = l₂.drop k := by
  subst h
  rw [← List.drop_drop k l₁.length, List.drop_left]

/-- `serializeTable` into a `CreateTable`-initialized fresh table page:
the result is the 17-byte header (free offset updated to the end of the
schema) followed by the schema payload and zero padding. -/
theorem serializeTable_initPage (t : Table) (ps : Nat)
    (hn : t.name.length < 65536) (hp : t.pk.length < 65536)
    (hwf : ∀ c ∈ t.columns, c.name.length < 65536)
    (hfit : 17 + (tableSchemaBytes t).length ≤ ps) :
    serializeTable t (initPage ps PTTable t.id) =
      pageHeaderBytes PTTable t.id 0 0 (17 + (tableSchemaBytes t).length) ++
        (tableSchemaBytes t ++ List.replicate (ps - 17 - (tableSchemaBytes t).length) 0) := by
  rw [serializeTable_eq t _ hn hp hwf]
  rw [initPage_eq _ _ _ (by omega)]
  rw [writeBytes_eq_splice _ _ _ (by simp [pageHeaderBytes_length] <;> omega)]
  rw [take_left_of_length (pageHeaderBytes_length _ _ _ _ _) _]
  rw [drop_append_of_length (pageHeaderBytes_length _ _ _ _ _) _ _]
  rw [List.drop_replicate]
  simp only [putU16, List.append_assoc]
  rw [writeBytes_eq_splice _ _ _ (by simp [pageHeaderBytes_length, u16le] <;> omega)]
  rw [List.take_append_of_le_length (by rw [pageHeaderBytes_length]; omega)]
  rw [show (15 : Nat) + (u16le (17 + (tableSchemaBytes t).length)).length = 17 from rfl]
  rw [drop_left_of_length (pageHeaderBytes_length _ _ _ _ _) _]
  rw [← pageHeaderBytes_refo PTTable t.id 0 0 17 (17 + (tableSchemaBytes t).length)]


/-! ### C3: schema round trip -/

/-- C3 (counterexample): `serializeTable` never writes the table id (it is
written by `CreateTable` into the page header, outside `serializeTable`),
and `deserializeTable` reads the id from the header; so serializing a
table with id 1 into an all-zero fresh page and deserializing yields a
table with id 0, different from the original. -/
theorem c3_counterexample :
    deserializeTable (serializeTable
        { id := 1, name := [116], columns := [], pk := [],
          firstPageID := 0, lastPageID := 0 } (List.replicate 32 0)) =
      some { id := 0, name := [116], columns := [], pk := [],
             firstPageID := 0, lastPageID := 0 } ∧
    ({ id := 0, name := [116], columns := [], pk := [],
       firstPageID := 0, lastPageID := 0 } : Table) ≠
      { id := 1, name := [116], columns := [], pk := [],
        firstPageID := 0, lastPageID := 0 } := by
  decide

/-- C3 (amended): for a well-formed table whose schema fits in one page,
serializing into a fresh page whose header `CreateTable` has initialized
(in particular the table-id field) and then deserializing recovers the
table exactly, except that `FirstPageID`/`LastPageID` come back 0 — the
page-chain endpoints are not stored in the table page. -/
theorem c3_roundtrip (t : Table) (ps : Nat) (hwf : wfTable t)
    (hfit : 17 + (tableSchemaBytes t).length ≤ ps) :
    deserializeTable (serializeTable t (initPage ps PTTable t.id)) =
      some { t with firstPageID := 0, lastPageID := 0 } := by
  obtain ⟨hn, hp, hc, hid, hcols⟩ := hwf
  rw [serializeTable_initPage t ps hn hp (fun c hc2 => (hcols c hc2).1) hfit]
  exact deserializeTable_spec t PTTable 0 0 (17 + (tableSchemaBytes t).length)
    (List.replicate (ps - 17 - (tableSchemaBytes t).length) 0) ⟨hn, hp, hc, hid, hcols⟩

/-- C3 witness: the round trip at a concrete two-column table in a
64-byte page. -/
theorem c3_roundtrip_witness :
    deserializeTable (serializeTable
        { id := 1, name := [117], columns :=
            [{ name := [105], type := TInteger, notNull := true },
             { name := [110], type := Tstring, notNull := false }],
          pk := [105], firstPageID := 3, lastPageID := 7 }
        (initPage 64 PTTable 1)) =
      some { id := 1, name := [117], columns :=
              [{ name := [105], type := TInteger, notNull := true },
               { name := [110], type := Tstring, notNull := false }],
             pk := [105], firstPageID := 0, lastPageID := 0 } := by
  exact c3_roundtrip
    { id := 1, name := [117], columns :=
        [{ name := [105], type := TInteger, notNull := true },
         { name := [110], type := Tstring, notNull := false }],
      pk := [105], firstPageID := 3, lastPageID := 7 } 64
    (by unfold wfTable; decide) (by decide)

/-! ### C5: oversized strings -/

/-- `serializeRow` on a one-String-column schema: no length check is
performed; the 2-byte prefix stores `uint16(len(str))` and the full
string bytes follow. -/
theorem serializeRow_single_string (nm s : GoStr) (rid : Nat) :
    serializeRow { values := [(nm, some (.gStr s))], rowID := rid }
      { id := 1, name := nm,
        columns := [{ name := nm, type := Tstring, notNull := true }],
        pk := [], firstPageID := 0, lastPageID := 0 } =
      some ([0] ++ u16le s.length ++ s) := by
  simp [serializeRow, rowFieldsBytes, mapLookup, fieldBytes, Tstring, TInteger, Tfloat,
    nullBitmap, bitsToByte, isNullLookup]

/-- C5 (counterexample): serializing a row holding a 65536-byte string for
a String column succeeds (returns a buffer) — there is no hard
serialization error for strings whose length does not fit in 16 bits. -/
theorem c5_counterexample :
    65535 < (List.replicate 65536 97 : GoStr).length ∧
    (serializeRow { values := [([110], some (.gStr (List.replicate 65536 97)))], rowID := 0 }
      { id := 1, name := [110],
        columns := [{ name := [110], type := Tstring, notNull := true }],
        pk := [], firstPageID := 0, lastPageID := 0 }).isSome = true := by
  refine ⟨?_, ?_⟩
  · rw [List.length_replicate]
    omega
  · rw [serializeRow_single_string]
    rfl

/-- C5 (amended): encoding a string longer than 65535 bytes does NOT
fail: `serializeRow` succeeds, stores `length mod 65536` in the 2-byte
prefix (which then differs from the real length — the record cannot be
decoded back), and copies the full string bytes. -/
theorem c5_truncation (nm s : GoStr) (rid : Nat) (h : 65536 ≤ s.length) :
    serializeRow { values := [(nm, some (.gStr s))], rowID := rid }
      { id := 1, name := nm,
        columns := [{ name := nm, type := Tstring, notNull := true }],
        pk := [], firstPageID := 0, lastPageID := 0 } =
      some ([0] ++ u16le s.length ++ s) ∧
    readU16 ([0] ++ u16le s.length ++ s) 1 = s.length % 65536 ∧
    s.length % 65536 ≠ s.length := by
  refine ⟨serializeRow_single_string nm s rid, ?_, by omega⟩
  exact @readU16_of_drop ([0] ++ u16le s.length ++ s) s _ _ rfl

/-- C5 witness: the truncation theorem at a concrete 65536-byte string:
encoding succeeds and the stored length prefix is 0. -/
theorem c5_truncation_witness :
    65536 ≤ (List.replicate 65536 97 : GoStr).length ∧
    ∃ bytes,
      serializeRow
          { values := [([110], some (.gStr (List.replicate 65536 97)))], rowID := 0 }
          { id := 1, name := [110],
            columns := [{ name := [110], type := Tstring, notNull := true }],
            pk := [], firstPageID := 0, lastPageID := 0 } = some bytes ∧
      readU16 bytes 1 = 0 := by
  have hlen : (List.replicate 65536 97 : GoStr).length = 65536 := List.length_replicate _ _
  have h := c5_truncation [110] (List.replicate 65536 97) 0 (by rw [hlen])
  refine ⟨by rw [hlen], _, h.1, ?_⟩
  rw [h.2.1, hlen]

/-! ### Row codec round trip (C1) -/

theorem bitsToByte_bit (bs : List Bool) (j : Nat) :
    bitsToByte bs / 2 ^ j % 2 = if bs.getD j false then 1 else 0 := by
  induction bs generalizing j with
  | nil => simp [bitsToByte]
  | cons b bs ih =>
    have hstep : bitsToByte (b :: bs) = (if b then 1 else 0) + 2 * bitsToByte bs := rfl
    cases j with
    | zero =>
      rw [hstep]
      cases b <;> simp <;> omega
    | succ j =>
      rw [hstep, pow_succ', ← Nat.div_div_eq_div_mul]
      have h2 : ((if b then 1 else 0) + 2 * bitsToByte bs) / 2 = bitsToByte bs := by
        cases b <;> simp <;> omega
      rw [h2]
      simpa using ih j

theorem nullBitmap_length (bs : List Bool) :
    (nullBitmap bs).length = (bs.length + 7) / 8 := by
  induction bs using nullBitmap.induct with
  | case1 => simp [nullBitmap]
  | case2 b bs ih =>
    rw [nullBitmap, List.length_cons, ih]
    simp only [List.length_drop, List.length_cons]
    omega

theorem nullBitmap_getD (bs : List Bool) :
    ∀ k, k < (bs.length + 7) / 8 →
      (nullBitmap bs).getD k 0 = bitsToByte ((bs.drop (8 * k)).take 8) := by
  induction bs using nullBitmap.induct with
  | case1 => intro k hk; simp at hk
  | case2 b bs ih =>
    intro k hk
    simp only [List.length_cons] at hk
    cases k with
    | zero => simp [nullBitmap]
    | succ k =>
      rw [nullBitmap, List.getD_cons_succ,
        ih k (by simp only [List.length_drop, List.length_cons]; omega),
        List.drop_drop, show 8 + 8 * k = 8 * (k + 1) from by ring]

theorem nullBitmap_bit (flags : List Bool) (rest : List Nat) (i : Nat)
    (h : i < flags.length) :
    (byteAt (nullBitmap flags ++ rest) (i / 8) / 2 ^ (i % 8)) % 2 =
      if flags.getD i false then 1 else 0 := by
  have hk : i / 8 < (flags.length + 7) / 8 := by omega
  have hlen : i / 8 < (nullBitmap flags).length := by rw [nullBitmap_length]; exact hk
  rw [byteAt_append_left hlen]
  show (nullBitmap flags).getD (i / 8) 0 / 2 ^ (i % 8) % 2 = _
  rw [nullBitmap_getD flags _ hk, bitsToByte_bit]
  congr 1
  have h8 : i % 8 < 8 := Nat.mod_lt _ (by norm_num)
  simp only [List.getD]
  rw [List.get?_take h8, List.get?_drop,
    show 8 * (i / 8) + i % 8 = i from by omega]

theorem int64ToU64_lt (n : Int) : int64ToU64 n < 2 ^ 64 := by
  unfold int64ToU64
  omega

theorem u64ToInt64_int64ToU64 (n : Int) (h1 : -(2 ^ 63) ≤ n) (h2 : n < 2 ^ 63) :
    u64ToInt64 (int64ToU64 n) = n := by
  unfold int64ToU64 u64ToInt64
  split <;> omega

theorem rowFieldsBytes_canon (values : RowValues) (cs : List Column)
    (hcanon : ∀ c ∈ cs, canonVal c.type (mapLookup values c.name)) :
    rowFieldsBytes values cs = some (fieldsOf values cs) := by
  induction cs with
  | nil => rfl
  | cons c cs ih =>
    have hc := hcanon c (by simp)
    have hcs := fun c h => hcanon c (List.mem_cons_of_mem _ h)
    unfold rowFieldsBytes fieldsOf
    cases hl : mapLookup values c.name with
    | none => simpa using ih hcs
    | some o =>
      cases o with
      | none => rw [hl] at hc; exact absurd hc (by simp [canonVal])
      | some v =>
        rw [hl] at hc
        simp only [canonVal] at hc
        rw [ih hcs]
        by_cases h0 : c.type = TInteger
        · rw [if_pos h0] at hc
          obtain ⟨n, rfl, _, _⟩ := hc
          simp [fieldBytes, h0]
        rw [if_neg h0] at hc
        by_cases h1 : c.type = Tfloat
        · rw [if_pos h1] at hc
          obtain ⟨b, rfl, _⟩ := hc
          simp [fieldBytes, h0, h1, TInteger, Tfloat]
        rw [if_neg h1] at hc
        by_cases h2 : c.type = Tstring
        · rw [if_pos h2] at hc
          obtain ⟨s, rfl, _⟩ := hc
          simp [fieldBytes, h0, h1, h2, TInteger, Tfloat, Tstring]
        rw [if_neg h2] at hc
        by_cases h3 : c.type = Tbool
        · rw [if_pos h3] at hc
          obtain ⟨x, rfl⟩ := hc
          simp [fieldBytes, h0, h1, h2, h3, TInteger, Tfloat, Tstring, Tbool]
        rw [if_neg h3] at hc
        exact absurd hc (by simp)

theorem mapLookup_insert (m : RowValues) (k k' : GoStr) (v : Option GoVal) :
    mapLookup (mapInsert m k v) k' = if k = k' then some v else mapLookup m k' := by
  induction m with
  | nil =>
    by_cases h : k = k' <;> simp [mapInsert, mapLookup, h]
  | cons e m ih =>
    obtain ⟨ek, ev⟩ := e
    simp only [mapInsert]
    by_cases he : ek = k
    · rw [if_pos he]
      subst he
      by_cases h : ek = k' <;> simp [mapLookup, h]
    · rw [if_neg he]
      simp only [mapLookup]
      by_cases h2 : ek = k'
      · rw [if_pos h2, if_pos h2, if_neg (fun hh => he (h2.trans hh.symm))]
      · rw [if_neg h2, if_neg h2, ih]

theorem mapLookup_mem {m : RowValues} {k : GoStr} {w : Option GoVal}
    (h : mapLookup m k = some w) : (k, w) ∈ m := by
  induction m with
  | nil => simp [mapLookup] at h
  | cons e m ih =>
    obtain ⟨ek, ev⟩ := e
    unfold mapLookup at h
    by_cases he : ek = k
    · rw [if_pos he] at h
      subst he
      cases h
      exact List.mem_cons_self _ _
    · rw [if_neg he] at h
      exact List.mem_cons_of_mem _ (ih h)

theorem checkUnknown_covers {cols : List Column} {values : RowValues}
    (hok : checkUnknown cols values = .ok ()) :
    ∀ k w, (k, w) ∈ values → ∃ c ∈ cols, c.name = k := by
  induction values with
  | nil => intro k w h; simp at h
  | cons e vs ih =>
    obtain ⟨ek, ev⟩ := e
    unfold checkUnknown at hok
    by_cases ha : cols.any (fun c => c.name == ek)
    · rw [if_pos ha] at hok
      intro k w h
      rcases List.mem_cons.mp h with heq | hmem'
      · cases heq
        obtain ⟨c, hc, hcn⟩ := List.any_eq_true.mp ha
        exact ⟨c, hc, by simpa using hcn⟩
      · exact ih hok k w hmem'
    · rw [if_neg ha] at hok
      cases hok

theorem bitsOK_of_bitmap (values : RowValues) (tail : List Nat) (CS : List Column) :
    ∀ pre suf : List Column, CS = pre ++ suf →
      bitsOK (nullBitmap (CS.map fun c => isNullLookup (mapLookup values c.name)) ++ tail)
        (nullBitmap (CS.map fun c => isNullLookup (mapLookup values c.name)) ++ tail).length
        values suf pre.length := by
  intro pre suf
  induction suf generalizing pre with
  | nil => intro _; trivial
  | cons c cs ih =>
    intro hCS
    have hflen : (CS.map fun c => isNullLookup (mapLookup values c.name)).length = CS.length :=
      List.length_map _ _
    have hi : pre.length < CS.length := by
      rw [hCS, List.length_append, List.length_cons]
      omega
    have hbmlen : pre.length / 8 <
        (nullBitmap (CS.map fun c => isNullLookup (mapLookup values c.name))).length := by
      rw [nullBitmap_length, hflen]
      omega
    refine ⟨?_, ?_, ?_⟩
    · calc pre.length / 8 < _ := hbmlen
        _ ≤ _ := by rw [List.length_append]; omega
    · rw [nullBitmap_bit _ tail pre.length (by rw [hflen]; exact hi)]
      have hgd : (CS.map fun c => isNullLookup (mapLookup values c.name)).getD pre.length false =
          isNullLookup (mapLookup values c.name) := by
        rw [hCS]
        simp only [List.map_append, List.map_cons, List.getD]
        rw [List.get?_append_right (by rw [List.length_map])]
        rw [List.length_map, Nat.sub_self]
        rfl
      rw [hgd]
      cases isNullLookup (mapLookup values c.name) <;> rfl
    · have := ih (pre ++ [c]) (by rw [hCS]; simp)
      simpa using this

theorem deserializeRowAux_canon (values : RowValues) (data : List Nat) :
    ∀ (cs : List Column) (i off : Nat) (acc : RowValues) (rest : List Nat),
      (∀ c ∈ cs, canonVal c.type (mapLookup values c.name)) →
      bitsOK data data.length values cs i →
      data.drop off = fieldsOf values cs ++ rest →
      deserializeRowAux data data.length cs i off acc =
        some (insertAll values acc cs) := by
  intro cs
  induction cs with
  | nil => intro i off acc rest _ _ _; rfl
  | cons c cs ih =>
    intro i off acc rest hcanon hbits hdrop
    have hc := hcanon c (by simp)
    have hcs := fun c h => hcanon c (List.mem_cons_of_mem _ h)
    obtain ⟨hlt, hbit, hbits'⟩ := hbits
    unfold deserializeRowAux
    rw [if_pos hlt, hbit]
    cases hl : mapLookup values c.name with
    | none =>
      rw [if_pos (by rfl)]
      rw [ih (i + 1) off acc rest hcs hbits' (by simpa [fieldsOf, hl] using hdrop)]
      have hins : insertAll values acc (c :: cs) = insertAll values acc cs := by
        simp only [insertAll, hl]
      rw [hins]
    | some o =>
      cases o with
      | none => rw [hl] at hc; exact absurd hc (by simp [canonVal])
      | some v =>
        rw [hl] at hc
        simp only [canonVal] at hc
        rw [if_neg (by simp [isNullLookup])]
        have hfof : fieldsOf values (c :: cs) =
            (fieldBytes c v).getD [] ++ fieldsOf values cs := by
          simp only [fieldsOf, hl]
        have hins : insertAll values acc (c :: cs) =
            insertAll values (mapInsert acc c.name (some v)) cs := by
          simp only [insertAll, hl]
        by_cases h0 : c.type = TInteger
        · rw [if_pos h0] at hc
          obtain ⟨n, rfl, hn1, hn2⟩ := hc
          have hfb : (fieldBytes c (.gInt .kInt64 n)).getD [] = u64le (int64ToU64 n) := by
            simp [fieldBytes, h0, intKindToInt64]
          rw [hfof, hfb, List.append_assoc] at hdrop
          have hlen := congrArg List.length hdrop
          simp only [List.length_drop, List.length_append, u64le_length] at hlen
          have hbound : off + 8 ≤ data.length := by omega
          rw [if_pos h0, if_pos hbound]
          have hv : u64ToInt64 (readU64 data off) = n := by
            rw [readU64_of_drop hdrop, Nat.mod_eq_of_lt (int64ToU64_lt n)]
            exact u64ToInt64_int64ToU64 n hn1 hn2
          rw [hv]
          have hdrop' : data.drop (off + 8) = fieldsOf values cs ++ rest := by
            have h8 := drop_of_drop hdrop
            rw [u64le_length] at h8
            exact h8
          rw [ih (i + 1) (off + 8) _ rest hcs hbits' hdrop', hins]
        rw [if_neg h0] at hc
        by_cases h1 : c.type = Tfloat
        · rw [if_pos h1] at hc
          obtain ⟨b, rfl, hb⟩ := hc
          have hfb : (fieldBytes c (.gF64 b)).getD [] = u64le b := by
            simp [fieldBytes, h0, h1, TInteger, Tfloat]
          rw [hfof, hfb, List.append_assoc] at hdrop
          have hlen := congrArg List.length hdrop
          simp only [List.length_drop, List.length_append, u64le_length] at hlen
          have hbound : off + 8 ≤ data.length := by omega
          rw [if_neg h0, if_pos h1, if_pos hbound]
          rw [readU64_of_drop hdrop, Nat.mod_eq_of_lt hb]
          have hdrop' : data.drop (off + 8) = fieldsOf values cs ++ rest := by
            have h8 := drop_of_drop hdrop
            rw [u64le_length] at h8
            exact h8
          rw [ih (i + 1) (off + 8) _ rest hcs hbits' hdrop', hins]
        rw [if_neg h1] at hc
        by_cases h2 : c.type = Tstring
        · rw [if_pos h2] at hc
          obtain ⟨s, rfl, hs⟩ := hc
          have hfb : (fieldBytes c (.gStr s)).getD [] = u16le s.length ++ s := by
            simp [fieldBytes, h0, h1, h2, TInteger, Tfloat, Tstring]
          rw [hfof, hfb, List.append_assoc, List.append_assoc] at hdrop
          have hlen := congrArg List.length hdrop
          simp only [List.length_drop, List.length_append, u16le_length] at hlen
          have hbound : off + 2 ≤ data.length := by omega
          have h16 : readU16 data off = s.length := by
            rw [readU16_of_drop hdrop]
            exact Nat.mod_eq_of_lt hs
          have hdrop2 : data.drop (off + 2) = s ++ (fieldsOf values cs ++ rest) := by
            have hh := drop_of_drop hdrop
            rw [u16le_length] at hh
            exact hh
          have hbound2 : off + 2 + readU16 data off ≤ data.length := by
            rw [h16]; omega
          rw [if_neg h0, if_neg h1, if_pos h2, if_pos hbound, if_pos hbound2, h16]
          have hstr : (data.drop (off + 2)).take s.length = s := take_of_drop hdrop2
          rw [hstr]
          have hdrop' : data.drop (off + 2 + s.length) = fieldsOf values cs ++ rest := by
            have hh := drop_of_drop hdrop2
            exact hh
          rw [ih (i + 1) (off + 2 + s.length) _ rest hcs hbits' hdrop', hins]
        rw [if_neg h2] at hc
        by_cases h3 : c.type = Tbool
        · rw [if_pos h3] at hc
          obtain ⟨x, rfl⟩ := hc
          have hfb : (fieldBytes c (.gBool x)).getD [] = [if x then 1 else 0] := by
            simp [fieldBytes, h0, h1, h2, h3, TInteger, Tfloat, Tstring, Tbool]
          rw [hfof, hfb, List.append_assoc] at hdrop
          have hlen := congrArg List.length hdrop
          simp only [List.length_drop, List.length_append, List.length_cons,
            List.length_nil] at hlen
          have hbound : off < data.length := by omega
          rw [if_neg h0, if_neg h1, if_neg h2, if_pos h3, if_pos hbound]
          have hbyte : byteAt data off = if x then 1 else 0 := by
            have hb0 : byteAt (data.drop off) 0 = byteAt data off := by
              rw [byteAt_drop, Nat.add_zero]
            rw [← hb0, hdrop]
            cases x <;> rfl
          have hxv : (byteAt data off != 0) = x := by
            rw [hbyte]
            cases x <;> rfl
          rw [hxv]
          have hdrop' : data.drop (off + 1) = fieldsOf values cs ++ rest := by
            have hh := drop_of_drop hdrop
            simpa using hh
          rw [ih (i + 1) (off + 1) _ rest hcs hbits' hdrop', hins]
        rw [if_neg h3] at hc
        exact absurd hc (by simp)

theorem insertAll_lookup_nullkey (values : RowValues) (k : GoStr)
    (hnull : isNullLookup (mapLookup values k) = true) :
    ∀ (cs : List Column) (acc : RowValues),
      mapLookup (insertAll values acc cs) k = mapLookup acc k := by
  intro cs
  induction cs with
  | nil => intro acc; rfl
  | cons c cs ih =>
    intro acc
    cases hl : mapLookup values c.name with
    | none =>
      simp only [insertAll, hl]
      exact ih _
    | some o =>
      cases o with
      | none =>
        simp only [insertAll, hl]
        exact ih _
      | some v =>
        simp only [insertAll, hl]
        have hne : ¬(c.name = k) := by
          intro hck
          rw [hck] at hl
          rw [hl] at hnull
          simp [isNullLookup] at hnull
        rw [ih _, mapLookup_insert, if_neg hne]

theorem insertAll_lookup_val (values : RowValues) (k : GoStr) (v : GoVal)
    (hv : mapLookup values k = some (some v)) :
    ∀ (cs : List Column) (acc : RowValues),
      ((∃ c ∈ cs, c.name = k) ∨ mapLookup acc k = some (some v)) →
      mapLookup (insertAll values acc cs) k = some (some v) := by
  intro cs
  induction cs with
  | nil =>
    intro acc h
    rcases h with ⟨c, hc, _⟩ | hacc
    · simp at hc
    · exact hacc
  | cons c cs ih =>
    intro acc h
    cases hl : mapLookup values c.name with
    | none =>
      simp only [insertAll, hl]
      apply ih
      rcases h with ⟨c', hc', hk⟩ | hacc
      · rcases List.mem_cons.mp hc' with rfl | hm
        · rw [hk] at hl
          rw [hl] at hv
          cases hv
        · exact Or.inl ⟨c', hm, hk⟩
      · exact Or.inr hacc
    | some o =>
      cases o with
      | none =>
        simp only [insertAll, hl]
        apply ih
        rcases h with ⟨c', hc', hk⟩ | hacc
        · rcases List.mem_cons.mp hc' with rfl | hm
          · rw [hk] at hl
            rw [hl] at hv
            cases hv
          · exact Or.inl ⟨c', hm, hk⟩
        · exact Or.inr hacc
      | some w =>
        simp only [insertAll, hl]
        apply ih
        by_cases hck : c.name = k
        · right
          rw [mapLookup_insert, if_pos hck]
          rw [hck] at hl
          rw [hv] at hl
          cases hl
          rfl
        · rcases h with ⟨c', hc', hk⟩ | hacc
          · rcases List.mem_cons.mp hc' with rfl | hm
            · exact absurd hk hck
            · exact Or.inl ⟨c', hm, hk⟩
          · right
            rw [mapLookup_insert, if_neg hck]
            exact hacc

/-- C1 (counterexample): a row that stores an explicit `nil` for a
nullable column is valid for the schema, but the round trip returns a row
with the key absent — not equal to the original row. -/
theorem c1_counterexample :
    validateRowData
        { id := 1, name := [116],
          columns := [{ name := [97], type := TInteger, notNull := false }],
          pk := [], firstPageID := 0, lastPageID := 0 }
        [([97], none)] = .ok () ∧
    serializeRow { values := [([97], none)], rowID := 0 }
        { id := 1, name := [116],
          columns := [{ name := [97], type := TInteger, notNull := false }],
          pk := [], firstPageID := 0, lastPageID := 0 } = some [1] ∧
    deserializeRow [1] 1
        { id := 1, name := [116],
          columns := [{ name := [97], type := TInteger, notNull := false }],
          pk := [], firstPageID := 0, lastPageID := 0 } =
      some { values := [], rowID := 0 } ∧
    ({ values := [], rowID := 0 } : Row) ≠ { values := [([97], none)], rowID := 0 } := by
  refine ⟨rfl, ?_, rfl, by decide⟩
  simp [serializeRow, rowFieldsBytes, mapLookup, nullBitmap, bitsToByte, isNullLookup]

/-- C1: `deserializeRow ∘ serializeRow` recovers a valid row up to: the
values map is recovered only at lookup level for rows in canonical dynamic
form (`int64`/`float64`-bits/short `string`/`bool` values, nulls absent
rather than nil-present — the forms the decoder itself produces), and the
returned `RowID` is `0`, not the original one. -/
theorem c1_roundtrip (t : Table) (row : Row)
    (hvalid : validateRowData t row.values = .ok ())
    (hcanon : canonicalRow t row.values) :
    ∃ bytes out,
      serializeRow row t = some bytes ∧
      deserializeRow bytes bytes.length t = some out ∧
      out.rowID = 0 ∧
      ∀ k, mapLookup out.values k = mapLookup row.values k := by
  have hunknown : checkUnknown t.columns row.values = .ok () := by
    unfold validateRowData at hvalid
    cases hvc : validateColumns row.values t.columns with
    | ok a => rw [hvc] at hvalid; exact hvalid
    | err e => rw [hvc] at hvalid; cases hvalid
    | panicked => rw [hvc] at hvalid; cases hvalid
  have hfields : rowFieldsBytes row.values t.columns =
      some (fieldsOf row.values t.columns) := rowFieldsBytes_canon _ _ hcanon
  refine ⟨nullBitmap (t.columns.map fun c => isNullLookup (mapLookup row.values c.name)) ++
      fieldsOf row.values t.columns,
    { values := insertAll row.values [] t.columns, rowID := 0 }, ?_, ?_, rfl, ?_⟩
  · unfold serializeRow
    rw [hfields]
  · unfold deserializeRow
    have hbm : (nullBitmap
        (t.columns.map fun c => isNullLookup (mapLookup row.values c.name))).length =
        (t.columns.length + 7) / 8 := by
      rw [nullBitmap_length, List.length_map]
    have hbits := bitsOK_of_bitmap row.values (fieldsOf row.values t.columns) t.columns
      [] t.columns rfl
    have hdrop : (nullBitmap
          (t.columns.map fun c => isNullLookup (mapLookup row.values c.name)) ++
          fieldsOf row.values t.columns).drop ((t.columns.length + 7) / 8) =
        fieldsOf row.values t.columns ++ [] := by
      rw [List.append_nil]
      exact drop_left_of_length hbm _
    rw [deserializeRowAux_canon row.values _ t.columns 0 _ [] [] hcanon hbits hdrop]
  · intro k
    cases hk : mapLookup row.values k with
    | none =>
      rw [insertAll_lookup_nullkey row.values k (by rw [hk]; rfl) t.columns []]
      rfl
    | some o =>
      cases o with
      | none =>
        have hmem := mapLookup_mem hk
        obtain ⟨c, hc, hcn⟩ := checkUnknown_covers hunknown k none hmem
        have hcv := hcanon c hc
        rw [hcn, hk] at hcv
        exact absurd hcv (by simp [canonVal])
      | some v =>
        have hmem := mapLookup_mem hk
        obtain ⟨c, hc, hcn⟩ := checkUnknown_covers hunknown k (some v) hmem
        rw [insertAll_lookup_val row.values k v hk t.columns [] (Or.inl ⟨c, hc, hcn⟩)]

/-- C1 witness: the round trip at a concrete two-column table (a NOT NULL
Integer primary key holding 42 and an absent nullable String). -/
theorem c1_roundtrip_witness :
    validateRowData
        { id := 1, name := [116],
          columns := [{ name := [105], type := TInteger, notNull := true },
            { name := [110], type := Tstring, notNull := false }],
          pk := [105], firstPageID := 0, lastPageID := 0 }
        [([105], some (.gInt .kInt64 42))] = .ok () ∧
    canonicalRow
        { id := 1, name := [116],
          columns := [{ name := [105], type := TInteger, notNull := true },
            { name := [110], type := Tstring, notNull := false }],
          pk := [105], firstPageID := 0, lastPageID := 0 }
        [([105], some (.gInt .kInt64 42))] ∧
    ∃ bytes out,
      serializeRow { values := [([105], some (.gInt .kInt64 42))], rowID := 7 }
          { id := 1, name := [116],
            columns := [{ name := [105], type := TInteger, notNull := true },
              { name := [110], type := Tstring, notNull := false }],
            pk := [105], firstPageID := 0, lastPageID := 0 } = some bytes ∧
      deserializeRow bytes bytes.length
          { id := 1, name := [116],
            columns := [{ name := [105], type := TInteger, notNull := true },
              { name := [110], type := Tstring, notNull := false }],
            pk := [105], firstPageID := 0, lastPageID := 0 } = some out ∧
      out.rowID = 0 ∧
      ∀ k, mapLookup out.values k =
        mapLookup [([105], some (.gInt .kInt64 42))] k := by
  have hcanon : canonicalRow
      { id := 1, name := [116],
        columns := [{ name := [105], type := TInteger, notNull := true },
          { name := [110], type := Tstring, notNull := false }],
        pk := [105], firstPageID := 0, lastPageID := 0 }
      [([105], some (.gInt .kInt64 42))] := by
    intro c hc
    simp only [List.mem_cons, List.not_mem_nil, or_false] at hc
    rcases hc with rfl | rfl
    · show canonVal TInteger (mapLookup [([105], some (.gInt .kInt64 42))] [105])
      have : mapLookup [([105], some (.gInt .kInt64 42))] [105] =
          some (some (.gInt .kInt64 42)) := rfl
      rw [this]
      simp only [canonVal, if_pos rfl]
      exact ⟨42, rfl, by norm_num, by norm_num⟩
    · show canonVal Tstring (mapLookup [([105], some (.gInt .kInt64 42))] [110])
      have : mapLookup [([105], some (.gInt .kInt64 42))] [110] = none := by decide
      rw [this]
      trivial
  exact ⟨rfl, hcanon, c1_roundtrip _ _ rfl hcanon⟩

/-! ### Float values offered to Integer columns (C6) -/

/-- An `Insert` whose validation fails returns that error unchanged. -/
theorem Insert_validate_err (db : DB) (name : GoStr) (values : RowValues)
    (t : Table) (e : InsErr) (ht : aLookup db.tables name = some t)
    (hv : validateRowData t values = .err e) :
    Insert db name values = .err e := by
  simp only [Insert, ht, hv]

/-- C6: `Insert` of a non-integral `float32` (here 30.5, the same real
value — scaled class `61 * 2^1073` — as the `float64` in the last clause)
for an Integer column does NOT return a type-mismatch error: it panics,
because `case float32, float64:` leaves the switch variable an
`interface{}` and the assertion `v.(float64)` fails on a `float32`.  Only
a non-integral `float64` is rejected with the error the claim
describes. -/
theorem c6_float32_panics :
    f32class 1106509824 = .fin (61 * 2 ^ 1073) ∧
    f64class (mkF64 false 1027 (29 * 2 ^ 47)) = .fin (61 * 2 ^ 1073) ∧
    Insert
        { pageSize := 64, file := [],
          tables := [([116],
            { id := 1, name := [116],
              columns := [{ name := [99], type := TInteger, notNull := false }],
              pk := [], firstPageID := 1, lastPageID := 1 })],
          rowIndices := [([116], [])], nextPageID := 2, nextTableID := 2 }
        [116] [([99], some (.gF32 1106509824))] = .panicked ∧
    Insert
        { pageSize := 64, file := [],
          tables := [([116],
            { id := 1, name := [116],
              columns := [{ name := [99], type := TInteger, notNull := false }],
              pk := [], firstPageID := 1, lastPageID := 1 })],
          rowIndices := [([116], [])], nextPageID := 2, nextTableID := 2 }
        [116] [([99], some (.gF64 (mkF64 false 1027 (29 * 2 ^ 47))))] =
      .err (.invalidValue [99]) := by
  have hmag : (((2 ^ 52 + 29 * 2 ^ 47) * 2 ^ 1026 : Nat) : Int) = 61 * 2 ^ 1073 := by
    push_cast
    rw [show (8584986789675008 : Int) = 61 * 2 ^ 47 from by norm_num,
      show (1073 : ℕ) = 47 + 1026 from rfl, pow_add]
    ring
  have hf64 : f64class (mkF64 false 1027 (29 * 2 ^ 47)) = .fin (61 * 2 ^ 1073) := by
    rw [f64class_mkF64 false 1027 (29 * 2 ^ 47) (by norm_num) (by norm_num) (by norm_num)]
    rw [if_neg (by simp), show (1027 - 1 : Nat) = 1026 from rfl, hmag]
  have hTrunc : f64eqTruncSelf (mkF64 false 1027 (29 * 2 ^ 47)) = false := by
    unfold f64eqTruncSelf
    rw [hf64]
    have hnd : ¬ ((2 : Int) ^ 1074 ∣ (61 * 2 ^ 1073 : Int)) := by
      rintro ⟨k, hk⟩
      have h2 : (61 : Int) * 2 ^ 1073 = (2 * k) * 2 ^ 1073 := by
        rw [hk, show (1074 : ℕ) = 1 + 1073 from rfl, pow_add]
        ring
      have h3 : (61 : Int) = 2 * k :=
        mul_right_cancel₀ (pow_ne_zero _ (by norm_num)) h2
      omega
    simp [hnd]
  have hTruncLit : f64eqTruncSelf (mkF64 false 1027 4081387162304512) = false := by
    rw [show (4081387162304512 : ℕ) = 29 * 2 ^ 47 from by norm_num]
    exact hTrunc
  have hvv : validateValueType (some (.gF64 (mkF64 false 1027 (29 * 2 ^ 47))))
      TInteger = .mismatch := by
    simp only [validateValueType]
    simp [hTrunc, hTruncLit]
  refine ⟨?_, hf64, by rfl, ?_⟩
  · have h1 : (1106509824 : Nat) / 2 ^ 31 % 2 = 0 := by norm_num
    have h2 : (1106509824 : Nat) / 2 ^ 23 % 2 ^ 8 = 131 := by norm_num
    have h3 : (1106509824 : Nat) % 2 ^ 23 = 7602176 := by norm_num
    simp only [f32class, h1, h2, h3]
    rw [if_neg (by norm_num : ¬(131 = 255)), if_neg (by norm_num : ¬(131 = 0)),
      if_neg (by norm_num : ¬(0 = 1)), show (131 + 924 : Nat) = 1055 from rfl]
    exact congrArg FClass.fin (by
      push_cast
      rw [show (15990784 : Int) = 61 * 2 ^ 18 from by norm_num,
        show (1073 : ℕ) = 18 + 1055 from rfl, pow_add]
      ring)
  · have hvrd : validateRowData
        { id := 1, name := [116],
          columns := [{ name := [99], type := TInteger, notNull := false }],
          pk := [], firstPageID := 1, lastPageID := 1 }
        [([99], some (.gF64 (mkF64 false 1027 (29 * 2 ^ 47))))] =
        .err (.invalidValue [99]) := by
      simp only [validateRowData, validateColumns, mapLookup, if_true]
      rw [hvv]
    exact Insert_validate_err _ _ _ _ _ rfl hvrd

/-! ### Select's treatment of unreadable pages and undecodable rows (C10) -/

/-- C10 (amended): when reading the page behind an index entry fails, the
entry is silently skipped and the scan continues with the remaining
entries.  (For a failing `deserializeRow` the claim is wrong — see the
counterexample: `deserializeRow` never returns a non-nil error, it panics,
so the whole `Select` panics.) -/
theorem c10_read_failure_skips (db : DB) (table : Table) (cond : Row → Bool)
    (e : RowIndex) (es : List RowIndex)
    (h : readFilePage db.file e.pageID = none) :
    selectScan db table cond (e :: es) = selectScan db table cond es := by
  conv_lhs => rw [selectScan]
  rw [h]

/-- C10 witness: skipping a concrete entry whose page is past the end of
a concrete (empty) file. -/
theorem c10_read_failure_skips_witness :
    readFilePage ([] : List (List Nat)) 1 = none ∧
    selectScan
        { pageSize := 32, file := [], tables := [], rowIndices := [],
          nextPageID := 0, nextTableID := 1 }
        { id := 1, name := [116], columns := [], pk := [],
          firstPageID := 1, lastPageID := 1 }
        (fun _ => true)
        [{ tableID := 1, rowID := 1, pageID := 1, offset := 17 }] =
      selectScan
        { pageSize := 32, file := [], tables := [], rowIndices := [],
          nextPageID := 0, nextTableID := 1 }
        { id := 1, name := [116], columns := [], pk := [],
          firstPageID := 1, lastPageID := 1 }
        (fun _ => true) [] :=
  ⟨rfl, c10_read_failure_skips _ _ _ _ _ rfl⟩

/-- C10 (counterexample): a stored record whose string length prefix
points past the page is not "silently skipped" by the scan — `Select`
panics, because `deserializeRow` has no error return and its slice
expression leaves the buffer.  (Under the claim the result would have
been `.ok []`.) -/
theorem c10_counterexample :
    Select
        { pageSize := 32,
          file := [List.replicate 32 0,
            [2, 1, 0, 0, 0, 1, 0, 0, 0, 0, 0, 0, 0, 0, 0, 22, 0] ++
              [3, 0] ++ [0, 100, 0] ++ List.replicate 10 0],
          tables := [([116],
            { id := 1, name := [116],
              columns := [{ name := [115], type := Tstring, notNull := false }],
              pk := [], firstPageID := 1, lastPageID := 1 })],
          rowIndices := [([116], [{ tableID := 1, rowID := 1, pageID := 1, offset := 17 }])],
          nextPageID := 2, nextTableID := 2 }
        [116] none = .panicked ∧
    (Res.panicked : Res (List Row)) ≠ .ok [] := by
  exact ⟨by rfl, by decide⟩

/-! ### Page-file and page-header access lemmas -/

theorem readFilePage_write_self (file : List (List Nat)) (ps id : Nat)
    (data : List Nat) (h : id ≤ file.length) :
    readFilePage (writeFilePage file ps id data) id = some data := by
  unfold readFilePage writeFilePage
  rcases Nat.lt_or_ge id file.length with hlt | hge
  · rw [if_pos hlt]
    exact List.get?_set_eq_of_lt _ hlt
  · have hid : id = file.length := by omega
    subst hid
    rw [if_neg (by omega)]
    rw [Nat.sub_self, List.replicate_zero, List.append_nil]
    rw [List.get?_append_right (le_refl _), Nat.sub_self]
    rfl

theorem readFilePage_write_other (file : List (List Nat)) (ps id id2 : Nat)
    (data : List Nat) (h : id < file.length) (hne : id2 ≠ id) :
    readFilePage (writeFilePage file ps id data) id2 = readFilePage file id2 := by
  unfold readFilePage writeFilePage
  rw [if_pos h, List.get?_set]
  simp [Ne.symm hne]

theorem readFilePage_write_append_other (file : List (List Nat)) (ps id id2 : Nat)
    (data : List Nat) (h : file.length ≤ id) (h2 : id2 < file.length) :
    readFilePage (writeFilePage file ps id data) id2 = readFilePage file id2 := by
  unfold readFilePage writeFilePage
  rw [if_neg (by omega)]
  rw [List.get?_append (by simp; omega), List.get?_append h2]

theorem headerAt_type (ty tid cnt next fo : Nat) (rest : List Nat) :
    byteAt (pageHeaderBytes ty tid cnt next fo ++ rest) 0 = ty % 256 := rfl

theorem headerAt_tid (ty tid cnt next fo : Nat) (rest : List Nat) :
    readU32 (pageHeaderBytes ty tid cnt next fo ++ rest) 1 = tid % 2 ^ 32 := by
  have hd : (pageHeaderBytes ty tid cnt next fo ++ rest).drop 1 =
      u32le tid ++ (u16le cnt ++ (u64le next ++ (u16le fo ++ rest))) := by
    simp [pageHeaderBytes, u32le, u16le, u64le]
  exact readU32_of_drop hd

theorem headerAt_cnt (ty tid cnt next fo : Nat) (rest : List Nat) :
    readU16 (pageHeaderBytes ty tid cnt next fo ++ rest) 5 = cnt % 65536 := by
  have hd : (pageHeaderBytes ty tid cnt next fo ++ rest).drop 5 =
      u16le cnt ++ (u64le next ++ (u16le fo ++ rest)) := by
    simp [pageHeaderBytes, u32le, u16le, u64le]
  exact readU16_of_drop hd

theorem headerAt_next (ty tid cnt next fo : Nat) (rest : List Nat) :
    readU64 (pageHeaderBytes ty tid cnt next fo ++ rest) 7 = next % 2 ^ 64 := by
  have hd : (pageHeaderBytes ty tid cnt next fo ++ rest).drop 7 =
      u64le next ++ (u16le fo ++ rest) := by
    simp [pageHeaderBytes, u32le, u16le, u64le]
  exact readU64_of_drop hd

theorem headerAt_fo (ty tid cnt next fo : Nat) (rest : List Nat) :
    readU16 (pageHeaderBytes ty tid cnt next fo ++ rest) 15 = fo % 65536 := by
  have hd : (pageHeaderBytes ty tid cnt next fo ++ rest).drop 15 =
      u16le fo ++ rest := by
    simp [pageHeaderBytes, u32le, u16le, u64le]
  exact readU16_of_drop hd

theorem readU64_putU64 (page : List Nat) (i v : Nat) (h : i + 8 ≤ page.length) :
    readU64 (putU64 page i v) i = v % 2 ^ 64 := by
  have hd : (putU64 page i v).drop i = u64le v ++ page.drop (i + 8) := by
    unfold putU64
    rw [writeBytes_eq_splice _ _ _ (by simp [u64le] <;> omega)]
    rw [List.append_assoc, u64le_length]
    exact drop_left_of_length (by rw [List.length_take]; omega) _
  exact readU64_of_drop hd

theorem addRowToPage_ok (db : DB) (page : List Nat) (pid : Nat) (rowData : List Nat)
    (h : readU16 page 15 + 2 + rowData.length ≤ page.length) :
    addRowToPage db page pid rowData =
      .ok
        ({ db with
            file := writeFilePage db.file db.pageSize pid
              (putU16 (putU16 (writeBytes (putU16 page (readU16 page 15) rowData.length)
                (readU16 page 15 + 2) rowData) 5 (readU16 page 5 + 1)) 15
                (readU16 page 15 + 2 + rowData.length)) },
          pid, readU16 page 15) := by
  unfold addRowToPage
  rw [if_pos ⟨by omega, by omega⟩]

/-- C9: the three placement cases of `findPageForRow`.  (a) With no last
data page (`LastPageID = 0`) a fresh Data page is allocated, the table's
`FirstPageID` and `LastPageID` both become its id, and the row lands at
offset 17.  (b) When the last page lacks room, a fresh page is allocated,
the old last page's next-page field is set to the new id, `LastPageID`
advances while `FirstPageID` stays fixed, and the row lands at offset 17.
(c) Otherwise the row is appended to the existing last page at its free
offset, with no allocation and no table change. -/
theorem c9_page_allocation :
    (∀ (db : DB) (table : Table) (row : Row) (rowData : List Nat),
      serializeRow row table = some rowData →
      17 ≤ db.pageSize →
      table.lastPageID = 0 →
      19 + rowData.length ≤ db.pageSize →
      ∃ db2, findPageForRow db table row =
          .ok (db2,
            { table with firstPageID := db.nextPageID, lastPageID := db.nextPageID },
            db.nextPageID, 17) ∧
        db2.nextPageID = db.nextPageID + 1) ∧
    (∀ (db : DB) (table : Table) (row : Row) (rowData lastPage : List Nat),
      serializeRow row table = some rowData →
      17 ≤ db.pageSize →
      table.lastPageID ≠ 0 →
      readFilePage db.file table.lastPageID = some lastPage →
      hasEnoughSpace db.pageSize lastPage (rowData.length + 2) = false →
      lastPage.length = db.pageSize →
      19 + rowData.length ≤ db.pageSize →
      table.lastPageID < db.file.length →
      db.nextPageID = db.file.length →
      db.nextPageID < 2 ^ 64 →
      ∃ db2 linked, findPageForRow db table row =
          .ok (db2, { table with lastPageID := db.nextPageID }, db.nextPageID, 17) ∧
        db2.nextPageID = db.nextPageID + 1 ∧
        readFilePage db2.file table.lastPageID = some linked ∧
        readU64 linked 7 = db.nextPageID) ∧
    (∀ (db : DB) (table : Table) (row : Row) (rowData lastPage : List Nat),
      serializeRow row table = some rowData →
      table.lastPageID ≠ 0 →
      readFilePage db.file table.lastPageID = some lastPage →
      hasEnoughSpace db.pageSize lastPage (rowData.length + 2) = true →
      lastPage.length = db.pageSize →
      ∃ db2, findPageForRow db table row =
          .ok (db2, table, table.lastPageID, readU16 lastPage 15) ∧
        db2.nextPageID = db.nextPageID) := by
  refine ⟨?_, ?_, ?_⟩
  · intro db table row rowData hser hps hlast hfit
    have hfo : readU16 (initPage db.pageSize PTData table.id) 15 = 17 := by
      rw [initPage_eq _ _ _ hps, headerAt_fo]
    have hlen : (initPage db.pageSize PTData table.id).length = db.pageSize :=
      initPage_length _ _ _ hps
    have hadd := addRowToPage_ok { db with nextPageID := db.nextPageID + 1 }
      (initPage db.pageSize PTData table.id) db.nextPageID rowData
      (by rw [hfo, hlen]; omega)
    simp only [findPageForRow, hser]
    rw [if_neg (by simp [hlast])]
    rw [hadd, hfo]
    exact ⟨_, rfl, rfl⟩
  · intro db table row rowData lastPage hser hps hne hread hnospace hplen hfit hlt hnext h64
    have hfo : readU16 (initPage db.pageSize PTData table.id) 15 = 17 := by
      rw [initPage_eq _ _ _ hps, headerAt_fo]
    have hlen : (initPage db.pageSize PTData table.id).length = db.pageSize :=
      initPage_length _ _ _ hps
    have hadd := addRowToPage_ok
      { db with
        nextPageID := db.nextPageID + 1,
        file := writeFilePage db.file db.pageSize table.lastPageID
          (putU64 lastPage 7 db.nextPageID) }
      (initPage db.pageSize PTData table.id) db.nextPageID rowData
      (by rw [hfo, hlen]; omega)
    simp only [findPageForRow, hser, hread]
    rw [if_pos hne, if_neg (by rw [hnospace]; simp)]
    rw [hadd, hfo]
    refine ⟨_, putU64 lastPage 7 db.nextPageID, rfl, rfl, ?_, ?_⟩
    · show readFilePage (writeFilePage
          (writeFilePage db.file db.pageSize table.lastPageID
            (putU64 lastPage 7 db.nextPageID)) db.pageSize db.nextPageID _)
          table.lastPageID = _
      rw [readFilePage_write_append_other _ _ _ _ _ (by
          rw [writeFilePage, if_pos hlt, List.length_set]
          omega)
        (by rw [writeFilePage, if_pos hlt, List.length_set]; omega)]
      exact readFilePage_write_self _ _ _ _ (le_of_lt hlt)
    · rw [readU64_putU64 _ _ _ (by omega), Nat.mod_eq_of_lt h64]
  · intro db table row rowData lastPage hser hne hread hspace hplen
    have hbound : readU16 lastPage 15 + 2 + rowData.length ≤ lastPage.length := by
      unfold hasEnoughSpace at hspace
      rw [decide_eq_true_eq] at hspace
      omega
    have hadd := addRowToPage_ok db lastPage table.lastPageID rowData hbound
    simp only [findPageForRow, hser, hread]
    rw [if_pos hne, if_pos hspace]
    rw [hadd]
    exact ⟨_, rfl, rfl⟩

/-- C9 witness: the fresh-allocation case at a concrete empty-schema
table (serialized row `[]`) in an empty file. -/
theorem c9_page_allocation_witness :
    serializeRow { values := [], rowID := 1 }
        { id := 1, name := [116], columns := [], pk := [],
          firstPageID := 0, lastPageID := 0 } = some [] ∧
    ∃ db2, findPageForRow
        { pageSize := 32, file := [], tables := [], rowIndices := [],
          nextPageID := 0, nextTableID := 1 }
        { id := 1, name := [116], columns := [], pk := [],
          firstPageID := 0, lastPageID := 0 }
        { values := [], rowID := 1 } =
        .ok (db2,
          { id := 1, name := [116], columns := [], pk := [],
            firstPageID := 0, lastPageID := 0 },
          0, 17) ∧
      db2.nextPageID = 0 + 1 := by
  have hser : serializeRow { values := [], rowID := 1 }
      { id := 1, name := [116], columns := [], pk := [],
        firstPageID := 0, lastPageID := 0 } = some [] := by
    simp [serializeRow, rowFieldsBytes, nullBitmap]
  refine ⟨hser, ?_⟩
  exact c9_page_allocation.1
    { pageSize := 32, file := [], tables := [], rowIndices := [],
      nextPageID := 0, nextTableID := 1 }
    { id := 1, name := [116], columns := [], pk := [],
      firstPageID := 0, lastPageID := 0 }
    { values := [], rowID := 1 } [] hser (by norm_num) rfl (by norm_num)

/-- C9 (counterexample): in the "no last data page" trigger the claim's
"FirstPageID stays fixed" is wrong — a table entering `findPageForRow`
with `FirstPageID = 5` and `LastPageID = 0` comes back with
`FirstPageID = 0` (the freshly allocated page), and there is no previous
page to link. -/
theorem c9_counterexample :
    ∃ db2,
      findPageForRow
        { pageSize := 32, file := [], tables := [], rowIndices := [],
          nextPageID := 0, nextTableID := 1 }
        { id := 1, name := [116], columns := [], pk := [],
          firstPageID := 5, lastPageID := 0 }
        { values := [], rowID := 1 } =
        .ok (db2,
          { id := 1, name := [116], columns := [], pk := [],
            firstPageID := 0, lastPageID := 0 },
          0, 17) ∧
      (5 : Nat) ≠ 0 := by
  have hser : serializeRow { values := [], rowID := 1 }
      { id := 1, name := [116], columns := [], pk := [],
        firstPageID := 5, lastPageID := 0 } = some [] := by
    simp [serializeRow, rowFieldsBytes, nullBitmap]
  simp only [findPageForRow, hser]
  rw [if_neg (by simp)]
  rw [addRowToPage_ok _ _ _ _ (by decide)]
  rw [show readU16 (initPage 32 PTData 1) 15 = 17 from by decide]
  exact ⟨_, rfl, by decide⟩

/-! ### Data-page byte algebra -/

theorem payloadBytes_append (rs : List (List Nat)) (r : List Nat) :
    payloadBytes (rs ++ [r]) = payloadBytes rs ++ recBytes r := by
  simp [payloadBytes]

theorem payloadBytes_cons (r : List Nat) (rs : List (List Nat)) :
    payloadBytes (r :: rs) = recBytes r ++ payloadBytes rs := by
  simp [payloadBytes]

theorem recBytes_length (r : List Nat) : (recBytes r).length = 2 + r.length := by
  simp [recBytes, u16le]
  omega

theorem payloadBytes_count_le (rs : List (List Nat)) :
    2 * rs.length ≤ (payloadBytes rs).length := by
  induction rs with
  | nil => simp [payloadBytes]
  | cons r rs ih =>
    rw [payloadBytes_cons, List.length_append, recBytes_length, List.length_cons]
    omega

theorem dataPageBytes_length (ps tid next : Nat) (rs : List (List Nat))
    (h : 17 + (payloadBytes rs).length ≤ ps) :
    (dataPageBytes ps tid next rs).length = ps := by
  simp [dataPageBytes, pageHeaderBytes_length]
  omega

theorem writeBytes_append_left (l1 l2 : List Nat) (i : Nat) (bs : List Nat)
    (h : i + bs.length ≤ l1.length) :
    writeBytes (l1 ++ l2) i bs = writeBytes l1 i bs ++ l2 := by
  rw [writeBytes_eq_splice _ _ _ (by simp; omega),
    writeBytes_eq_splice _ _ _ h]
  rw [List.take_append_of_le_length (by omega),
    List.drop_append_of_le_length (by omega)]
  simp [List.append_assoc]

theorem writeBytes_append_right (l1 l2 : List Nat) (i : Nat) (bs : List Nat)
    (hi : l1.length ≤ i) (h : i + bs.length ≤ l1.length + l2.length) :
    writeBytes (l1 ++ l2) i bs = l1 ++ writeBytes l2 (i - l1.length) bs := by
  rw [writeBytes_eq_splice _ _ _ (by simp; omega),
    writeBytes_eq_splice _ _ _ (by omega)]
  rw [List.take_append_eq_append_take, List.take_of_length_le hi,
    List.drop_append_eq_append_drop,
    List.drop_eq_nil_of_le (by omega),
    show i + bs.length - l1.length = i - l1.length + bs.length from by omega]
  simp [List.append_assoc]

theorem writeBytes_replicate (n : Nat) (bs : List Nat) (h : bs.length ≤ n) :
    writeBytes (List.replicate n 0) 0 bs = bs ++ List.replicate (n - bs.length) 0 := by
  rw [writeBytes_eq_splice _ _ _ (by simp; omega)]
  simp [List.drop_replicate]

theorem putU16_header_cnt (ty tid cnt next fo v : Nat) :
    putU16 (pageHeaderBytes ty tid cnt next fo) 5 v =
      pageHeaderBytes ty tid v next fo := by
  simp [putU16, pageHeaderBytes, u32le, u16le, u64le, writeBytes]

theorem putU16_header_fo (ty tid cnt next fo v : Nat) :
    putU16 (pageHeaderBytes ty tid cnt next fo) 15 v =
      pageHeaderBytes ty tid cnt next v := by
  simp [putU16, pageHeaderBytes, u32le, u16le, u64le, writeBytes]

theorem putU64_header_next (ty tid cnt next fo v : Nat) :
    putU64 (pageHeaderBytes ty tid cnt next fo) 7 v =
      pageHeaderBytes ty tid cnt v fo := by
  simp [putU64, pageHeaderBytes, u32le, u16le, u64le, writeBytes]

theorem addRowToPage_dataPage (db : DB) (ps tid next pid : Nat)
    (rs : List (List Nat)) (r : List Nat) (hps16 : ps < 65536)
    (hfit : 17 + (payloadBytes rs).length + 2 + r.length ≤ ps) :
    addRowToPage db (dataPageBytes ps tid next rs) pid r =
      .ok
        ({ db with
            file := writeFilePage db.file db.pageSize pid
              (dataPageBytes ps tid next (rs ++ [r])) },
          pid, 17 + (payloadBytes rs).length) := by
  have hcle := payloadBytes_count_le rs
  have hcnt : readU16 (dataPageBytes ps tid next rs) 5 = rs.length := by
    unfold dataPageBytes
    rw [headerAt_cnt]
    exact Nat.mod_eq_of_lt (by omega)
  have hfo : readU16 (dataPageBytes ps tid next rs) 15 =
      17 + (payloadBytes rs).length := by
    unfold dataPageBytes
    rw [headerAt_fo]
    exact Nat.mod_eq_of_lt (by omega)
  have hplen : (dataPageBytes ps tid next rs).length = ps :=
    dataPageBytes_length _ _ _ _ (by omega)
  have hA : putU16 (dataPageBytes ps tid next rs)
      (17 + (payloadBytes rs).length) r.length =
      pageHeaderBytes PTData tid rs.length next (17 + (payloadBytes rs).length) ++
        (payloadBytes rs ++ (u16le r.length ++
          List.replicate (ps - 17 - (payloadBytes rs).length - 2) 0)) := by
    unfold dataPageBytes putU16
    rw [writeBytes_append_right _ _ _ _ (by rw [pageHeaderBytes_length]; omega)
      (by simp [pageHeaderBytes_length, u16le] <;> omega)]
    rw [pageHeaderBytes_length,
      show 17 + (payloadBytes rs).length - 17 = (payloadBytes rs).length from by omega]
    rw [writeBytes_append_right _ _ _ _ (le_refl _) (by simp [u16le] <;> omega)]
    rw [Nat.sub_self, writeBytes_replicate _ _ (by simp [u16le] <;> omega)]
    rw [show (u16le r.length).length = 2 from rfl]
  have hB : writeBytes
      (pageHeaderBytes PTData tid rs.length next (17 + (payloadBytes rs).length) ++
        (payloadBytes rs ++ (u16le r.length ++
          List.replicate (ps - 17 - (payloadBytes rs).length - 2) 0)))
      (17 + (payloadBytes rs).length + 2) r =
      pageHeaderBytes PTData tid rs.length next (17 + (payloadBytes rs).length) ++
        (payloadBytes rs ++ (u16le r.length ++ (r ++
          List.replicate (ps - 17 - (payloadBytes rs).length - 2 - r.length) 0))) := by
    rw [writeBytes_append_right _ _ _ _ (by rw [pageHeaderBytes_length]; omega)
      (by simp [pageHeaderBytes_length, u16le] <;> omega)]
    rw [pageHeaderBytes_length,
      show 17 + (payloadBytes rs).length + 2 - 17 = (payloadBytes rs).length + 2 from by
        omega]
    rw [writeBytes_append_right _ _ _ _ (by omega) (by simp [u16le] <;> omega)]
    rw [show (payloadBytes rs).length + 2 - (payloadBytes rs).length = 2 from by omega]
    rw [writeBytes_append_right _ _ _ _ (by simp [u16le]) (by simp [u16le] <;> omega)]
    rw [show 2 - (u16le r.length).length = 0 from by simp [u16le],
      writeBytes_replicate _ _ (by omega)]
  have hC : ∀ (tl : List Nat) (v : Nat),
      putU16 (pageHeaderBytes PTData tid rs.length next
        (17 + (payloadBytes rs).length) ++ tl) 5 v =
      pageHeaderBytes PTData tid v next (17 + (payloadBytes rs).length) ++ tl := by
    intro tl v
    unfold putU16
    rw [writeBytes_append_left _ _ _ _ (by simp [pageHeaderBytes_length, u16le])]
    rw [show writeBytes (pageHeaderBytes PTData tid rs.length next
        (17 + (payloadBytes rs).length)) 5 (u16le v) =
      putU16 (pageHeaderBytes PTData tid rs.length next
        (17 + (payloadBytes rs).length)) 5 v from rfl]
    rw [putU16_header_cnt]
  have hD : ∀ (tl : List Nat) (cnt v : Nat),
      putU16 (pageHeaderBytes PTData tid cnt next
        (17 + (payloadBytes rs).length) ++ tl) 15 v =
      pageHeaderBytes PTData tid cnt next v ++ tl := by
    intro tl cnt v
    unfold putU16
    rw [writeBytes_append_left _ _ _ _ (by simp [pageHeaderBytes_length, u16le])]
    rw [show writeBytes (pageHeaderBytes PTData tid cnt next
        (17 + (payloadBytes rs).length)) 15 (u16le v) =
      putU16 (pageHeaderBytes PTData tid cnt next
        (17 + (payloadBytes rs).length)) 15 v from rfl]
    rw [putU16_header_fo]
  rw [addRowToPage_ok _ _ _ _ (by rw [hfo, hplen]; omega)]
  rw [hcnt, hfo, hA, hB, hC, hD]
  have hRHS : dataPageBytes ps tid next (rs ++ [r]) =
      pageHeaderBytes PTData tid (rs.length + 1) next
        (17 + (payloadBytes rs).length + 2 + r.length) ++
        (payloadBytes rs ++ (u16le r.length ++ (r ++
          List.replicate (ps - 17 - (payloadBytes rs).length - 2 - r.length) 0))) := by
    unfold dataPageBytes
    rw [payloadBytes_append]
    simp only [List.length_append, recBytes_length, List.length_cons,
      List.length_nil, Nat.zero_add]
    unfold recBytes
    rw [show ps - 17 - ((payloadBytes rs).length + (2 + r.length)) =
      ps - 17 - (payloadBytes rs).length - 2 - r.length from by omega]
    rw [show 17 + ((payloadBytes rs).length + (2 + r.length)) =
      17 + (payloadBytes rs).length + 2 + r.length from by omega]
    simp [List.append_assoc]
  rw [hRHS]

/-! ### Page-chain and index-entry lemmas -/

theorem putU64_dataPage_next (ps tid next v : Nat) (rs : List (List Nat)) :
    putU64 (dataPageBytes ps tid next rs) 7 v = dataPageBytes ps tid v rs := by
  unfold dataPageBytes putU64
  rw [writeBytes_append_left _ _ _ _ (by simp [pageHeaderBytes_length, u64le])]
  rw [show writeBytes (pageHeaderBytes PTData tid rs.length next
      (17 + (payloadBytes rs).length)) 7 (u64le v) =
    putU64 (pageHeaderBytes PTData tid rs.length next
      (17 + (payloadBytes rs).length)) 7 v from rfl]
  rw [putU64_header_next]

theorem dataPagesOf_snoc (ps tid : Nat) :
    ∀ (init : List (List (List Nat))) (pid : Nat) (lst : List (List Nat)),
      dataPagesOf ps tid pid (init ++ [lst]) =
        chainPages ps tid pid init ++ [dataPageBytes ps tid 0 lst] := by
  intro init
  induction init with
  | nil => intro pid lst; rfl
  | cons rs rest ih =>
    intro pid lst
    cases rest with
    | nil => rfl
    | cons b bs =>
      rw [show (rs :: b :: bs) ++ [lst] = rs :: b :: (bs ++ [lst]) from by simp]
      rw [show dataPagesOf ps tid pid (rs :: b :: (bs ++ [lst])) =
        dataPageBytes ps tid (pid + 1) rs ::
          dataPagesOf ps tid (pid + 1) (b :: (bs ++ [lst])) from rfl]
      rw [show b :: (bs ++ [lst]) = (b :: bs) ++ [lst] from by simp]
      rw [ih (pid + 1) lst]
      rfl

theorem chainPages_snoc (ps tid : Nat) :
    ∀ (init : List (List (List Nat))) (pid : Nat) (x : List (List Nat)),
      chainPages ps tid pid (init ++ [x]) =
        chainPages ps tid pid init ++ [dataPageBytes ps tid (pid + init.length + 1) x] := by
  intro init
  induction init with
  | nil => intro pid x; simp [chainPages]
  | cons rs rest ih =>
    intro pid x
    rw [show (rs :: rest) ++ [x] = rs :: (rest ++ [x]) from by simp]
    show dataPageBytes ps tid (pid + 1) rs :: chainPages ps tid (pid + 1) (rest ++ [x]) = _
    rw [ih (pid + 1) x]
    simp only [List.length_cons]
    rw [show pid + 1 + rest.length + 1 = pid + (rest.length + 1) + 1 from by omega]
    rfl

theorem chainPages_length (ps tid : Nat) :
    ∀ (init : List (List (List Nat))) (pid : Nat),
      (chainPages ps tid pid init).length = init.length := by
  intro init
  induction init with
  | nil => intro pid; rfl
  | cons rs rest ih => intro pid; simp [chainPages, ih]

theorem totalRows_snoc (recss : List (List (List Nat))) (rs : List (List Nat)) :
    totalRows (recss ++ [rs]) = totalRows recss + rs.length := by
  simp [totalRows]

theorem pageEntries_snoc (tid pid : Nat) :
    ∀ (rs : List (List Nat)) (base off : Nat) (r : List Nat),
      pageEntries tid pid base off (rs ++ [r]) =
        pageEntries tid pid base off rs ++
          [{ tableID := tid, rowID := base + rs.length + 1, pageID := pid,
             offset := off + (payloadBytes rs).length }] := by
  intro rs
  induction rs with
  | nil => intro base off r; simp [pageEntries, payloadBytes]
  | cons x xs ih =>
    intro base off r
    rw [show (x :: xs) ++ [r] = x :: (xs ++ [r]) from by simp]
    show ({ tableID := tid, rowID := base + 1, pageID := pid, offset := off } : RowIndex) ::
        pageEntries tid pid (base + 1) (off + 2 + x.length) (xs ++ [r]) = _
    rw [ih (base + 1) (off + 2 + x.length) r]
    simp only [payloadBytes_cons, List.length_append, List.length_cons, recBytes_length]
    rw [show base + 1 + xs.length + 1 = base + (xs.length + 1) + 1 from by omega,
      show off + 2 + x.length + (payloadBytes xs).length =
        off + (2 + x.length + (payloadBytes xs).length) from by omega]
    rfl

theorem pageEntries_length (tid pid : Nat) :
    ∀ (rs : List (List Nat)) (base off : Nat),
      (pageEntries tid pid base off rs).length = rs.length := by
  intro rs
  induction rs with
  | nil => intro base off; rfl
  | cons x xs ih => intro base off; simp [pageEntries, ih]

theorem allEntries_snoc (tid : Nat) :
    ∀ (recss : List (List (List Nat))) (pid base : Nat) (rs : List (List Nat)),
      allEntries tid pid base (recss ++ [rs]) =
        allEntries tid pid base recss ++
          pageEntries tid (pid + recss.length) (base + totalRows recss) 17 rs := by
  intro recss
  induction recss with
  | nil => intro pid base rs; simp [allEntries, totalRows]
  | cons x xs ih =>
    intro pid base rs
    rw [show (x :: xs) ++ [rs] = x :: (xs ++ [rs]) from by simp]
    show pageEntries tid pid base 17 x ++
        allEntries tid (pid + 1) (base + x.length) (xs ++ [rs]) = _
    rw [ih (pid + 1) (base + x.length) rs]
    have ht : totalRows (x :: xs) = x.length + totalRows xs := by simp [totalRows]
    simp only [List.length_cons, ht, List.append_assoc]
    rw [show pid + 1 + xs.length = pid + (xs.length + 1) from by omega,
      show base + x.length + totalRows xs = base + (x.length + totalRows xs) from by omega]
    rw [show allEntries tid pid base (x :: xs) =
      pageEntries tid pid base 17 x ++ allEntries tid (pid + 1) (base + x.length) xs from rfl,
      List.append_assoc]

theorem allEntries_length (tid : Nat) :
    ∀ (recss : List (List (List Nat))) (pid base : Nat),
      (allEntries tid pid base recss).length = totalRows recss := by
  intro recss
  induction recss with
  | nil => intro pid base; rfl
  | cons rs rest ih =>
    intro pid base
    simp [allEntries, pageEntries_length, ih, totalRows]

theorem pageEntries_bounds (tid pid : Nat) :
    ∀ (rs : List (List Nat)) (base off : Nat),
      ∀ e ∈ pageEntries tid pid base off rs,
        e.tableID = tid ∧ base < e.rowID ∧ e.rowID ≤ base + rs.length := by
  intro rs
  induction rs with
  | nil => intro base off e he; simp [pageEntries] at he
  | cons x xs ih =>
    intro base off e he
    simp only [pageEntries, List.mem_cons] at he
    rcases he with rfl | he
    · exact ⟨rfl, by show base < base + 1; omega,
        by show base + 1 ≤ base + (x :: xs).length; simp⟩
    · have h3 := ih (base + 1) (off + 2 + x.length) e he
      exact ⟨h3.1, by omega, by have := h3.2.2; simp at this ⊢; omega⟩

theorem allEntries_bounds (tid : Nat) :
    ∀ (recss : List (List (List Nat))) (pid base : Nat),
      ∀ e ∈ allEntries tid pid base recss,
        e.tableID = tid ∧ base < e.rowID ∧ e.rowID ≤ base + totalRows recss := by
  intro recss
  induction recss with
  | nil => intro pid base e he; simp [allEntries] at he
  | cons rs rest ih =>
    intro pid base e he
    simp only [allEntries, List.mem_append] at he
    have ht : totalRows (rs :: rest) = rs.length + totalRows rest := by simp [totalRows]
    rcases he with he | he
    · have h3 := pageEntries_bounds tid pid rs base 17 e he
      exact ⟨h3.1, h3.2.1, by rw [ht]; have := h3.2.2; omega⟩
    · have h3 := ih (pid + 1) (base + rs.length) e he
      exact ⟨h3.1, by have := h3.2.1; omega, by rw [ht]; have := h3.2.2; omega⟩

theorem rixLess_asymm (a b : RowIndex) (h : rixLess a b = true) :
    rixLess b a = false := by
  unfold rixLess at h ⊢
  by_cases h1 : a.tableID = b.tableID
  · rw [if_neg (by omega)] at h ⊢
    simp at h ⊢
    omega
  · rw [if_pos (by omega)] at h
    rw [if_pos (by omega)]
    simp at h ⊢
    omega

theorem idxInsert_append (e : RowIndex) :
    ∀ es : List RowIndex, (∀ x ∈ es, rixLess x e = true) →
      idxInsert e es = es ++ [e] := by
  intro es
  induction es with
  | nil => intro _; rfl
  | cons x xs ih =>
    intro h
    have hx := h x (by simp)
    unfold idxInsert
    rw [if_neg (by rw [rixLess_asymm _ _ hx]; simp), if_pos hx]
    rw [ih (fun y hy => h y (by simp [hy]))]
    rfl

theorem dataPagesOf_length (ps tid : Nat) (recss : List (List (List Nat))) (pid : Nat) :
    (dataPagesOf ps tid pid recss).length = recss.length := by
  rcases List.eq_nil_or_concat recss with rfl | ⟨init, lst, rfl⟩
  · rfl
  · rw [List.concat_eq_append, dataPagesOf_snoc]
    simp [chainPages_length]

theorem set_append_length {α : Type} :
    ∀ (l1 : List α) (x y : α) (l2 : List α),
      (l1 ++ x :: l2).set l1.length y = l1 ++ y :: l2 := by
  intro l1
  induction l1 with
  | nil => intro x y l2; rfl
  | cons a as ih => intro x y l2; simp [List.set_cons_succ, ih]

theorem writeFilePage_append (file : List (List Nat)) (ps : Nat) (data : List Nat) :
    writeFilePage file ps file.length data = file ++ [data] := by
  unfold writeFilePage
  rw [if_neg (by omega)]
  simp

theorem initPage_dataPage (ps tid : Nat) (h : 17 ≤ ps) :
    initPage ps PTData tid = dataPageBytes ps tid 0 [] := by
  rw [initPage_eq _ _ _ h]
  unfold dataPageBytes payloadBytes
  simp

theorem dataPage_fo (ps tid next : Nat) (rs : List (List Nat))
    (h : 17 + (payloadBytes rs).length ≤ ps) (hps : ps < 65536) :
    readU16 (dataPageBytes ps tid next rs) 15 = 17 + (payloadBytes rs).length := by
  unfold dataPageBytes
  rw [headerAt_fo]
  exact Nat.mod_eq_of_lt (by omega)

theorem rixLess_of (a b : RowIndex) (h1 : a.tableID = b.tableID)
    (h2 : a.rowID < b.rowID) : rixLess a b = true := by
  unfold rixLess
  rw [if_neg (by omega)]
  exact decide_eq_true h2

theorem addRowToPage_panic (db : DB) (page : List Nat) (pid : Nat) (rowData : List Nat)
    (h : ¬ (readU16 page 15 + 2 + rowData.length ≤ page.length)) :
    addRowToPage db page pid rowData = .panicked := by
  unfold addRowToPage
  rw [if_neg (by omega)]

theorem aLookup_single {α : Type} (k : GoStr) (v : α) :
    aLookup [(k, v)] k = some v := by
  unfold aLookup
  rw [if_pos rfl]

theorem aInsert_single {α : Type} (k : GoStr) (v v2 : α) :
    aInsert [(k, v)] k v2 = [(k, v2)] := by
  unfold aInsert
  rw [if_pos rfl]

theorem mkDB_pageSize (ps : Nat) (t : Table) (recss : List (List (List Nat))) :
    (mkDB ps t recss).pageSize = ps := rfl

theorem mkDB_file (ps : Nat) (t : Table) (recss : List (List (List Nat))) :
    (mkDB ps t recss).file =
      serializeTable t (initPage ps PTTable t.id) :: dataPagesOf ps t.id 1 recss := rfl

theorem mkDB_nextPageID (ps : Nat) (t : Table) (recss : List (List (List Nat))) :
    (mkDB ps t recss).nextPageID = recss.length + 1 := rfl

theorem mkDB_tables (ps : Nat) (t : Table) (recss : List (List (List Nat))) :
    (mkDB ps t recss).tables = [(t.name, t)] := rfl

theorem mkDB_rowIndices (ps : Nat) (t : Table) (recss : List (List (List Nat))) :
    (mkDB ps t recss).rowIndices = [(t.name, allEntries t.id 1 0 recss)] := rfl

theorem readFilePage_mkDB_last (ps : Nat) (t : Table)
    (init : List (List (List Nat))) (lst : List (List Nat)) :
    readFilePage (mkDB ps t (init ++ [lst])).file (init.length + 1) =
      some (dataPageBytes ps t.id 0 lst) := by
  rw [mkDB_file]
  unfold readFilePage
  rw [dataPagesOf_snoc, List.get?_cons_succ]
  rw [List.get?_append_right (by rw [chainPages_length]),
    chainPages_length, Nat.sub_self]
  rfl

theorem writeFilePage_mkDB_last (ps : Nat) (t : Table)
    (init : List (List (List Nat))) (lst newLst : List (List Nat)) :
    writeFilePage (mkDB ps t (init ++ [lst])).file ps (init.length + 1)
      (dataPageBytes ps t.id 0 newLst) =
      serializeTable t (initPage ps PTTable t.id) ::
        dataPagesOf ps t.id 1 (init ++ [newLst]) := by
  rw [mkDB_file]
  unfold writeFilePage
  rw [if_pos (by simp [dataPagesOf_length])]
  rw [dataPagesOf_snoc, List.set_cons_succ]
  rw [← chainPages_length ps t.id init 1, set_append_length]
  rw [← dataPagesOf_snoc]

set_option maxHeartbeats 1000000 in
theorem findPageForRow_eq (db : DB) (table : Table) (row : Row) (rowData : List Nat)
    (hser : serializeRow row table = some rowData) :
    findPageForRow db table row =
      (if table.lastPageID ≠ 0 then
        match readFilePage db.file table.lastPageID with
        | none => .err .ioErr
        | some lastPage =>
            if hasEnoughSpace db.pageSize lastPage (rowData.length + 2) then
              match addRowToPage db lastPage table.lastPageID rowData with
              | .ok (db2, pid, off) => .ok (db2, table, pid, off)
              | .err e => .err e
              | .panicked => .panicked
            else
              match addRowToPage
                  { db with
                    nextPageID := db.nextPageID + 1,
                    file := writeFilePage db.file db.pageSize table.lastPageID
                      (putU64 lastPage 7 db.nextPageID) }
                  (initPage db.pageSize PTData table.id) db.nextPageID rowData with
              | .ok (db2, pid, off) =>
                  .ok (db2, { table with lastPageID := db.nextPageID }, pid, off)
              | .err e => .err e
              | .panicked => .panicked
      else
        match addRowToPage { db with nextPageID := db.nextPageID + 1 }
            (initPage db.pageSize PTData table.id) db.nextPageID rowData with
        | .ok (db2, pid, off) =>
            .ok (db2,
              { table with firstPageID := db.nextPageID, lastPageID := db.nextPageID },
              pid, off)
        | .err e => .err e
        | .panicked => .panicked) := by
  unfold findPageForRow
  rw [hser]

set_option maxHeartbeats 1000000 in
theorem findPageForRow_mkDB_space (ps : Nat) (t : Table)
    (init : List (List (List Nat))) (lst : List (List Nat)) (row : Row)
    (rowData : List Nat)
    (hps16 : ps < 65536)
    (hlast : t.lastPageID = init.length + 1)
    (hfitl : 17 + (payloadBytes lst).length ≤ ps)
    (hser : serializeRow row t = some rowData)
    (hsp : 17 + (payloadBytes lst).length + (rowData.length + 2) + 4 ≤ ps) :
    findPageForRow (mkDB ps t (init ++ [lst])) t row =
      .ok ({ mkDB ps t (init ++ [lst]) with
          file := serializeTable t (initPage ps PTTable t.id) ::
            dataPagesOf ps t.id 1 (init ++ [lst ++ [rowData]]) },
        t, init.length + 1, 17 + (payloadBytes lst).length) := by
  have hfo := dataPage_fo ps t.id 0 lst hfitl hps16
  have hspace : hasEnoughSpace ps (dataPageBytes ps t.id 0 lst)
      (rowData.length + 2) = true := by
    unfold hasEnoughSpace
    rw [hfo]
    exact decide_eq_true (by omega)
  rw [findPageForRow_eq _ _ _ _ hser]
  rw [if_pos (show t.lastPageID ≠ 0 from by omega)]
  rw [hlast]
  split
  · next heq =>
      rw [readFilePage_mkDB_last] at heq
      cases heq
  · next lastPage heq =>
      rw [readFilePage_mkDB_last] at heq
      cases heq
      rw [mkDB_pageSize]
      rw [if_pos hspace]
      rw [addRowToPage_dataPage _ _ _ _ _ _ _ hps16 (by omega)]
      rw [mkDB_pageSize, writeFilePage_mkDB_last]
      rfl

theorem writeFilePage_mkDB_set_last (ps : Nat) (t : Table)
    (init : List (List (List Nat))) (lst : List (List Nat)) (pg : List Nat) :
    writeFilePage (mkDB ps t (init ++ [lst])).file ps (init.length + 1) pg =
      serializeTable t (initPage ps PTTable t.id) ::
        (chainPages ps t.id 1 init ++ [pg]) := by
  rw [mkDB_file]
  unfold writeFilePage
  rw [if_pos (by simp [dataPagesOf_length])]
  rw [dataPagesOf_snoc, List.set_cons_succ]
  rw [← chainPages_length ps t.id init 1, set_append_length]

theorem addRowToPage_dataPage2 (db : DB) (ps tid next pid : Nat)
    (rs : List (List Nat)) (r : List Nat) (F : List (List Nat))
    (hps : db.pageSize = ps) (hF : db.file = F) (hps16 : ps < 65536)
    (hfit : 17 + (payloadBytes rs).length + 2 + r.length ≤ ps) :
    addRowToPage db (dataPageBytes ps tid next rs) pid r =
      .ok
        ({ db with
            file := writeFilePage F ps pid (dataPageBytes ps tid next (rs ++ [r])) },
          pid, 17 + (payloadBytes rs).length) := by
  rw [addRowToPage_dataPage db ps tid next pid rs r hps16 hfit, hF, hps]

set_option maxHeartbeats 1000000 in
theorem findPageForRow_mkDB_full (ps : Nat) (t : Table)
    (init : List (List (List Nat))) (lst : List (List Nat)) (row : Row)
    (rowData : List Nat)
    (hps16 : ps < 65536)
    (hlast : t.lastPageID = init.length + 1)
    (hfitl : 17 + (payloadBytes lst).length ≤ ps)
    (hser : serializeRow row t = some rowData)
    (hnosp : ¬ (17 + (payloadBytes lst).length + (rowData.length + 2) + 4 ≤ ps))
    (hfresh : 19 + rowData.length ≤ ps) :
    findPageForRow (mkDB ps t (init ++ [lst])) t row =
      .ok ({ mkDB ps t (init ++ [lst]) with
          nextPageID := (init ++ [lst]).length + 1 + 1,
          file := serializeTable t (initPage ps PTTable t.id) ::
            dataPagesOf ps t.id 1 ((init ++ [lst]) ++ [[rowData]]) },
        { t with lastPageID := (init ++ [lst]).length + 1 },
        (init ++ [lst]).length + 1, 17) := by
  have hnospace : hasEnoughSpace ps (dataPageBytes ps t.id 0 lst)
      (rowData.length + 2) = false := by
    unfold hasEnoughSpace
    rw [dataPage_fo ps t.id 0 lst hfitl hps16]
    exact decide_eq_false (by omega)
  rw [findPageForRow_eq _ _ _ _ hser]
  rw [if_pos (show t.lastPageID ≠ 0 from by omega)]
  rw [hlast]
  split
  · next heq =>
      rw [readFilePage_mkDB_last] at heq
      cases heq
  · next lastPage heq =>
      rw [readFilePage_mkDB_last] at heq
      cases heq
      rw [mkDB_pageSize]
      rw [if_neg (by rw [hnospace]; simp)]
      rw [mkDB_nextPageID, putU64_dataPage_next, writeFilePage_mkDB_set_last,
        initPage_dataPage ps t.id (by omega)]
      rw [addRowToPage_dataPage2 _ ps t.id 0 ((init ++ [lst]).length + 1) [] rowData
        (serializeTable t (initPage ps PTTable t.id) ::
          (chainPages ps t.id 1 init ++
            [dataPageBytes ps t.id ((init ++ [lst]).length + 1) lst]))
        rfl rfl hps16
        (by have h0 : (payloadBytes ([] : List (List Nat))).length = 0 := rfl; omega)]
      rw [List.nil_append]
      rw [show writeFilePage
          (serializeTable t (initPage ps PTTable t.id) ::
            (chainPages ps t.id 1 init ++
              [dataPageBytes ps t.id ((init ++ [lst]).length + 1) lst]))
          ps ((init ++ [lst]).length + 1) (dataPageBytes ps t.id 0 [rowData]) =
        serializeTable t (initPage ps PTTable t.id) ::
          dataPagesOf ps t.id 1 ((init ++ [lst]) ++ [[rowData]]) from ?_]
      · rfl
      · nth_rewrite 2 [show (init ++ [lst]).length + 1 =
          (serializeTable t (initPage ps PTTable t.id) ::
            (chainPages ps t.id 1 init ++
              [dataPageBytes ps t.id ((init ++ [lst]).length + 1) lst])).length from by
          simp [chainPages_length]]
        rw [writeFilePage_append]
        rw [dataPagesOf_snoc, chainPages_snoc]
        simp [chainPages_length]
        rw [show init.length + 1 + 1 = 1 + init.length + 1 from by omega]

theorem findPageForRow_serErr (db : DB) (table : Table) (row : Row)
    (h : serializeRow row table = none) :
    findPageForRow db table row = .err .serializeFailed := by
  unfold findPageForRow
  rw [h]

set_option maxHeartbeats 1000000 in
theorem findPageForRow_mkDB_full_panic (ps : Nat) (t : Table)
    (init : List (List (List Nat))) (lst : List (List Nat)) (row : Row)
    (rowData : List Nat)
    (hps17 : 17 ≤ ps) (hps16 : ps < 65536)
    (hlast : t.lastPageID = init.length + 1)
    (hfitl : 17 + (payloadBytes lst).length ≤ ps)
    (hser : serializeRow row t = some rowData)
    (hnosp : ¬ (17 + (payloadBytes lst).length + (rowData.length + 2) + 4 ≤ ps))
    (hnofresh : ¬ (19 + rowData.length ≤ ps)) :
    findPageForRow (mkDB ps t (init ++ [lst])) t row = .panicked := by
  have hnospace : hasEnoughSpace ps (dataPageBytes ps t.id 0 lst)
      (rowData.length + 2) = false := by
    unfold hasEnoughSpace
    rw [dataPage_fo ps t.id 0 lst hfitl hps16]
    exact decide_eq_false (by omega)
  have h0 : (payloadBytes ([] : List (List Nat))).length = 0 := rfl
  rw [findPageForRow_eq _ _ _ _ hser]
  rw [if_pos (show t.lastPageID ≠ 0 from by omega)]
  rw [hlast]
  split
  · next heq =>
      rw [readFilePage_mkDB_last] at heq
      cases heq
  · next lastPage heq =>
      rw [readFilePage_mkDB_last] at heq
      cases heq
      rw [mkDB_pageSize]
      rw [if_neg (by rw [hnospace]; simp)]
      rw [mkDB_nextPageID, putU64_dataPage_next, writeFilePage_mkDB_set_last,
        initPage_dataPage ps t.id (by omega)]
      rw [addRowToPage_panic _ _ _ _ (by
        rw [dataPage_fo ps t.id 0 [] (by omega) hps16,
          dataPageBytes_length _ _ _ _ (by omega)]
        omega)]

set_option maxHeartbeats 1000000 in
theorem Insert_eq (db : DB) (name : GoStr) (values : RowValues) (t : Table)
    (ht : aLookup db.tables name = some t) :
    Insert db name values =
      (match validateRowData t values with
       | .err e => .err e
       | .panicked => .panicked
       | .ok _ =>
           match findPageForRow db t
               { values := values,
                 rowID := ((aLookup db.rowIndices name).getD []).length + 1 } with
           | .err e => .err e
           | .panicked => .panicked
           | .ok (db2, table2, pid, off) =>
               .ok { db2 with
                 tables := aInsert db2.tables name table2,
                 rowIndices := aInsert db2.rowIndices name
                   (idxInsert
                     { tableID := t.id,
                       rowID := ((aLookup db.rowIndices name).getD []).length + 1,
                       pageID := pid, offset := off }
                     ((aLookup db2.rowIndices name).getD [])) }) := by
  unfold Insert
  rw [ht]

set_option maxHeartbeats 1000000 in
theorem Insert_mkDB (ps : Nat) (t : Table) (recss : List (List (List Nat)))
    (values : RowValues) (db' : DB)
    (hG : Good ps t recss)
    (hok : Insert (mkDB ps t recss) t.name values = .ok db') :
    ∃ (t' : Table) (recss' : List (List (List Nat))),
      t'.name = t.name ∧ t'.id = t.id ∧
      totalRows recss' = totalRows recss + 1 ∧
      recss'.length ≤ recss.length + 1 ∧
      Good ps t' recss' ∧ db' = mkDB ps t' recss' := by
  obtain ⟨hps17, hps16, hwf, hid1, hfitT, hfp1, hlp, hne, hfitP⟩ := hG
  rcases List.eq_nil_or_concat recss with rfl | ⟨init, lst, hc⟩
  · exact absurd rfl hne
  rw [List.concat_eq_append] at hc
  subst hc
  rw [Insert_eq _ _ _ t (by rw [mkDB_tables]; exact aLookup_single _ _)] at hok
  split at hok
  · exact Res.noConfusion hok
  · exact Res.noConfusion hok
  rw [show ((aLookup (mkDB ps t (init ++ [lst])).rowIndices t.name).getD []).length + 1
      = totalRows (init ++ [lst]) + 1 from by
    rw [mkDB_rowIndices, aLookup_single, Option.getD_some, allEntries_length]] at hok
  split at hok
  · exact Res.noConfusion hok
  · exact Res.noConfusion hok
  rename_i db2 table2 pid off heq
  injection hok with hdb
  subst hdb
  have hlast : t.lastPageID = init.length + 1 := by rw [hlp]; simp
  have hfitl : 17 + (payloadBytes lst).length ≤ ps := hfitP lst (by simp)
  cases hser : serializeRow { values := values, rowID := totalRows (init ++ [lst]) + 1 } t with
  | none =>
      rw [findPageForRow_serErr _ _ _ hser] at heq
      exact Res.noConfusion heq
  | some rowData =>
  have hbnd : ∀ x ∈ allEntries t.id 1 0 (init ++ [lst]),
      ∀ e2 : RowIndex, e2.tableID = t.id → e2.rowID = totalRows (init ++ [lst]) + 1 →
        rixLess x e2 = true := by
    intro x hx e2 h1 h2
    have hbb := allEntries_bounds t.id (init ++ [lst]) 1 0 x hx
    refine rixLess_of _ _ (by rw [hbb.1, h1]) ?_
    rw [h2]
    have := hbb.2.2
    omega
  by_cases hsp : 17 + (payloadBytes lst).length + (rowData.length + 2) + 4 ≤ ps
  · rw [findPageForRow_mkDB_space ps t init lst _ rowData hps16 hlast hfitl hser hsp] at heq
    simp only [Res.ok.injEq, Prod.mk.injEq] at heq
    obtain ⟨rfl, rfl, rfl, rfl⟩ := heq
    refine ⟨t, init ++ [lst ++ [rowData]], rfl, rfl, ?_, ?_, ?_, ?_⟩
    · rw [totalRows_snoc, totalRows_snoc]
      simp only [List.length_append, List.length_cons, List.length_nil]
      omega
    · simp
    · refine ⟨hps17, hps16, hwf, hid1, hfitT, hfp1, by rw [hlp]; simp, by simp, ?_⟩
      intro rs hrs
      rcases List.mem_append.1 hrs with h | h
      · exact hfitP rs (by simp [h])
      · have h2 : rs = lst ++ [rowData] := by simpa using h
        subst h2
        rw [payloadBytes_append, List.length_append, recBytes_length]
        omega
    · refine DB.ext ?_ ?_ ?_ ?_ ?_ ?_
      · rfl
      · rfl
      · exact aInsert_single t.name t t
      · show aInsert [(t.name, allEntries t.id 1 0 (init ++ [lst]))] t.name
            (idxInsert
              { tableID := t.id, rowID := totalRows (init ++ [lst]) + 1,
                pageID := init.length + 1, offset := 17 + (payloadBytes lst).length }
              ((aLookup [(t.name, allEntries t.id 1 0 (init ++ [lst]))] t.name).getD []))
            = [(t.name, allEntries t.id 1 0 (init ++ [lst ++ [rowData]]))]
        rw [aLookup_single, Option.getD_some, aInsert_single]
        refine congrArg (fun x => [(t.name, x)]) ?_
        rw [idxInsert_append _ _ (fun x hx => hbnd x hx _ rfl rfl)]
        rw [allEntries_snoc t.id init 1 0 (lst ++ [rowData])]
        rw [pageEntries_snoc t.id (1 + init.length) lst (0 + totalRows init) 17 rowData]
        rw [← List.append_assoc]
        rw [← allEntries_snoc t.id init 1 0 lst]
        rw [show (0 : Nat) + totalRows init + lst.length + 1 = totalRows (init ++ [lst]) + 1
          from by rw [totalRows_snoc]; omega]
        rw [show 1 + init.length = init.length + 1 from by omega]
      · show (init ++ [lst]).length + 1 = (init ++ [lst ++ [rowData]]).length + 1
        simp
      · rfl
  · by_cases hfr : 19 + rowData.length ≤ ps
    · rw [findPageForRow_mkDB_full ps t init lst _ rowData hps16 hlast hfitl hser hsp hfr] at heq
      simp only [Res.ok.injEq, Prod.mk.injEq] at heq
      obtain ⟨rfl, rfl, rfl, rfl⟩ := heq
      refine ⟨{ t with lastPageID := (init ++ [lst]).length + 1 },
        (init ++ [lst]) ++ [[rowData]], rfl, rfl, ?_, ?_, ?_, ?_⟩
      · rw [totalRows_snoc]
        rfl
      · simp
      · refine ⟨hps17, hps16, hwf, hid1, hfitT, hfp1, by simp, by simp, ?_⟩
        intro rs hrs
        rcases List.mem_append.1 hrs with h | h
        · exact hfitP rs h
        · have h2 : rs = [rowData] := by simpa using h
          subst h2
          have : (payloadBytes [rowData]).length = 2 + rowData.length := by
            rw [show payloadBytes [rowData] = recBytes rowData from by
              simp [payloadBytes], recBytes_length]
          omega
      · refine DB.ext ?_ ?_ ?_ ?_ ?_ ?_
        · rfl
        · rfl
        · exact aInsert_single t.name t _
        · show aInsert [(t.name, allEntries t.id 1 0 (init ++ [lst]))] t.name
              (idxInsert
                { tableID := t.id, rowID := totalRows (init ++ [lst]) + 1,
                  pageID := (init ++ [lst]).length + 1, offset := 17 }
                ((aLookup [(t.name, allEntries t.id 1 0 (init ++ [lst]))] t.name).getD []))
              = [(t.name, allEntries t.id 1 0 ((init ++ [lst]) ++ [[rowData]]))]
          rw [aLookup_single, Option.getD_some, aInsert_single]
          refine congrArg (fun x => [(t.name, x)]) ?_
          rw [idxInsert_append _ _ (fun x hx => hbnd x hx _ rfl rfl)]
          rw [allEntries_snoc t.id (init ++ [lst]) 1 0 [rowData]]
          rw [show pageEntries t.id (1 + (init ++ [lst]).length)
                (0 + totalRows (init ++ [lst])) 17 [rowData]
              = [{ tableID := t.id, rowID := 0 + totalRows (init ++ [lst]) + 1,
                   pageID := 1 + (init ++ [lst]).length, offset := 17 }] from rfl]
          rw [show (0 : Nat) + totalRows (init ++ [lst]) + 1 = totalRows (init ++ [lst]) + 1
            from by omega]
          rw [show 1 + (init ++ [lst]).length = (init ++ [lst]).length + 1 from by omega]
        · show (init ++ [lst]).length + 1 + 1 = ((init ++ [lst]) ++ [[rowData]]).length + 1
          simp
        · rfl
    · rw [findPageForRow_mkDB_full_panic ps t init lst _ rowData hps17 hps16 hlast hfitl
        hser hsp hfr] at heq
      exact Res.noConfusion heq

/-- A sequence of `Insert` calls on the same table, stopping at the first
failure (the driver loop a client would write). -/
def insertMany (db : DB) (name : GoStr) : List RowValues → Res DB
  | [] => .ok db
  | v :: vs =>
      match Insert db name v with
      | .ok db2 => insertMany db2 name vs
      | .err e => .err e
      | .panicked => .panicked

theorem insertMany_mkDB (ps : Nat) :
    ∀ (vals : List RowValues) (t : Table) (recss : List (List (List Nat))) (db' : DB),
      Good ps t recss →
      insertMany (mkDB ps t recss) t.name vals = .ok db' →
      ∃ (t' : Table) (recss' : List (List (List Nat))),
        t'.name = t.name ∧ t'.id = t.id ∧
        totalRows recss' = totalRows recss + vals.length ∧
        recss'.length ≤ recss.length + vals.length ∧
        Good ps t' recss' ∧ db' = mkDB ps t' recss' := by
  intro vals
  induction vals with
  | nil =>
      intro t recss db' hG hok
      have hok2 : Res.ok (mkDB ps t recss) = Res.ok db' := hok
      injection hok2 with h
      exact ⟨t, recss, rfl, rfl, by simp, by simp, hG, h.symm⟩
  | cons v vs ih =>
      intro t recss db' hG hok
      unfold insertMany at hok
      split at hok
      · rename_i db2 heq
        obtain ⟨t1, recss1, hn1, hi1, htot1, hlen1, hG1, rfl⟩ := Insert_mkDB ps t recss v db2 hG heq
        rw [← hn1] at hok
        obtain ⟨t2, recss2, hn2, hi2, htot2, hlen2, hG2, rfl⟩ := ih t1 recss1 db' hG1 hok
        refine ⟨t2, recss2, by rw [hn2, hn1], by rw [hi2, hi1], ?_, ?_, hG2, rfl⟩
        · rw [htot2, htot1, List.length_cons]
          omega
        · rw [List.length_cons]
          omega
      · exact Res.noConfusion hok
      · exact Res.noConfusion hok

/-- `CreateTable` on the fresh empty-file state: the result is exactly the
canonical one-table state with one empty data page. -/
theorem CreateTable_fresh (ps : Nat) (name : GoStr) (columns : List Column) (pk : GoStr)
    (hps : 17 ≤ ps)
    (hpk : pk = [] ∨ (columns.any fun c => c.name == pk) = true) :
    CreateTable
      { pageSize := ps, file := [], tables := [], rowIndices := [], nextPageID := 0, nextTableID := 1 } name columns pk =
      .ok (mkDB ps { id := 1, name := name, columns := columns, pk := pk, firstPageID := 1, lastPageID := 1 } [[]]) := by
  unfold CreateTable
  rw [if_neg (by simp [aLookup])]
  rw [if_neg (by rcases hpk with h | h <;> simp [h])]
  refine congrArg Res.ok (DB.ext rfl ?_ rfl rfl rfl rfl)
  show [serializeTable { id := 1, name := name, columns := columns, pk := pk, firstPageID := 0, lastPageID := 0 } (initPage ps PTTable 1), initPage ps PTData 1] = _
  rw [mkDB_file]
  rw [initPage_dataPage ps 1 hps]
  rfl

theorem range1_append (n : Nat) :
    ∀ (s m : Nat), List.range' s m ++ List.range' (s + m) n = List.range' s (m + n) := by
  intro s m
  induction m generalizing s with
  | zero => simp [List.range']
  | succ k ihk =>
      rw [show s + (k + 1) = (s + 1) + k from by omega]
      rw [show k + 1 + n = (k + n) + 1 from by omega]
      show s :: List.range' (s + 1) k ++ List.range' (s + 1 + k) n = s :: List.range' (s + 1) (k + n)
      rw [List.cons_append, ihk (s + 1)]

theorem pageEntries_map_rowID (tid pid : Nat) :
    ∀ (rs : List (List Nat)) (base off : Nat),
      (pageEntries tid pid base off rs).map RowIndex.rowID =
        List.range' (base + 1) rs.length := by
  intro rs
  induction rs with
  | nil => intro base off; rfl
  | cons r rest ih =>
      intro base off
      show (base + 1) :: (pageEntries tid pid (base + 1) (off + 2 + r.length) rest).map
          RowIndex.rowID = _
      rw [ih (base + 1) (off + 2 + r.length), List.length_cons]
      rfl

theorem allEntries_map_rowID (tid : Nat) :
    ∀ (recss : List (List (List Nat))) (pid base : Nat),
      (allEntries tid pid base recss).map RowIndex.rowID =
        List.range' (base + 1) (totalRows recss) := by
  intro recss
  induction recss with
  | nil => intro pid base; rfl
  | cons rs rest ih =>
      intro pid base
      show ((pageEntries tid pid base 17 rs ++ allEntries tid (pid + 1) (base + rs.length)
          rest).map RowIndex.rowID) = _
      rw [List.map_append, pageEntries_map_rowID, ih (pid + 1) (base + rs.length)]
      rw [show base + rs.length + 1 = (base + 1) + rs.length from by omega]
      rw [range1_append]
      rw [show totalRows (rs :: rest) = rs.length + totalRows rest from by simp [totalRows]]

/-- C4: starting from an empty database, creating a table and then
inserting N rows assigns the index entries row ids 1 through N in
insertion order, and `GetRowCount` on that table returns N. -/
theorem c4_insert_row_ids (ps : Nat) (name : GoStr) (columns : List Column) (pk : GoStr)
    (vals : List RowValues) (db0 db1 db' : DB)
    (h0 : NewDatabase ps [] = .ok db0)
    (h1 : CreateTable db0 name columns pk = .ok db1)
    (hins : insertMany db1 name vals = .ok db')
    (hG : Good ps { id := 1, name := name, columns := columns, pk := pk, firstPageID := 1, lastPageID := 1 } [[]])
    (hpk : pk = [] ∨ (columns.any fun c => c.name == pk) = true) :
    GetRowCount db' name = .ok vals.length ∧
    ((aLookup db'.rowIndices name).getD []).map RowIndex.rowID =
      List.range' 1 vals.length := by
  have h0' : Res.ok { pageSize := ps, file := [], tables := [], rowIndices := [], nextPageID := 0, nextTableID := 1 } = Res.ok db0 := h0
  injection h0' with h0''
  subst h0''
  rw [CreateTable_fresh ps name columns pk hG.1 hpk] at h1
  injection h1 with h1'
  subst h1'
  have hins' : insertMany
      (mkDB ps { id := 1, name := name, columns := columns, pk := pk, firstPageID := 1, lastPageID := 1 } [[]])
      ({ id := 1, name := name, columns := columns, pk := pk, firstPageID := 1, lastPageID := 1 } : Table).name
      vals = .ok db' := hins
  obtain ⟨t', recss', hn, hi, htot, hlen, hG', rfl⟩ :=
    insertMany_mkDB ps vals _ [[]] db' hG hins'
  have hn' : t'.name = name := hn
  have htot' : totalRows recss' = vals.length := by
    rw [htot, show totalRows [[]] = 0 from rfl, Nat.zero_add]
  constructor
  · show GetRowCount (mkDB ps t' recss') name = .ok vals.length
    unfold GetRowCount
    rw [mkDB_rowIndices, hn', aLookup_single]
    show Res.ok (allEntries t'.id 1 0 recss').length = .ok vals.length
    rw [allEntries_length, htot']
  · show ((aLookup (mkDB ps t' recss').rowIndices name).getD []).map RowIndex.rowID = _
    rw [mkDB_rowIndices, hn', aLookup_single, Option.getD_some]
    rw [allEntries_map_rowID, htot']

theorem c4_insert_row_ids_witness :
    GetRowCount (mkDB 32 { id := 1, name := [97], columns := [{ name := [98], type := TInteger, notNull := false }], pk := [], firstPageID := 1, lastPageID := 1 } [[[0, 1, 0, 0, 0, 0, 0, 0, 0]]]) [97] = .ok 1 ∧
    ((aLookup (mkDB 32 { id := 1, name := [97], columns := [{ name := [98], type := TInteger, notNull := false }], pk := [], firstPageID := 1, lastPageID := 1 } [[[0, 1, 0, 0, 0, 0, 0, 0, 0]]]).rowIndices [97]).getD []).map RowIndex.rowID = List.range' 1 1 := by
  have hins : insertMany
      (mkDB 32 { id := 1, name := [97], columns := [{ name := [98], type := TInteger, notNull := false }], pk := [], firstPageID := 1, lastPageID := 1 } [[]])
      [97] [[([98], some (GoVal.gInt .kInt 1))]] =
      .ok (mkDB 32 { id := 1, name := [97], columns := [{ name := [98], type := TInteger, notNull := false }], pk := [], firstPageID := 1, lastPageID := 1 } [[[0, 1, 0, 0, 0, 0, 0, 0, 0]]]) := by
    simp [insertMany, Insert, mkDB, aLookup, validateRowData, validateColumns, mapLookup,
      validateValueType, checkUnknown, findPageForRow, serializeRow, rowFieldsBytes,
      fieldBytes, nullBitmap, bitsToByte, isNullLookup, int64ToU64, intKindToInt64,
      u64le, u32le, u16le, readFilePage, dataPagesOf, dataPageBytes, payloadBytes,
      recBytes, pageHeaderBytes, hasEnoughSpace, readU16, byteAt, addRowToPage,
      writeBytes, writeFilePage, putU16, putU64, putU32, putByte, idxInsert, rixLess,
      allEntries, pageEntries, serializeTable, serializeColumns, initPage, aInsert,
      totalRows]
  exact c4_insert_row_ids 32 [97] [{ name := [98], type := TInteger, notNull := false }] []
    [[([98], some (GoVal.gInt .kInt 1))]]
    { pageSize := 32, file := [], tables := [], rowIndices := [], nextPageID := 0, nextTableID := 1 }
    (mkDB 32 { id := 1, name := [97], columns := [{ name := [98], type := TInteger, notNull := false }], pk := [], firstPageID := 1, lastPageID := 1 } [[]])
    (mkDB 32 { id := 1, name := [97], columns := [{ name := [98], type := TInteger, notNull := false }], pk := [], firstPageID := 1, lastPageID := 1 } [[[0, 1, 0, 0, 0, 0, 0, 0, 0]]])
    rfl (by decide) hins (by unfold Good wfTable; decide) (by decide)

/-! ### Loading an existing file (C2) -/

theorem payloadBytes_app2 (a b : List (List Nat)) :
    payloadBytes (a ++ b) = payloadBytes a ++ payloadBytes b := by
  simp [payloadBytes]

theorem dataPage_type (ps tid next : Nat) (rs : List (List Nat)) :
    byteAt (dataPageBytes ps tid next rs) 0 = PTData := by
  unfold dataPageBytes
  rw [headerAt_type]
  decide

theorem dataPage_tid (ps tid next : Nat) (rs : List (List Nat)) (h : tid < 2 ^ 32) :
    readU32 (dataPageBytes ps tid next rs) 1 = tid := by
  unfold dataPageBytes
  rw [headerAt_tid]
  exact Nat.mod_eq_of_lt h

theorem dataPage_cnt (ps tid next : Nat) (rs : List (List Nat))
    (hfit : 17 + (payloadBytes rs).length ≤ ps) (hps : ps < 65536) :
    readU16 (dataPageBytes ps tid next rs) 5 = rs.length := by
  unfold dataPageBytes
  rw [headerAt_cnt]
  have := payloadBytes_count_le rs
  exact Nat.mod_eq_of_lt (by omega)

theorem dataPage_next (ps tid next : Nat) (rs : List (List Nat)) (h : next < 2 ^ 64) :
    readU64 (dataPageBytes ps tid next rs) 7 = next := by
  unfold dataPageBytes
  rw [headerAt_next]
  exact Nat.mod_eq_of_lt h

theorem dataPage_drop_rec (ps tid next : Nat) (done todo : List (List Nat)) :
    (dataPageBytes ps tid next (done ++ todo)).drop (17 + (payloadBytes done).length) =
      payloadBytes todo ++
        List.replicate (ps - 17 - (payloadBytes (done ++ todo)).length) 0 := by
  unfold dataPageBytes
  rw [drop_append_of_length (pageHeaderBytes_length _ _ _ _ _) _ _]
  rw [payloadBytes_app2, List.append_assoc]
  rw [drop_left_of_length rfl]

theorem readU16_dataPage_rec (ps tid next : Nat) (done todo : List (List Nat))
    (r : List Nat) (hr : r.length < 65536) :
    readU16 (dataPageBytes ps tid next (done ++ r :: todo))
      (17 + (payloadBytes done).length) = r.length := by
  have hd := dataPage_drop_rec ps tid next done (r :: todo)
  rw [payloadBytes_cons] at hd
  rw [recBytes] at hd
  rw [show u16le r.length ++ r ++ payloadBytes todo ++
        List.replicate (ps - 17 - (payloadBytes (done ++ r :: todo)).length) 0 =
      u16le r.length ++ (r ++ (payloadBytes todo ++
        List.replicate (ps - 17 - (payloadBytes (done ++ r :: todo)).length) 0))
    from by simp [List.append_assoc]] at hd
  rw [readU16_of_drop hd]
  exact Nat.mod_eq_of_lt hr

theorem indexRows_dataPage (ps tid next tid2 pid : Nat) (hps : ps < 65536) :
    ∀ (todo done rs2 : List (List Nat)) (off cnt : Nat),
      done ++ todo = rs2 →
      off = 17 + (payloadBytes done).length →
      17 + (payloadBytes rs2).length ≤ ps →
      indexRows (dataPageBytes ps tid next rs2) pid tid2 todo.length off cnt =
        some (pageEntries tid2 pid cnt off todo) := by
  intro todo
  induction todo with
  | nil =>
      intro done rs2 off cnt hsplit hoff hfit
      rfl
  | cons r rest ih =>
      intro done rs2 off cnt hsplit hoff hfit
      subst hsplit
      subst hoff
      have hlen : (dataPageBytes ps tid next (done ++ r :: rest)).length = ps :=
        dataPageBytes_length _ _ _ _ hfit
      have hplen : (payloadBytes (done ++ r :: rest)).length =
          (payloadBytes done).length + (2 + r.length) + (payloadBytes rest).length := by
        rw [payloadBytes_app2, payloadBytes_cons]
        simp only [List.length_append, recBytes_length]
        omega
      have hr16 : r.length < 65536 := by omega
      rw [List.length_cons]
      rw [indexRows]
      rw [if_neg (by rw [hlen]; omega)]
      rw [if_neg (by rw [hlen]; omega)]
      rw [readU16_dataPage_rec ps tid next done rest r hr16]
      rw [ih (done ++ [r]) (done ++ r :: rest)
        (17 + (payloadBytes done).length + 2 + r.length) (cnt + 1)
        (by simp)
        (by rw [payloadBytes_append]; simp only [List.length_append, recBytes_length]; omega)
        hfit]
      rfl

theorem foldl_idxInsert_pageEntries (tid pid : Nat) :
    ∀ (rs : List (List Nat)) (base off : Nat) (old : List RowIndex),
      (∀ x ∈ old, x.tableID = tid ∧ x.rowID ≤ base) →
      (pageEntries tid pid base off rs).foldl (fun acc e => idxInsert e acc) old =
        old ++ pageEntries tid pid base off rs := by
  intro rs
  induction rs with
  | nil => intro base off old hold; simp [pageEntries]
  | cons r rest ih =>
      intro base off old hold
      show (pageEntries tid pid (base + 1) (off + 2 + r.length) rest).foldl
          (fun acc e => idxInsert e acc)
          (idxInsert { tableID := tid, rowID := base + 1, pageID := pid, offset := off } old) =
        old ++ pageEntries tid pid base off (r :: rest)
      rw [idxInsert_append _ _ (fun x hx =>
        rixLess_of x _ ((hold x hx).1) (by
          have := (hold x hx).2
          show x.rowID < base + 1
          omega))]
      rw [ih (base + 1) (off + 2 + r.length) _ (fun x hx => by
        rcases List.mem_append.1 hx with h | h
        · exact ⟨(hold x h).1, by have := (hold x h).2; omega⟩
        · have hx2 : x = { tableID := tid, rowID := base + 1, pageID := pid, offset := off } := by
            simpa using h
          subst hx2
          exact ⟨rfl, le_refl _⟩)]
      rw [List.append_assoc]
      rfl

theorem indexRowsInPage_dataPage (db : DB) (ps tid next pid : Nat) (t2 : Table)
    (rs : List (List Nat)) (old : List RowIndex)
    (hps : ps < 65536) (hfit : 17 + (payloadBytes rs).length ≤ ps)
    (hidx : aLookup db.rowIndices t2.name = some old)
    (hold : ∀ x ∈ old, x.tableID = t2.id ∧ x.rowID ≤ old.length) :
    indexRowsInPage db (dataPageBytes ps tid next rs) pid t2 =
      some (old ++ pageEntries t2.id pid old.length 17 rs) := by
  unfold indexRowsInPage
  rw [dataPage_cnt ps tid next rs hfit hps, hidx, Option.getD_some]
  rw [indexRows_dataPage ps tid next t2.id pid hps rs [] rs 17 old.length
    (by simp) rfl hfit]
  show some ((pageEntries t2.id pid old.length 17 rs).foldl (fun acc e => idxInsert e acc) old)
    = some (old ++ pageEntries t2.id pid old.length 17 rs)
  rw [foldl_idxInsert_pageEntries t2.id pid rs old.length 17 old hold]

theorem dataPagesOf_mem (ps tid : Nat) :
    ∀ (recss : List (List (List Nat))) (pid : Nat) (p : List Nat),
      p ∈ dataPagesOf ps tid pid recss →
      ∃ next rs, rs ∈ recss ∧ p = dataPageBytes ps tid next rs := by
  intro recss
  induction recss with
  | nil => intro pid p hp; simp [dataPagesOf] at hp
  | cons rs rest ih =>
      intro pid p hp
      cases rest with
      | nil =>
          have h2 : p = dataPageBytes ps tid 0 rs := by simpa [dataPagesOf] using hp
          exact ⟨0, rs, by simp, h2⟩
      | cons rs2 rest2 =>
          rw [show dataPagesOf ps tid pid (rs :: rs2 :: rest2) =
              dataPageBytes ps tid (pid + 1) rs ::
                dataPagesOf ps tid (pid + 1) (rs2 :: rest2) from rfl] at hp
          rcases List.mem_cons.1 hp with h | h
          · exact ⟨pid + 1, rs, by simp, h⟩
          · obtain ⟨next, rs3, hm, he⟩ := ih (pid + 1) p h
            exact ⟨next, rs3, by simp [hm], he⟩

theorem loadPass1_skip :
    ∀ (pages : List (List Nat)) (db : DB) (pid : Nat),
      (∀ p ∈ pages, p.length ≠ 0 ∧ byteAt p 0 ≠ PTTable) →
      db.nextPageID = pid →
      loadPass1 db pages pid = .ok { db with nextPageID := pid + pages.length } := by
  intro pages
  induction pages with
  | nil =>
      intro db pid hcond hnp
      rw [← hnp]
      rfl
  | cons p rest ih =>
      intro db pid hcond hnp
      simp only [loadPass1]
      rw [if_pos (le_of_eq hnp)]
      rw [if_neg (hcond p (by simp)).1, if_neg (hcond p (by simp)).2]
      rw [ih { db with nextPageID := pid + 1 } (pid + 1)
        (fun q hq => hcond q (by simp [hq])) rfl]
      refine congrArg Res.ok (DB.ext rfl rfl rfl rfl ?_ rfl)
      show pid + 1 + rest.length = pid + (p :: rest).length
      rw [List.length_cons]
      omega

theorem loadPass1_table_eq (db : DB) (page : List Nat) (rest : List (List Nat))
    (pid : Nat) (tbl : Table)
    (hnp : db.nextPageID ≤ pid)
    (hl : page.length ≠ 0) (hty : byteAt page 0 = PTTable)
    (hdes : deserializeTable page = some tbl) :
    loadPass1 db (page :: rest) pid =
      loadPass1 { db with nextPageID := pid + 1, rowIndices := aInsert db.rowIndices tbl.name [], tables := aInsert db.tables tbl.name tbl, nextTableID := if db.nextTableID ≤ tbl.id then tbl.id + 1 else db.nextTableID } rest (pid + 1) := by
  simp only [loadPass1]
  rw [if_pos hnp, if_neg hl, if_pos hty, hdes]

theorem loadPass1_mkDB (ps : Nat) (t : Table) (recss : List (List (List Nat)))
    (hG : Good ps t recss) :
    loadPass1
      { pageSize := ps, file := (mkDB ps t recss).file, tables := [], rowIndices := [], nextPageID := 0, nextTableID := 1 }
      (mkDB ps t recss).file 0 =
      .ok { pageSize := ps, file := (mkDB ps t recss).file, tables := [(t.name, { t with firstPageID := 0, lastPageID := 0 })], rowIndices := [(t.name, [])], nextPageID := recss.length + 1, nextTableID := t.id + 1 } := by
  obtain ⟨hps17, hps16, hwf, hid1, hfitT, hfp1, hlp, hne, hfitP⟩ := hG
  obtain ⟨hn, hp, hc, hid32, hcols⟩ := hwf
  have hTP : serializeTable t (initPage ps PTTable t.id) =
      pageHeaderBytes PTTable t.id 0 0 (17 + (tableSchemaBytes t).length) ++
        (tableSchemaBytes t ++ List.replicate (ps - 17 - (tableSchemaBytes t).length) 0) :=
    serializeTable_initPage t ps hn hp (fun c hc2 => (hcols c hc2).1) hfitT
  have hTPlen : (serializeTable t (initPage ps PTTable t.id)).length = ps := by
    rw [hTP]
    simp [pageHeaderBytes_length]
    omega
  have hdes : deserializeTable (serializeTable t (initPage ps PTTable t.id)) =
      some { t with firstPageID := 0, lastPageID := 0 } := by
    rw [hTP]
    exact deserializeTable_spec t PTTable 0 0 (17 + (tableSchemaBytes t).length)
      (List.replicate (ps - 17 - (tableSchemaBytes t).length) 0) ⟨hn, hp, hc, hid32, hcols⟩
  have hty : byteAt (serializeTable t (initPage ps PTTable t.id)) 0 = PTTable := by
    rw [hTP, headerAt_type]
    decide
  nth_rewrite 2 [mkDB_file]
  rw [loadPass1_table_eq _ _ _ _ { t with firstPageID := 0, lastPageID := 0 }
    (Nat.le_refl 0) (by rw [hTPlen]; omega) hty hdes]
  rw [if_pos (show (1 : Nat) ≤ ({ t with firstPageID := 0, lastPageID := 0 } : Table).id from hid1)]
  rw [loadPass1_skip (dataPagesOf ps t.id 1 recss) _ (0 + 1)
    (fun q hq => by
      obtain ⟨next, rs, hm, rfl⟩ := dataPagesOf_mem ps t.id recss 1 q hq
      refine ⟨?_, ?_⟩
      · rw [dataPageBytes_length _ _ _ _ (hfitP rs hm)]
        omega
      · rw [dataPage_type]
        decide) rfl]
  refine congrArg Res.ok (DB.ext rfl rfl rfl rfl ?_ rfl)
  show 0 + 1 + (dataPagesOf ps t.id 1 recss).length = recss.length + 1
  rw [dataPagesOf_length]
  omega

theorem loadPass2_data_eq (db : DB) (page : List Nat) (rest : List (List Nat))
    (pid : Nat) (tbl t2 : Table) (newIdx : List RowIndex)
    (hl : ¬ page.length = 0) (hty : byteAt page 0 = PTData)
    (hfind : findTableByID db.tables (readU32 page 1) = some tbl)
    (ht2 : t2 = if readU64 page 7 = 0 then { (if tbl.firstPageID = 0 then { tbl with firstPageID := pid } else tbl) with lastPageID := pid } else (if tbl.firstPageID = 0 then { tbl with firstPageID := pid } else tbl))
    (hidx : indexRowsInPage { db with tables := aInsert db.tables t2.name t2 } page pid t2 = some newIdx) :
    loadPass2 db (page :: rest) pid =
      loadPass2 { db with tables := aInsert db.tables t2.name t2, rowIndices := aInsert db.rowIndices t2.name newIdx } rest (pid + 1) := by
  simp only [loadPass2]
  rw [if_neg hl, if_pos hty]
  split
  · rename_i heq
    rw [hfind] at heq
    exact Option.noConfusion heq
  · rename_i table heq
    rw [hfind] at heq
    injection heq with h
    subst h
    rw [← ht2]
    rw [hidx]

set_option maxHeartbeats 1000000 in
theorem loadPass2_chain (ps : Nat) (t : Table) (F : List (List Nat)) (N M : Nat)
    (hps16 : ps < 65536) (hid32 : t.id < 2 ^ 32) :
    ∀ (todo done : List (List (List Nat))) (tcur : Table),
      todo ≠ [] →
      done.length + todo.length < 2 ^ 64 →
      (∀ rs ∈ done ++ todo, 17 + (payloadBytes rs).length ≤ ps) →
      tcur.id = t.id → tcur.name = t.name →
      ((done = [] ∧ tcur.firstPageID = 0) ∨ (done ≠ [] ∧ tcur.firstPageID = 1)) →
      loadPass2 { pageSize := ps, file := F, tables := [(t.name, tcur)], rowIndices := [(t.name, allEntries t.id 1 0 done)], nextPageID := N, nextTableID := M } (dataPagesOf ps t.id (done.length + 1) todo) (done.length + 1) =
        .ok { pageSize := ps, file := F, tables := [(t.name, { tcur with firstPageID := 1, lastPageID := done.length + todo.length })], rowIndices := [(t.name, allEntries t.id 1 0 (done ++ todo))], nextPageID := N, nextTableID := M } := by
  intro todo
  induction todo with
  | nil => intro done tcur hne _ _ _ _ _; exact absurd rfl hne
  | cons r rest ih =>
      intro done tcur hne h64 hfits hcid hcnm hfp
      have hfitr : 17 + (payloadBytes r).length ≤ ps := hfits r (by simp)
      have hbase : (if tcur.firstPageID = 0 then { tcur with firstPageID := done.length + 1 } else tcur) = { tcur with firstPageID := 1 } := by
        rcases hfp with ⟨hd0, hfp0⟩ | ⟨hdne, hfp1⟩
        · rw [if_pos hfp0]
          refine Table.ext rfl rfl rfl rfl ?_ rfl
          rw [hd0]
          rfl
        · rw [if_neg (by rw [hfp1]; omega)]
          exact Table.ext rfl rfl rfl rfl hfp1 rfl
      have hold : ∀ x ∈ allEntries t.id 1 0 done,
          x.tableID = tcur.id ∧ x.rowID ≤ (allEntries t.id 1 0 done).length := by
        intro x hx
        have hb := allEntries_bounds t.id done 1 0 x hx
        exact ⟨hb.1.trans hcid.symm, by rw [allEntries_length]; have := hb.2.2; omega⟩
      cases rest with
      | nil =>
          rw [show dataPagesOf ps t.id (done.length + 1) [r] = [dataPageBytes ps t.id 0 r] from rfl]
          have hfind : findTableByID [(t.name, tcur)] (readU32 (dataPageBytes ps t.id 0 r) 1) = some tcur := by
            rw [dataPage_tid ps t.id 0 r hid32]
            show (if tcur.id = t.id then some tcur else findTableByID [] t.id) = some tcur
            rw [if_pos hcid]
          have ht2 : ({ tcur with firstPageID := 1, lastPageID := done.length + 1 } : Table) = if readU64 (dataPageBytes ps t.id 0 r) 7 = 0 then { (if tcur.firstPageID = 0 then { tcur with firstPageID := done.length + 1 } else tcur) with lastPageID := done.length + 1 } else (if tcur.firstPageID = 0 then { tcur with firstPageID := done.length + 1 } else tcur) := by
            rw [dataPage_next ps t.id 0 r (by positivity), if_pos rfl, hbase]
          rw [loadPass2_data_eq _ _ _ _ tcur { tcur with firstPageID := 1, lastPageID := done.length + 1 } _
            (by rw [dataPageBytes_length _ _ _ _ hfitr]; omega)
            (dataPage_type ps t.id 0 r) hfind ht2
            (indexRowsInPage_dataPage _ ps t.id 0 (done.length + 1) _ r (allEntries t.id 1 0 done) hps16 hfitr
              (by rw [hcnm]; exact aLookup_single _ _)
              hold)]
          refine congrArg Res.ok (DB.ext rfl rfl ?_ ?_ rfl rfl)
          · show aInsert [(t.name, tcur)] tcur.name ({ tcur with firstPageID := 1, lastPageID := done.length + 1 } : Table) = [(t.name, ({ tcur with firstPageID := 1, lastPageID := done.length + 1 } : Table))]
            rw [hcnm, aInsert_single]
          · show aInsert [(t.name, allEntries t.id 1 0 done)] tcur.name (allEntries t.id 1 0 done ++ pageEntries tcur.id (done.length + 1) (allEntries t.id 1 0 done).length 17 r) = [(t.name, allEntries t.id 1 0 (done ++ [r]))]
            rw [hcnm, hcid, aInsert_single, allEntries_length]
            rw [allEntries_snoc t.id done 1 0 r]
            rw [show 1 + done.length = done.length + 1 from by omega]
            rw [show (0 : Nat) + totalRows done = totalRows done from by omega]
      | cons r2 rest2 =>
          rw [show dataPagesOf ps t.id (done.length + 1) (r :: r2 :: rest2) = dataPageBytes ps t.id (done.length + 1 + 1) r :: dataPagesOf ps t.id (done.length + 1 + 1) (r2 :: rest2) from rfl]
          have hNXlt : done.length + 1 + 1 < 2 ^ 64 := by
            simp only [List.length_cons] at h64
            omega
          have hfind : findTableByID [(t.name, tcur)] (readU32 (dataPageBytes ps t.id (done.length + 1 + 1) r) 1) = some tcur := by
            rw [dataPage_tid ps t.id (done.length + 1 + 1) r hid32]
            show (if tcur.id = t.id then some tcur else findTableByID [] t.id) = some tcur
            rw [if_pos hcid]
          have ht2 : ({ tcur with firstPageID := 1 } : Table) = if readU64 (dataPageBytes ps t.id (done.length + 1 + 1) r) 7 = 0 then { (if tcur.firstPageID = 0 then { tcur with firstPageID := done.length + 1 } else tcur) with lastPageID := done.length + 1 } else (if tcur.firstPageID = 0 then { tcur with firstPageID := done.length + 1 } else tcur) := by
            rw [dataPage_next ps t.id (done.length + 1 + 1) r hNXlt, if_neg (by omega), hbase]
          rw [loadPass2_data_eq _ _ _ _ tcur { tcur with firstPageID := 1 } _
            (by rw [dataPageBytes_length _ _ _ _ hfitr]; omega)
            (dataPage_type ps t.id (done.length + 1 + 1) r) hfind ht2
            (indexRowsInPage_dataPage _ ps t.id (done.length + 1 + 1) (done.length + 1) _ r (allEntries t.id 1 0 done) hps16 hfitr
              (by rw [hcnm]; exact aLookup_single _ _)
              hold)]
          have hrec : ({ pageSize := ps, file := F, tables := aInsert [(t.name, tcur)] ({ tcur with firstPageID := 1 } : Table).name ({ tcur with firstPageID := 1 } : Table), rowIndices := aInsert [(t.name, allEntries t.id 1 0 done)] ({ tcur with firstPageID := 1 } : Table).name (allEntries t.id 1 0 done ++ pageEntries ({ tcur with firstPageID := 1 } : Table).id (done.length + 1) (allEntries t.id 1 0 done).length 17 r), nextPageID := N, nextTableID := M } : DB) = { pageSize := ps, file := F, tables := [(t.name, ({ tcur with firstPageID := 1 } : Table))], rowIndices := [(t.name, allEntries t.id 1 0 (done ++ [r]))], nextPageID := N, nextTableID := M } := by
            refine DB.ext rfl rfl ?_ ?_ rfl rfl
            · show aInsert [(t.name, tcur)] tcur.name ({ tcur with firstPageID := 1 } : Table) = [(t.name, ({ tcur with firstPageID := 1 } : Table))]
              rw [hcnm, aInsert_single]
            · show aInsert [(t.name, allEntries t.id 1 0 done)] tcur.name (allEntries t.id 1 0 done ++ pageEntries tcur.id (done.length + 1) (allEntries t.id 1 0 done).length 17 r) = [(t.name, allEntries t.id 1 0 (done ++ [r]))]
              rw [hcnm, hcid, aInsert_single, allEntries_length]
              rw [allEntries_snoc t.id done 1 0 r]
              rw [show 1 + done.length = done.length + 1 from by omega]
              rw [show (0 : Nat) + totalRows done = totalRows done from by omega]
          rw [hrec]
          rw [show done.length + 1 + 1 = (done ++ [r]).length + 1 from by simp]
          rw [ih (done ++ [r]) { tcur with firstPageID := 1 } (by simp)
            (by simp only [List.length_append, List.length_cons, List.length_nil] at h64 ⊢; omega)
            (fun rs hm => hfits rs (by rw [show (done ++ [r]) ++ (r2 :: rest2) = done ++ r :: r2 :: rest2 from by simp] at hm; exact hm))
            hcid hcnm (Or.inr ⟨by simp, rfl⟩)]
          refine congrArg Res.ok (DB.ext rfl rfl ?_ ?_ rfl rfl)
          · refine congrArg (fun x => [(t.name, x)]) (Table.ext rfl rfl rfl rfl rfl ?_)
            show (done ++ [r]).length + (r2 :: rest2).length = done.length + (r :: r2 :: rest2).length
            simp only [List.length_append, List.length_cons, List.length_nil]
            omega
          · refine congrArg (fun x => [(t.name, x)]) ?_
            rw [show (done ++ [r]) ++ (r2 :: rest2) = done ++ r :: r2 :: rest2 from by simp]
theorem loadPass2_skip_eq (db : DB) (page : List Nat) (rest : List (List Nat)) (pid : Nat)
    (hl : ¬ page.length = 0) (hty : ¬ byteAt page 0 = PTData) :
    loadPass2 db (page :: rest) pid = loadPass2 db rest (pid + 1) := by
  simp only [loadPass2]
  rw [if_neg hl, if_neg hty]

set_option maxHeartbeats 1000000 in
theorem loadExistingData_mkDB (ps : Nat) (t : Table) (recss : List (List (List Nat)))
    (hG : Good ps t recss) (h64 : recss.length < 2 ^ 64) :
    loadExistingData ps (mkDB ps t recss).file = .ok (mkDB ps t recss) := by
  obtain ⟨hps17, hps16, hwf, hid1, hfitT, hfp1, hlp, hne, hfitP⟩ := hG
  have hid32 : t.id < 2 ^ 32 := hwf.2.2.2.1
  have hTP : serializeTable t (initPage ps PTTable t.id) =
      pageHeaderBytes PTTable t.id 0 0 (17 + (tableSchemaBytes t).length) ++
        (tableSchemaBytes t ++ List.replicate (ps - 17 - (tableSchemaBytes t).length) 0) :=
    serializeTable_initPage t ps hwf.1 hwf.2.1 (fun c hc2 => (hwf.2.2.2.2 c hc2).1) hfitT
  have hTPlen : (serializeTable t (initPage ps PTTable t.id)).length = ps := by
    rw [hTP]
    simp [pageHeaderBytes_length]
    omega
  have htyTP : byteAt (serializeTable t (initPage ps PTTable t.id)) 0 = PTTable := by
    rw [hTP, headerAt_type]
    decide
  unfold loadExistingData
  rw [loadPass1_mkDB ps t recss ⟨hps17, hps16, hwf, hid1, hfitT, hfp1, hlp, hne, hfitP⟩]
  show loadPass2 { pageSize := ps, file := (mkDB ps t recss).file, tables := [(t.name, { t with firstPageID := 0, lastPageID := 0 })], rowIndices := [(t.name, [])], nextPageID := recss.length + 1, nextTableID := t.id + 1 } (mkDB ps t recss).file 0 = .ok (mkDB ps t recss)
  nth_rewrite 2 [mkDB_file]
  rw [loadPass2_skip_eq _ _ _ _ (by rw [hTPlen]; omega) (by rw [htyTP]; decide)]
  have hchain := loadPass2_chain ps t (mkDB ps t recss).file (recss.length + 1) (t.id + 1)
    hps16 hid32 recss [] { t with firstPageID := 0, lastPageID := 0 }
    hne (by simpa using h64) (fun rs hm => hfitP rs (by simpa using hm)) rfl rfl
    (Or.inl ⟨rfl, rfl⟩)
  refine Eq.trans hchain (congrArg Res.ok (DB.ext rfl rfl ?_ ?_ rfl rfl))
  · refine congrArg (fun x => [(t.name, x)]) (Table.ext rfl rfl rfl rfl hfp1.symm ?_)
    show ([] : List (List (List Nat))).length + recss.length = t.lastPageID
    rw [hlp]
    simp
  · rfl

/-- C2: reopening the stored file of a state reached by `CreateTable`
followed by any successful sequence of inserts returns a database on
which `ListTables`, `GetRowCount` and `SelectAll` agree with the state
before closing. -/
theorem c2_reopen_preserves (ps : Nat) (name : GoStr) (columns : List Column) (pk : GoStr)
    (vals : List RowValues) (db0 db1 db' : DB)
    (h0 : NewDatabase ps [] = .ok db0)
    (h1 : CreateTable db0 name columns pk = .ok db1)
    (hins : insertMany db1 name vals = .ok db')
    (hG : Good ps { id := 1, name := name, columns := columns, pk := pk, firstPageID := 1, lastPageID := 1 } [[]])
    (hpk : pk = [] ∨ (columns.any fun c => c.name == pk) = true)
    (h64 : 1 + vals.length < 2 ^ 64) :
    ∃ db2, NewDatabase ps db'.file = .ok db2 ∧
      ListTables db2 = ListTables db' ∧
      (∀ nm, GetRowCount db2 nm = GetRowCount db' nm) ∧
      (∀ nm, SelectAll db2 nm = SelectAll db' nm) := by
  have h0' : Res.ok { pageSize := ps, file := [], tables := [], rowIndices := [], nextPageID := 0, nextTableID := 1 } = Res.ok db0 := h0
  injection h0' with h0''
  subst h0''
  rw [CreateTable_fresh ps name columns pk hG.1 hpk] at h1
  injection h1 with h1'
  subst h1'
  have hins' : insertMany
      (mkDB ps { id := 1, name := name, columns := columns, pk := pk, firstPageID := 1, lastPageID := 1 } [[]])
      ({ id := 1, name := name, columns := columns, pk := pk, firstPageID := 1, lastPageID := 1 } : Table).name
      vals = .ok db' := hins
  obtain ⟨t', recss', hn, hi, htot, hlen, hG', rfl⟩ :=
    insertMany_mkDB ps vals _ [[]] db' hG hins'
  have hload : NewDatabase ps (mkDB ps t' recss').file = .ok (mkDB ps t' recss') := by
    unfold NewDatabase
    rw [if_neg (show ¬((mkDB ps t' recss').file.length = 0) from by rw [mkDB_file]; simp)]
    exact loadExistingData_mkDB ps t' recss' hG' (by
      have : ([[]] : List (List (List Nat))).length = 1 := rfl
      omega)
  exact ⟨mkDB ps t' recss', hload, rfl, fun nm => rfl, fun nm => rfl⟩

theorem c2_reopen_preserves_witness :
    ∃ db2, NewDatabase 32 (mkDB 32 { id := 1, name := [97], columns := [{ name := [98], type := TInteger, notNull := false }], pk := [], firstPageID := 1, lastPageID := 1 } [[[0, 1, 0, 0, 0, 0, 0, 0, 0]]]).file = .ok db2 ∧
      ListTables db2 = ListTables (mkDB 32 { id := 1, name := [97], columns := [{ name := [98], type := TInteger, notNull := false }], pk := [], firstPageID := 1, lastPageID := 1 } [[[0, 1, 0, 0, 0, 0, 0, 0, 0]]]) ∧
      (∀ nm, GetRowCount db2 nm = GetRowCount (mkDB 32 { id := 1, name := [97], columns := [{ name := [98], type := TInteger, notNull := false }], pk := [], firstPageID := 1, lastPageID := 1 } [[[0, 1, 0, 0, 0, 0, 0, 0, 0]]]) nm) ∧
      (∀ nm, SelectAll db2 nm = SelectAll (mkDB 32 { id := 1, name := [97], columns := [{ name := [98], type := TInteger, notNull := false }], pk := [], firstPageID := 1, lastPageID := 1 } [[[0, 1, 0, 0, 0, 0, 0, 0, 0]]]) nm) := by
  have hins : insertMany
      (mkDB 32 { id := 1, name := [97], columns := [{ name := [98], type := TInteger, notNull := false }], pk := [], firstPageID := 1, lastPageID := 1 } [[]])
      [97] [[([98], some (GoVal.gInt .kInt 1))]] =
      .ok (mkDB 32 { id := 1, name := [97], columns := [{ name := [98], type := TInteger, notNull := false }], pk := [], firstPageID := 1, lastPageID := 1 } [[[0, 1, 0, 0, 0, 0, 0, 0, 0]]]) := by
    simp [insertMany, Insert, mkDB, aLookup, validateRowData, validateColumns, mapLookup,
      validateValueType, checkUnknown, findPageForRow, serializeRow, rowFieldsBytes,
      fieldBytes, nullBitmap, bitsToByte, isNullLookup, int64ToU64, intKindToInt64,
      u64le, u32le, u16le, readFilePage, dataPagesOf, dataPageBytes, payloadBytes,
      recBytes, pageHeaderBytes, hasEnoughSpace, readU16, byteAt, addRowToPage,
      writeBytes, writeFilePage, putU16, putU64, putU32, putByte, idxInsert, rixLess,
      allEntries, pageEntries, serializeTable, serializeColumns, initPage, aInsert,
      totalRows]
  exact c2_reopen_preserves 32 [97] [{ name := [98], type := TInteger, notNull := false }] []
    [[([98], some (GoVal.gInt .kInt 1))]]
    { pageSize := 32, file := [], tables := [], rowIndices := [], nextPageID := 0, nextTableID := 1 }
    (mkDB 32 { id := 1, name := [97], columns := [{ name := [98], type := TInteger, notNull := false }], pk := [], firstPageID := 1, lastPageID := 1 } [[]])
    (mkDB 32 { id := 1, name := [97], columns := [{ name := [98], type := TInteger, notNull := false }], pk := [], firstPageID := 1, lastPageID := 1 } [[[0, 1, 0, 0, 0, 0, 0, 0, 0]]])
    rfl (by decide) hins (by unfold Good wfTable; decide) (Or.inl rfl) (by decide)

end Gdb
